import Mathlib

/-!
# Floor object detection (cellbots RobotsideApp): a shallow embedding

Two copies of `FloorObjectDetector::ProcessDepthAndColorImages` exist in the
repository:

* the robot copy (`robot/src/main/jni/vision/floor_object_detection/`), called
  Variant B in the specification, embedded in namespace `Robot`;
* the app copy (`app/src/main/jni/floor_object_detection/`), called Variant A,
  embedded in namespace `App`.

Conventions of the embedding.

* `float` and `double` values are exact rationals (`ℚ`); rounding is not
  modelled, and the casts `(float)` are the identity.
* `int` values are `Int`; counters that never go below zero are `Nat`.
* A `cv::Mat` of floats is its shape together with the memory it points into,
  addressed by the offset from its first element (`Mat.data`).  A matrix built
  over a caller buffer shares that buffer, so writing through the matrix is
  writing the buffer.
* OpenCV and libm are external: `sqrt`, `findContours`, `contourArea` and
  `boundingRect` are fields of `CvLib`; `cv::Mat::inv` on the 3 x 3 normal
  matrix, `cv::threshold`, `setTo`, `repeat`, `mul`, `copyTo` and `minMaxLoc`
  are written out from their documented behaviour.
* The colour image only feeds debug pictures (conversion, resize, drawing,
  `imwrite`); it never reaches the returned array and is left out.
* `assert`s are the preconditions of a call; they are collected in
  `Robot.Preconditions` and `App.Preconditions` and are not executed.
-/

namespace FloorObjectDetection

/-! ## Shared data model -/

/-- Memory holding floats, addressed by offset from a base pointer. -/
abbrev Buffer := Int → ℚ

/-- A `cv::Mat` of `CV_32FC1` (also used for the 8-bit masks, whose entries are 0 or 255). -/
structure Mat where
  rows : Int
  cols : Int
  data : Buffer

/-- Element access `m.at<float>(row, col)`: row-major addressing. -/
def Mat.at (m : Mat) (row col : Int) : ℚ := m.data (row * m.cols + col)

/-- A `cv::Rect`: top-left corner and size. -/
structure Rect where
  x : Int
  y : Int
  width : Int
  height : Int
deriving DecidableEq

/-- A `cv::Point3f`. -/
structure Point3f where
  x : ℚ
  y : ℚ
  z : ℚ
deriving DecidableEq

/-- One entry of `points_location` together with the entry of `points_depth`
pushed in the same loop iteration (the two vectors always grow together). -/
structure Sample where
  location : Point3f
  depth : ℚ
deriving DecidableEq

/-- A contour as `findContours` returns it: a list of pixel positions `(x, y)`. -/
abbrev Contour := List (Int × Int)

/-- The external functions the detector calls. -/
structure CvLib where
  sqrt : ℚ → ℚ
  findContours : Mat → List Contour
  contourArea : Contour → ℚ
  boundingRect : Contour → Rect

/-- The detector object: its only member is `prev_image_timestamp_`, initially 0. -/
structure Detector where
  prev_image_timestamp_ : ℚ
deriving DecidableEq

/-- A freshly constructed detector (`double prev_image_timestamp_ = 0;`). -/
def Detector.initial : Detector := ⟨0⟩

/-- What a call leaves behind: the returned pointer (`none` is `nullptr`, otherwise
the floats of the returned array), the detector afterwards and the caller's
depth buffer afterwards. -/
structure CallResult where
  ret : Option (List ℚ)
  detector : Detector
  depth_image : Buffer

/-- The C cast `(int) q`: truncation toward zero. -/
def truncToInt (q : ℚ) : Int := if 0 ≤ q then ⌊q⌋ else ⌈q⌉

/-- The values `lo, lo + 1, ..., hi - 1` of a loop `for (int i = lo; i < hi; ++i)`. -/
def intRange (lo hi : Int) : List Int :=
  (List.range (hi - lo).toNat).map (fun k => lo + (k : Int))

/-- Whether pixel `(row, col)` lies in the rectangle. -/
def Rect.contains (r : Rect) (row col : Int) : Bool :=
  decide (r.y ≤ row ∧ row < r.y + r.height ∧ r.x ≤ col ∧ col < r.x + r.width)

/-- Whether the offset is one of the elements of the matrix. -/
def Mat.inBounds (m : Mat) (k : Int) : Bool := decide (0 ≤ k ∧ k < m.rows * m.cols)

/-- The call `m(roi).setTo(v)`: every element of `m` inside `roi` becomes `v`; the
write goes to the memory `m` points into. -/
def Mat.setToRoi (m : Mat) (roi : Rect) (v : ℚ) : Mat :=
  { m with data := fun k =>
      if m.inBounds k && roi.contains (k / m.cols) (k % m.cols) then v else m.data k }

/-- The call `cv::threshold(src, dst, thresh, 0.0, cv::THRESH_TOZERO_INV)`: a fresh
matrix with `dst = 0` where `src > thresh` and `dst = src` elsewhere. -/
def thresholdToZeroInv (src : Mat) (thresh : ℚ) : Mat :=
  { src with data := fun k => if src.data k > thresh then 0 else src.data k }

/-- The call `cv::threshold(src, dst, thresh, maxval, cv::THRESH_BINARY)`: a fresh
matrix with `dst = maxval` where `src > thresh` and `dst = 0` elsewhere. -/
def thresholdBinary (src : Mat) (thresh maxval : ℚ) : Mat :=
  { src with data := fun k => if src.data k > thresh then maxval else 0 }

/-- The call `src.copyTo(dst, mask)` into an empty `dst`: `dst` is allocated with
zeros and receives `src` where the mask is non-zero. -/
def copyToMasked (src mask : Mat) : Mat :=
  { src with data := fun k => if mask.data k ≠ 0 then src.data k else 0 }

/-! ## Run-length labelling of one scan line (both copies) -/

/-- The variables of the labelling loop.  `labeled` is the one-line label matrix
(`cv::Mat::zeros`), `pos` the loop counter.  `component_depth` is declared inside
the loop body in the source; the embedding carries its value from one pixel to
the next, which is what the comparison against it relies on. -/
structure LabelState where
  labeled : Nat → Nat
  labels_count : List Nat
  component_active : Bool
  component_count : Nat
  latest_label : Nat
  component_depth : ℚ
  pos : Nat

/-- The state before the first pixel. `component_depth` is not read before it is written. -/
def LabelState.init : LabelState :=
  { labeled := fun _ => 0, labels_count := [], component_active := false,
    component_count := 0, latest_label := 0, component_depth := 0, pos := 0 }

/-- One iteration of the labelling loop on the pixel of depth `current_depth`;
`floorMin` is `kFloorMinDepth` in the robot copy and `0` in the app copy. -/
def labelStep (floorMin : ℚ) (s : LabelState) (current_depth : ℚ) : LabelState :=
  if current_depth > floorMin then
    if s.component_active then
      if |current_depth - s.component_depth| < 0.03 then
        { s with labeled := Function.update s.labeled s.pos s.latest_label,
                 component_depth := current_depth,
                 component_count := s.component_count + 1,
                 pos := s.pos + 1 }
      else
        { s with latest_label := s.latest_label + 1,
                 labeled := Function.update s.labeled s.pos (s.latest_label + 1),
                 component_depth := current_depth,
                 labels_count := s.labels_count ++ [s.component_count],
                 component_count := 1,
                 pos := s.pos + 1 }
    else
      { s with latest_label := s.latest_label + 1,
               labeled := Function.update s.labeled s.pos (s.latest_label + 1),
               component_depth := current_depth,
               labels_count := s.labels_count ++ [s.component_count],
               component_count := 1,
               component_active := true,
               pos := s.pos + 1 }
  else
    { s with component_active := false,
             labeled := Function.update s.labeled s.pos 0,
             pos := s.pos + 1 }

/-- The labelling loop over a whole line. -/
def labelLine (floorMin : ℚ) (line : List ℚ) : LabelState :=
  line.foldl (labelStep floorMin) LabelState.init

/-- The vector `labels_count` after the final `push_back(component_count)`. -/
def labelsCount (floorMin : ℚ) (line : List ℚ) : List Nat :=
  (labelLine floorMin line).labels_count ++ [(labelLine floorMin line).component_count]

/-- The scan of `std::max_element`: `(index, value)` of the largest element seen so
far, replaced only by a strictly larger one; `i` is the index of the head of the
remaining list. -/
def maxElementFrom : List Nat → Nat → Nat × Nat → Nat × Nat
  | [], _, best => best
  | v :: rest, i, best =>
      maxElementFrom rest (i + 1) (if best.2 < v then (i, v) else best)

/-- The pair `(max_labels_count_idx, max_label_count)` of a non-empty vector, as
`std::max_element` and `std::distance` give it. -/
def maxElement : List Nat → Nat × Nat
  | [] => (0, 0)
  | v :: rest => maxElementFrom rest 1 (0, v)

/-- The value `max_labels_count_idx`. -/
def maxLabelsCountIdx (floorMin : ℚ) (line : List ℚ) : Nat :=
  (maxElement (labelsCount floorMin line)).1

/-- The value `max_label_count`. -/
def maxLabelCount (floorMin : ℚ) (line : List ℚ) : Nat :=
  (maxElement (labelsCount floorMin line)).2

/-- The vector `max_label_indxs`: the positions whose label is `max_labels_count_idx`,
collected by a loop over the whole line. -/
def maxLabelIndxs (floorMin : ℚ) (line : List ℚ) : List Nat :=
  (List.range line.length).filter
    (fun i => (labelLine floorMin line).labeled i = maxLabelsCountIdx floorMin line)

/-- The loop `for (int j = lo; j < hi; j += step)`, collecting the values of `j` for which the
body runs.  It is run with a bound on the number of iterations: `none` means the
bound was reached with the loop still going. -/
def sampleLoop : Nat → Nat → Nat → Nat → Option (List Nat)
  | 0, _, _, _ => none
  | fuel + 1, j, hi, step =>
      if j < hi then (sampleLoop fuel (j + step) hi step).map (fun js => j :: js)
      else some []

/-- The offsets `j` visited by the sampling loop of a line whose winning run has
length `max_label_count`; `stepDiv` is 20 in the robot copy and 10 in the app copy.
The loop is given `max_label_count` iterations, which is enough whenever the
line passed the minimum-support check. -/
def sampleOffsets (stepDiv max_label_count : Nat) : List Nat :=
  (sampleLoop max_label_count (max_label_count / 10) (8 * max_label_count / 10)
    (max_label_count / stepDiv)).getD []

/-! ## Runs of a scan line, in the words of the specification -/

/-- The pixels `s, ..., s + len - 1` of the line form a run: they exist, each is above the
floor minimum, and each one after the first differs from its predecessor by less
than 0.03. -/
def IsRun (floorMin : ℚ) (line : List ℚ) (s len : Nat) : Prop :=
  s + len ≤ line.length ∧
  (∀ i, i < len → line.getD (s + i) 0 > floorMin) ∧
  (∀ i, i < len - 1 → |line.getD (s + i + 1) 0 - line.getD (s + i) 0| < 0.03)

instance IsRun.decidable (floorMin : ℚ) (line : List ℚ) (s len : Nat) :
    Decidable (IsRun floorMin line s len) := by
  unfold IsRun
  infer_instance

/-- A maximal run: a non-empty run that can be extended neither by the pixel after it nor
by the pixel before it. -/
def IsMaximalRun (floorMin : ℚ) (line : List ℚ) (s len : Nat) : Prop :=
  0 < len ∧ IsRun floorMin line s len ∧ ¬ IsRun floorMin line s (len + 1) ∧
    (0 < s → ¬ IsRun floorMin line (s - 1) (len + 1))

instance IsMaximalRun.decidable (floorMin : ℚ) (line : List ℚ) (s len : Nat) :
    Decidable (IsMaximalRun floorMin line s len) := by
  unfold IsMaximalRun
  infer_instance

/-- What holds of the labelling loop after `n` pixels of `line`. -/
structure LabelInv (fm : ℚ) (line : List ℚ) (n : Nat) (s : LabelState) : Prop where
  pos_eq : s.pos = n
  count_len : s.labels_count.length = s.latest_label
  zero_iff : ∀ i, i < n → (s.labeled i = 0 ↔ ¬ fm < line.getD i 0)
  le_latest : ∀ i, i < n → s.labeled i ≤ s.latest_label
  closed : ∀ k, 1 ≤ k → k < s.latest_label →
    ∃ st, IsMaximalRun fm line st (s.labels_count.getD k 0) ∧
      st + s.labels_count.getD k 0 ≤ n ∧
      ∀ i, i < n → (s.labeled i = k ↔ st ≤ i ∧ i < st + s.labels_count.getD k 0)
  current : 1 ≤ s.latest_label →
    ∃ st, 0 < s.component_count ∧ IsRun fm line st s.component_count ∧
      (0 < st → ¬ IsRun fm line (st - 1) (s.component_count + 1)) ∧
      st + s.component_count ≤ n ∧
      (∀ i, i < n → (s.labeled i = s.latest_label ↔ st ≤ i ∧ i < st + s.component_count)) ∧
      (s.component_active = true → st + s.component_count = n) ∧
      (s.component_active = false →
        st + s.component_count < n ∧ ¬ fm < line.getD (st + s.component_count) 0)
  fresh : s.latest_label = 0 → s.component_count = 0 ∧ s.component_active = false
  mono : ∀ i j, i ≤ j → j < n → 1 ≤ s.labeled i → 1 ≤ s.labeled j →
    s.labeled i ≤ s.labeled j
  head_zero : s.labels_count.getD 0 0 = 0
  active_iff : 0 < n → (s.component_active = true ↔ fm < line.getD (n - 1) 0)
  depth_eq : s.component_active = true → s.component_depth = line.getD (n - 1) 0

/-! ## Plane fit (both copies) -/

/-- The matrix `left_hand_side`: one row `(x, y, z)` per sample. -/
def leftHandSide (samples : List Sample) : Matrix (Fin samples.length) (Fin 3) ℚ :=
  Matrix.of fun k j => ![(samples.get k).location.x, (samples.get k).location.y,
                         (samples.get k).location.z] j

/-- The matrix `right_hand_side`: one row holding the sample depth. -/
def rightHandSide (samples : List Sample) : Matrix (Fin samples.length) (Fin 1) ℚ :=
  Matrix.of fun k _ => (samples.get k).depth

/-- The determinant of a 3 x 3 matrix as OpenCV's `det3` computes it. -/
def det3 (m : Matrix (Fin 3) (Fin 3) ℚ) : ℚ :=
  m 0 0 * (m 1 1 * m 2 2 - m 1 2 * m 2 1)
    - m 0 1 * (m 1 0 * m 2 2 - m 1 2 * m 2 0)
    + m 0 2 * (m 1 0 * m 2 1 - m 1 1 * m 2 0)

/-- The call `m.inv()` (`cv::invert`, `DECOMP_LU`) on a 3 x 3 matrix: the cofactor formula
when the determinant is non-zero, the zero matrix when the matrix is singular. -/
def cvInv3 (m : Matrix (Fin 3) (Fin 3) ℚ) : Matrix (Fin 3) (Fin 3) ℚ :=
  if det3 m = 0 then 0
  else
    Matrix.of ![
      ![(m 1 1 * m 2 2 - m 1 2 * m 2 1) / det3 m,
        (m 0 2 * m 2 1 - m 0 1 * m 2 2) / det3 m,
        (m 0 1 * m 1 2 - m 0 2 * m 1 1) / det3 m],
      ![(m 1 2 * m 2 0 - m 1 0 * m 2 2) / det3 m,
        (m 0 0 * m 2 2 - m 0 2 * m 2 0) / det3 m,
        (m 0 2 * m 1 0 - m 0 0 * m 1 2) / det3 m],
      ![(m 1 0 * m 2 1 - m 1 1 * m 2 0) / det3 m,
        (m 0 1 * m 2 0 - m 0 0 * m 2 1) / det3 m,
        (m 0 0 * m 1 1 - m 0 1 * m 1 0) / det3 m]]

/-- The product `left_hand_side_transpose * left_hand_side`. -/
def normalMatrix (samples : List Sample) : Matrix (Fin 3) (Fin 3) ℚ :=
  (leftHandSide samples).transpose * leftHandSide samples

/-- The matrix `plane`:
`(((lhs_t * lhs).inv()) * lhs_t) * right_hand_side`. -/
def fitPlane (samples : List Sample) : Matrix (Fin 3) (Fin 1) ℚ :=
  ((cvInv3 (normalMatrix samples)) * (leftHandSide samples).transpose) * rightHandSide samples

/-- The matrix `diff_filtered`: the residual
`(a * Xs_Zs + b * Ys_Zs + c - depth_filtered) / vec_plane_norm`, kept where
`depth_filtered > 0` (the mask `depth_mask`) and 0 elsewhere.  `cols_x` and `rows_y`
are the two coordinate arrays, repeated over the image into `Xs` and `Ys`. -/
def diffFiltered (lib : CvLib) (depth_filtered : Mat) (cols_x rows_y : Int → ℚ)
    (a_plane b_plane c_plane : ℚ) : Mat :=
  let Xs : Mat := { depth_filtered with data := fun k => cols_x (k % depth_filtered.cols) }
  let Ys : Mat := { depth_filtered with data := fun k => rows_y (k / depth_filtered.cols) }
  let Xs_Zs : Mat := { Xs with data := fun k => Xs.data k * depth_filtered.data k }
  let Ys_Zs : Mat := { Ys with data := fun k => Ys.data k * depth_filtered.data k }
  let vec_plane_norm : ℚ := lib.sqrt (a_plane ^ 2 + b_plane ^ 2 + 1)
  let diff : Mat := { depth_filtered with data := fun k =>
    (a_plane * Xs_Zs.data k + b_plane * Ys_Zs.data k + c_plane - depth_filtered.data k)
      / vec_plane_norm }
  let depth_mask : Mat := thresholdBinary depth_filtered 0 255
  copyToMasked diff depth_mask

/-- The vector `bound_rects`: the bounding rectangles of the contours from index 1
on whose area exceeds `minArea`. -/
def boundRects (lib : CvLib) (minArea : ℚ) (contours : List Contour) : List Rect :=
  ((contours.drop 1).filter (fun c => decide (lib.contourArea c > minArea))).map
    lib.boundingRect

/-! ## The robot copy (Variant B) -/

namespace Robot

/-- The constant `kProcessImagesFPS` of the robot copy. -/
def kProcessImagesFPS : Int := 10

/-- The constant `kFloorMinDepth`. -/
def kFloorMinDepth : ℚ := 0.65

/-- The arguments of a call: `depth_image_size` is `[depth_width, depth_height]` and
`depth_image_intrinsics` is `[depth_fx, depth_fy, depth_cx, depth_cy]`. -/
structure Frame where
  timestamp : ℚ
  depth_image : Buffer
  depth_width : Int
  depth_height : Int
  depth_fx : ℚ
  depth_fy : ℚ
  depth_cx : ℚ
  depth_cy : ℚ

/-- The assertions at the head of the function that concern the modelled arguments. -/
def Preconditions (f : Frame) : Prop :=
  0 < f.timestamp ∧ 0 < f.depth_width ∧ 0 < f.depth_height ∧
    0 < f.depth_fx ∧ 0 < f.depth_fy ∧ 0 < f.depth_cx ∧ 0 < f.depth_cy

/-- The rate gate: `timestamp < prev_image_timestamp_ + 1.0 / kProcessImagesFPS`. -/
def gateRejects (det : Detector) (timestamp : ℚ) : Bool :=
  decide (timestamp < det.prev_image_timestamp_ + 1 / (kProcessImagesFPS : ℚ))

/-- The matrix `depth_mat` built over the caller's buffer. -/
def depthMat (f : Frame) : Mat :=
  { rows := f.depth_height, cols := f.depth_width, data := f.depth_image }

/-- The value `edge_height = (int) (0.075 * depth_height)`. -/
def edgeHeight (depth_height : Int) : Int := truncToInt (0.075 * (depth_height : ℚ))

/-- The value `edge_width = (int) (0.1 * depth_width)`. -/
def edgeWidth (depth_width : Int) : Int := truncToInt (0.1 * (depth_width : ℚ))

/-- The matrix `depth_mat` after the four `setTo(0.f)` calls on its edge bands. -/
def zeroEdges (f : Frame) : Mat :=
  let depth_width := f.depth_width
  let depth_height := f.depth_height
  let edge_height := edgeHeight depth_height
  let edge_width := edgeWidth depth_width
  let m1 := (depthMat f).setToRoi ⟨0, 0, depth_width, edge_height⟩ 0
  let m2 := m1.setToRoi ⟨0, depth_height - edge_height, depth_width, edge_height⟩ 0
  let m3 := m2.setToRoi ⟨0, 0, edge_width, depth_height⟩ 0
  m3.setToRoi ⟨depth_width - edge_width, 0, edge_width, depth_height⟩ 0

/-- The matrix `depth_filtered`. -/
def depthFiltered (f : Frame) : Mat := thresholdToZeroInv (zeroEdges f) 1.5

/-- The depths of column `col` of `depth_filtered`, in the order the labelling loop reads them. -/
def columnLine (f : Frame) (col : Int) : List ℚ :=
  (intRange 0 f.depth_height).map (fun row => (depthFiltered f).at row col)

/-- The samples one iteration of the column loop pushes. -/
def columnSamples (f : Frame) (col : Int) : List Sample :=
  let line := columnLine f col
  let max_label_count := maxLabelCount kFloorMinDepth line
  if max_label_count < 20 then []
  else
    let max_label_indxs := maxLabelIndxs kFloorMinDepth line
    (sampleOffsets 20 max_label_count).map fun j =>
      let row : Int := ((max_label_indxs.getD j 0 : Nat) : Int)
      let current_point_depth := (depthFiltered f).at row col
      { location :=
          { x := ((col : ℚ) - f.depth_cx) * current_point_depth / f.depth_fx,
            y := ((row : ℚ) - f.depth_cy) * current_point_depth / f.depth_fy,
            z := 1 },
        depth := current_point_depth }

/-- The value `col_lower_range`. -/
def colLowerRange (depth_width : Int) : Int :=
  depth_width - truncToInt (0.2 * (depth_width : ℚ))

/-- The value `col_upper_range`. -/
def colUpperRange (depth_width : Int) : Int :=
  depth_width - truncToInt (0.12 * (depth_width : ℚ))

/-- The vectors `points_location` and `points_depth` after the column loop. -/
def floorSamples (f : Frame) : List Sample :=
  (intRange (colLowerRange f.depth_width) (colUpperRange f.depth_width)).flatMap
    (columnSamples f)

/-- The matrix `diff_filtered` of the robot copy. -/
def residualMap (lib : CvLib) (f : Frame) (a_plane b_plane c_plane : ℚ) : Mat :=
  diffFiltered lib (depthFiltered f)
    (fun i => ((i : ℚ) - f.depth_cx) / f.depth_fx)
    (fun j => ((j : ℚ) - f.depth_cy) / f.depth_fy)
    a_plane b_plane c_plane

/-- The matrix `components_image`. -/
def componentsImage (lib : CvLib) (f : Frame) (a_plane b_plane c_plane : ℚ) : Mat :=
  thresholdBinary (residualMap lib f a_plane b_plane c_plane) 0.035 255

/-- The back-projection denominator of the pixel corner `(px, py)`. -/
def denominator (f : Frame) (a_plane b_plane : ℚ) (px py : Int) : ℚ :=
  1 - ((px : ℚ) - f.depth_cx) * a_plane / f.depth_fx
    - ((py : ℚ) - f.depth_cy) * b_plane / f.depth_fy

/-- The three floats written for the corner `(px, py)` once its denominator is known
to be non-zero. -/
def cornerFloats (f : Frame) (a_plane b_plane c_plane : ℚ) (px py : Int) : List ℚ :=
  let depth := c_plane / denominator f a_plane b_plane px py
  [((px : ℚ) - f.depth_cx) * depth / f.depth_fx,
   ((py : ℚ) - f.depth_cy) * depth / f.depth_fy,
   depth]

/-- The output loop over `bound_rects`: the floats written from index 1 on, or
`none` when an iteration returns `nullptr` on a zero denominator. -/
def projectRects (f : Frame) (a_plane b_plane c_plane : ℚ) : List Rect → Option (List ℚ)
  | [] => some []
  | current_rect :: rest =>
      let tr_x := current_rect.x + current_rect.width
      let tr_y := current_rect.y
      let br_x := current_rect.x + current_rect.width
      let br_y := current_rect.y + current_rect.height
      if denominator f a_plane b_plane tr_x tr_y = 0 then none
      else if denominator f a_plane b_plane br_x br_y = 0 then none
      else
        (projectRects f a_plane b_plane c_plane rest).map fun tail =>
          cornerFloats f a_plane b_plane c_plane tr_x tr_y
            ++ cornerFloats f a_plane b_plane c_plane br_x br_y ++ tail

/-- The part of the function after the sample-count check: plane fit, residual
map, contours and output array. -/
def detectObjects (lib : CvLib) (f : Frame) (samples : List Sample) : Option (List ℚ) :=
  let plane := fitPlane samples
  let a_plane := plane 0 0
  let b_plane := plane 1 0
  let c_plane := plane 2 0
  let contours := lib.findContours (componentsImage lib f a_plane b_plane c_plane)
  let bound_rects := boundRects lib 150 contours
  (projectRects f a_plane b_plane c_plane bound_rects).map fun floats =>
    (bound_rects.length : ℚ) :: floats

/-- The function `FloorObjectDetector::ProcessDepthAndColorImages` of the robot copy. -/
def ProcessDepthAndColorImages (lib : CvLib) (det : Detector) (f : Frame) : CallResult :=
  if gateRejects det f.timestamp then
    { ret := none, detector := det, depth_image := f.depth_image }
  else
    let det1 : Detector := { prev_image_timestamp_ := f.timestamp }
    let samples := floorSamples f
    if samples.length < 50 then
      { ret := none, detector := det1, depth_image := (zeroEdges f).data }
    else
      { ret := detectObjects lib f samples, detector := det1,
        depth_image := (zeroEdges f).data }

end Robot

/-! ## The app copy (Variant A) -/

namespace App

/-- The constant `kProcessImagesFPS` of the app copy. -/
def kProcessImagesFPS : Int := 1

/-- The constant `fx`. -/
def fx : ℚ := 1521.046710

/-- The constant `fy`. -/
def fy : ℚ := 1518.999642

/-- The arguments of a call. -/
structure Frame where
  timestamp : ℚ
  depth_data : Buffer
  image_width : Int
  image_height : Int
  color_to_depth_ratio : Int

/-- The assertions at the head of the function that concern the modelled arguments. -/
def Preconditions (f : Frame) : Prop :=
  0 < f.timestamp ∧ 0 < f.image_width ∧ 0 < f.image_height ∧ 0 < f.color_to_depth_ratio

/-- The rate gate: `timestamp < prev_image_timestamp_ + 1.0 / kProcessImagesFPS`. -/
def gateRejects (det : Detector) (timestamp : ℚ) : Bool :=
  decide (timestamp < det.prev_image_timestamp_ + 1 / (kProcessImagesFPS : ℚ))

/-- The matrix `depth_filtered`: the threshold of `depth_mat`, itself built over the
caller's buffer. -/
def depthFiltered (f : Frame) : Mat :=
  thresholdToZeroInv
    { rows := f.image_height, cols := f.image_width, data := f.depth_data } 1.5

/-- The depths `depth_row[c]` of row `r`, in the order the labelling loop reads them. -/
def rowLine (f : Frame) (r : Int) : List ℚ :=
  (intRange 0 f.image_width).map (fun c => (depthFiltered f).at r c)

/-- The samples one iteration of the row loop pushes. -/
def rowSamples (f : Frame) (r : Int) : List Sample :=
  let line := rowLine f r
  let max_label_count := maxLabelCount 0 line
  if max_label_count < 100 then []
  else
    let max_label_indxs := maxLabelIndxs 0 line
    (sampleOffsets 10 max_label_count).map fun j =>
      let c : Int := ((max_label_indxs.getD j 0 : Nat) : Int)
      { location :=
          { x := ((c : ℚ) - (f.image_width : ℚ) / 2) / fx,
            y := ((r : ℚ) - (f.image_height : ℚ) / 2) / fy,
            z := 1 },
        depth := (depthFiltered f).at r c }

/-- The rows `image_height - 160, ..., image_height - 81` of the floor band loop. -/
def bandRows (image_height : Int) : List Int :=
  intRange (image_height - 160) (image_height - 80)

/-- The vectors `points_location` and `points_depth` after the row loop. -/
def floorSamples (f : Frame) : List Sample :=
  (bandRows f.image_height).flatMap (rowSamples f)

/-- The value `half_width = image_width / 2` (integer division, stored in a float). -/
def halfWidth (f : Frame) : ℚ := ((f.image_width / 2 : Int) : ℚ)

/-- The value `half_height = image_height / 2` (integer division, stored in a float). -/
def halfHeight (f : Frame) : ℚ := ((f.image_height / 2 : Int) : ℚ)

/-- The matrix `diff_filtered` of the app copy. -/
def residualMap (lib : CvLib) (f : Frame) (a_plane b_plane c_plane : ℚ) : Mat :=
  diffFiltered lib (depthFiltered f)
    (fun i => ((i : ℚ) - halfWidth f) / fx)
    (fun j => ((j : ℚ) - halfHeight f) / fy)
    a_plane b_plane c_plane

/-- The matrix `components_image`. -/
def componentsImage (lib : CvLib) (f : Frame) (a_plane b_plane c_plane : ℚ) : Mat :=
  thresholdBinary (residualMap lib f a_plane b_plane c_plane) 0.03 255

/-- The value `min_depth_val` of `cv::minMaxLoc(rect_roi, ..., rect_roi_nonzero)`: the
least entry of `depth_filtered` inside the rectangle among those that are `> 0`,
and 0 when there is none. -/
def minDepthVal (depth_filtered : Mat) (current_rect : Rect) : ℚ :=
  let vals :=
    ((intRange current_rect.y (current_rect.y + current_rect.height)).flatMap fun row =>
      (intRange current_rect.x (current_rect.x + current_rect.width)).map fun col =>
        depth_filtered.at row col).filter (fun v => decide (v > 0))
  match vals with
  | [] => 0
  | v :: vs => vs.foldl min v

/-- The five floats written for one rectangle. -/
def rectFloats (f : Frame) (current_rect : Rect) : List ℚ :=
  [((current_rect.x : ℚ) - halfWidth f) / fx,
   ((current_rect.y : ℚ) - halfHeight f) / fy,
   (((current_rect.x + current_rect.width : Int) : ℚ) - halfWidth f) / fx,
   (((current_rect.y + current_rect.height : Int) : ℚ) - halfHeight f) / fy,
   minDepthVal (depthFiltered f) current_rect]

/-- The part of the function after the sample-count check; it has no `return nullptr`. -/
def detectObjects (lib : CvLib) (f : Frame) (samples : List Sample) : List ℚ :=
  let plane := fitPlane samples
  let a_plane := plane 0 0
  let b_plane := plane 1 0
  let c_plane := plane 2 0
  let contours := lib.findContours (componentsImage lib f a_plane b_plane c_plane)
  let bound_rects := boundRects lib 1000 contours
  (bound_rects.length : ℚ) :: bound_rects.flatMap (rectFloats f)

/-- The function `FloorObjectDetector::ProcessDepthAndColorImages` of the app copy.  The
caller's buffer is never written. -/
def ProcessDepthAndColorImages (lib : CvLib) (det : Detector) (f : Frame) : CallResult :=
  if gateRejects det f.timestamp then
    { ret := none, detector := det, depth_image := f.depth_data }
  else
    let det1 : Detector := { prev_image_timestamp_ := f.timestamp }
    if f.color_to_depth_ratio ≠ 1 then
      { ret := none, detector := det1, depth_image := f.depth_data }
    else
      let samples := floorSamples f
      if samples.length < 100 then
        { ret := none, detector := det1, depth_image := f.depth_data }
      else
        { ret := some (detectObjects lib f samples), detector := det1,
          depth_image := f.depth_data }

end App

/-! ## Inputs used to exercise the statements -/

/-- A library stand-in that finds no contours. -/
def plainLib : CvLib :=
  { sqrt := fun q => q, findContours := fun _ => [], contourArea := fun _ => 0,
    boundingRect := fun _ => ⟨0, 0, 0, 0⟩ }

/-- A 20 x 20 robot frame of constant depth 1 with the principal point at (10, 10). -/
def smallFrameB : Robot.Frame :=
  { timestamp := 1, depth_image := fun _ => 1, depth_width := 20, depth_height := 20,
    depth_fx := 1, depth_fy := 1, depth_cx := 10, depth_cy := 10 }

/-- An app frame 4 pixels wide and 160 pixels high, of constant depth 1. -/
def smallFrameA : App.Frame :=
  { timestamp := 1, depth_data := fun _ => 1, image_width := 4, image_height := 160,
    color_to_depth_ratio := 1 }

/-- A 50 x 50 robot frame of depth 1 in which column 40 is cut off below row 23: its
longest run has 21 pixels, that of column 41 has 44. -/
def twoRunFrameB : Robot.Frame :=
  { timestamp := 1,
    depth_image := fun k => if k % 50 = 40 ∧ 24 ≤ k / 50 then 0 else 1,
    depth_width := 50, depth_height := 50,
    depth_fx := 1, depth_fy := 1, depth_cx := 25, depth_cy := 25 }

/-- A 120 x 160 app frame whose row 0 holds 100 pixels of depth 1 and whose other rows
hold 109. -/
def twoRunFrameA : App.Frame :=
  { timestamp := 1,
    depth_data := fun k => if k % 120 < (if k / 120 = 0 then 100 else 109) then 1 else 0,
    image_width := 120, image_height := 160, color_to_depth_ratio := 1 }

/-- Three samples with rows (0, 0, 1), (1, 0, 1), (0, 1, 1) and depths 1, 2, 3: they lie on
the plane (1, 2, 1). -/
def threeSamples : List Sample :=
  [⟨⟨0, 0, 1⟩, 1⟩, ⟨⟨1, 0, 1⟩, 2⟩, ⟨⟨0, 1, 1⟩, 3⟩]

/-- A 50 x 30 robot frame looking along a wall: with the principal point at column 20 the
pixel of column `col >= 40` has depth `20 / (col - 20)`, so every point has `X = 20`. -/
def wallFrameB : Robot.Frame :=
  { timestamp := 1,
    depth_image := fun k => if 40 ≤ k % 50 then 20 / (((k % 50 - 20 : Int) : ℚ)) else 0,
    depth_width := 50, depth_height := 30,
    depth_fx := 1, depth_fy := 1, depth_cx := 20, depth_cy := 15 }

/-- A 100 x 160 app frame whose rows 0 to 14 have depth 1 and whose other rows are empty. -/
def flatFrameA : App.Frame :=
  { timestamp := 1, depth_data := fun k => if k / 100 < 15 then 1 else 0,
    image_width := 100, image_height := 160, color_to_depth_ratio := 1 }

/-! ## Intermediate values of a frame -/

/-- The matrix `plane` of a robot frame that reached the plane fit. -/
def Robot.framePlane (f : Robot.Frame) : Matrix (Fin 3) (Fin 1) ℚ :=
  fitPlane (Robot.floorSamples f)

/-- The vector `bound_rects` of a robot frame that reached the contour search. -/
def Robot.frameRects (lib : CvLib) (f : Robot.Frame) : List Rect :=
  boundRects lib 150
    (lib.findContours (Robot.componentsImage lib f (Robot.framePlane f 0 0)
      (Robot.framePlane f 1 0) (Robot.framePlane f 2 0)))

/-- The vector `bound_rects` of an app frame that reached the contour search. -/
def App.frameRects (lib : CvLib) (f : App.Frame) : List Rect :=
  boundRects lib 1000
    (lib.findContours (App.componentsImage lib f (fitPlane (App.floorSamples f) 0 0)
      (fitPlane (App.floorSamples f) 1 0) (fitPlane (App.floorSamples f) 2 0)))

/-! ## A polygon library -/

/-- Twice the signed area of a closed polygon by the shoelace sum; `first` closes the
polygon. -/
def shoelaceSum (first : Int × Int) : List (Int × Int) → Int
  | [] => 0
  | [p] => p.1 * first.2 - first.1 * p.2
  | p :: q :: rest => p.1 * q.2 - q.1 * p.2 + shoelaceSum first (q :: rest)

/-- The area of the polygon through the points of a contour, as `cv::contourArea` computes
it. -/
def polygonArea (c : Contour) : ℚ :=
  match c with
  | [] => 0
  | p :: rest => |((shoelaceSum p (p :: rest) : Int) : ℚ)| / 2

/-- The least rectangle holding the points of a contour, as `cv::boundingRect` computes it:
its width and height count the pixels from the least to the greatest coordinate. -/
def pointsBoundingRect (c : Contour) : Rect :=
  match c with
  | [] => ⟨0, 0, 0, 0⟩
  | p :: rest =>
      let xmin := rest.foldl (fun m q => min m q.1) p.1
      let xmax := rest.foldl (fun m q => max m q.1) p.1
      let ymin := rest.foldl (fun m q => min m q.2) p.2
      let ymax := rest.foldl (fun m q => max m q.2) p.2
      ⟨xmin, ymin, xmax - xmin + 1, ymax - ymin + 1⟩

/-- A library stand-in whose contour search always returns the given contours and whose
area and bounding rectangle are those of polygons; its `sqrt` is right at 0 and 1. -/
def polygonLib (contours : List Contour) : CvLib :=
  { sqrt := fun q => q, findContours := fun _ => contours, contourArea := polygonArea,
    boundingRect := pointsBoundingRect }

/-- The outline of the pixel rectangle with corners `(x0, y0)` and `(x1, y1)`. -/
def rectContour (x0 y0 x1 y1 : Int) : Contour := [(x0, y0), (x1, y0), (x1, y1), (x0, y1)]

/-- A contour search that is right on masks holding at most one solid rectangle: it
returns the outline of the box around the non-zero pixels of the mask, if there are any.
The box runs from the first to the last row, and from the first to the last column, that
hold a non-zero pixel. -/
def boxContours (m : Mat) : List Contour :=
  let rowHas : Int → Bool := fun row => (intRange 0 m.cols).any fun col => m.at row col ≠ 0
  let colHas : Int → Bool := fun col => (intRange 0 m.rows).any fun row => m.at row col ≠ 0
  match (intRange 0 m.rows).find? rowHas, (intRange 0 m.rows).reverse.find? rowHas,
      (intRange 0 m.cols).find? colHas, (intRange 0 m.cols).reverse.find? colHas with
  | some y0, some y1, some x0, some x1 => [rectContour x0 y0 x1 y1]
  | _, _, _, _ => []

/-- A library stand-in for masks with at most one solid rectangle. -/
def blockLib : CvLib :=
  { sqrt := fun q => q, findContours := boxContours, contourArea := polygonArea,
    boundingRect := pointsBoundingRect }

/-- A 60 x 60 robot frame: a flat floor at depth 1 and a block of 40 x 40 pixels (rows 10
to 49, columns 7 to 46) at depth 0.9. -/
def blockFrameB : Robot.Frame :=
  { timestamp := 1,
    depth_image := fun k =>
      if 10 ≤ k / 60 ∧ k / 60 < 50 ∧ 7 ≤ k % 60 ∧ k % 60 < 47 then 0.9 else 1,
    depth_width := 60, depth_height := 60,
    depth_fx := 500, depth_fy := 500, depth_cx := 30, depth_cy := 30 }


/-- A 50 x 30 robot frame looking at the tilted plane (1, 0, 1): with the principal point at
column 40 and focal length 10, the pixel of column `col` has depth `10 / (50 - col)`. -/
def tiltFrameB : Robot.Frame :=
  { timestamp := 1,
    depth_image := fun k => 10 / (((50 - k % 50 : Int) : ℚ)),
    depth_width := 50, depth_height := 30,
    depth_fx := 10, depth_fy := 10, depth_cx := 40, depth_cy := 15 }

/-! ## Costmap inflation (`costmap_inflation.h`) -/

namespace CostMapInflation

/-- The constant `LETHAL_OBSTACLE`. -/
def LETHAL_OBSTACLE : Int := 127

/-- The constant `INSCRIBED_INFLATED_OBSTACLE`. -/
def INSCRIBED_INFLATED_OBSTACLE : Int := 120

/-- The constant `MIN_COST`. -/
def MIN_COST : Int := 0

/-- The constant `MAX_COST`. -/
def MAX_COST : Int := 127

/-- An array of `int8_t`, addressed by offset from its first element. -/
abbrev Grid := Int → Int

/-- The members set from `limits`: `{x_min, x_max, y_min, y_max}`. -/
structure Limits where
  costmap_x_lower_limit : Int
  costmap_x_upper_limit : Int
  costmap_y_lower_limit : Int
  costmap_y_upper_limit : Int

/-- The offset of cell `(x, y)` in the 1D grid, as `get_cost` and the write in `inflate`
compute it. -/
def cellOffset (lim : Limits) (x y : Int) : Int :=
  (y - lim.costmap_y_lower_limit) * (lim.costmap_x_upper_limit - lim.costmap_x_lower_limit)
    + x - lim.costmap_x_lower_limit

/-- The function `get_cost`. -/
def get_cost (lim : Limits) (x y : Int) (grid : Grid) : Int := grid (cellOffset lim x y)

/-- The cells a double loop `for x in [x_start, x_end)`, `for y in [y_start, y_end)` visits,
in order. -/
def regionCells (x_start y_start x_end y_end : Int) : List (Int × Int) :=
  (intRange x_start x_end).flatMap fun x => (intRange y_start y_end).map fun y => (x, y)

/-- The double loop of `get_highest_cost_in_region` over the cells still to visit, with its
early return once the running cost is `MAX_COST`. -/
def highestFrom (lim : Limits) (grid : Grid) : List (Int × Int) → Int → Int
  | [], cost => cost
  | c :: rest, cost =>
      if max cost (get_cost lim c.1 c.2 grid) = MAX_COST then max cost (get_cost lim c.1 c.2 grid)
      else highestFrom lim grid rest (max cost (get_cost lim c.1 c.2 grid))

/-- The function `get_highest_cost_in_region`. -/
def get_highest_cost_in_region (lim : Limits) (x_start y_start x_end y_end : Int)
    (grid : Grid) : Int :=
  if x_start = x_end then MIN_COST
  else if y_start = y_end then MIN_COST
  else highestFrom lim grid (regionCells x_start y_start x_end y_end) MIN_COST

/-- The function `compute_inflated_costmap`. -/
def compute_inflated_costmap (cost : Int) : Int :=
  if cost = MAX_COST then LETHAL_OBSTACLE
  else if cost ≥ INSCRIBED_INFLATED_OBSTACLE then INSCRIBED_INFLATED_OBSTACLE
  else cost

/-- The value `higher_cost` of cell `(x, y)`: the highest cost in its neighbour region, clipped
to the cost map. -/
def higherCost (lim : Limits) (inscribed_radius : Int) (grid : Grid) (x y : Int) : Int :=
  let lower_x_limit := x - inscribed_radius
  let lower_y_limit := y - inscribed_radius
  let upper_x_limit := x + inscribed_radius
  let upper_y_limit := y + inscribed_radius
  get_highest_cost_in_region lim
    (if lower_x_limit < lim.costmap_x_lower_limit then lim.costmap_x_lower_limit
      else lower_x_limit)
    (if lower_y_limit < lim.costmap_y_lower_limit then lim.costmap_y_lower_limit
      else lower_y_limit)
    (if upper_x_limit > lim.costmap_x_upper_limit then lim.costmap_x_upper_limit
      else upper_x_limit)
    (if upper_y_limit > lim.costmap_y_upper_limit then lim.costmap_y_upper_limit
      else upper_y_limit)
    grid

/-- The body of the loop over the cells in `inflate`: an obstacle is skipped, any other cell
gets its new cost written into `costmap_copy`. -/
def inflateCell (lim : Limits) (inscribed_radius : Int) (grid costmap_copy : Grid)
    (c : Int × Int) : Grid :=
  if get_cost lim c.1 c.2 grid = MAX_COST then costmap_copy
  else
    Function.update costmap_copy (cellOffset lim c.1 c.2)
      (compute_inflated_costmap (higherCost lim inscribed_radius grid c.1 c.2))

/-- What a call of `inflate` leaves behind: the array behind the returned pointer and the
caller's array. -/
structure InflateResult where
  ret : Grid
  grid : Grid

/-- The function `CostMapInflation::inflate`.  The copy `costmap_copy` has `length` elements;
offsets outside it read as 0 in the embedding. -/
def inflate (grid : Grid) (length : Int) (radius resolution : ℚ) (lim : Limits) :
    InflateResult :=
  let inscribed_radius : Int := ⌈radius / resolution⌉
  if inscribed_radius ≤ 0 then { ret := grid, grid := grid }
  else
    let costmap_copy : Grid := fun i => if 0 ≤ i ∧ i < length then grid i else 0
    { ret := (regionCells lim.costmap_x_lower_limit lim.costmap_y_lower_limit
          lim.costmap_x_upper_limit lim.costmap_y_upper_limit).foldl
        (inflateCell lim inscribed_radius grid) costmap_copy,
      grid := grid }

end CostMapInflation

/-- The grid holding the given costs at offsets 0, 1, ... -/
def gridOfList (costs : List Int) : CostMapInflation.Grid :=
  fun i => if 0 ≤ i then costs.getD i.toNat 0 else 0

/-- The limits of a grid of one row with three cells. -/
def rowOfThree : CostMapInflation.Limits := ⟨0, 3, 0, 1⟩

/-! ## Successive calls on one detector -/

/-- Successive calls of the robot copy on one detector object: every call runs on the state
the call before it left in `prev_image_timestamp_`. -/
def Robot.callSequence (lib : CvLib) : Detector → List Robot.Frame → List CallResult
  | _, [] => []
  | det, f :: rest =>
      Robot.ProcessDepthAndColorImages lib det f
        :: Robot.callSequence lib (Robot.ProcessDepthAndColorImages lib det f).detector rest

/-- The timestamps of the calls of the robot copy that passed the rate gate, in call order. -/
def Robot.admittedTimestamps (lib : CvLib) : Detector → List Robot.Frame → List ℚ
  | _, [] => []
  | det, f :: rest =>
      if Robot.gateRejects det f.timestamp then
        Robot.admittedTimestamps lib (Robot.ProcessDepthAndColorImages lib det f).detector rest
      else
        f.timestamp ::
          Robot.admittedTimestamps lib (Robot.ProcessDepthAndColorImages lib det f).detector rest

/-- Successive calls of the app copy on one detector object. -/
def App.callSequence (lib : CvLib) : Detector → List App.Frame → List CallResult
  | _, [] => []
  | det, f :: rest =>
      App.ProcessDepthAndColorImages lib det f
        :: App.callSequence lib (App.ProcessDepthAndColorImages lib det f).detector rest

/-- The timestamps of the calls of the app copy that passed the rate gate, in call order. -/
def App.admittedTimestamps (lib : CvLib) : Detector → List App.Frame → List ℚ
  | _, [] => []
  | det, f :: rest =>
      if App.gateRejects det f.timestamp then
        App.admittedTimestamps lib (App.ProcessDepthAndColorImages lib det f).detector rest
      else
        f.timestamp ::
          App.admittedTimestamps lib (App.ProcessDepthAndColorImages lib det f).detector rest

/-! ## A frame for the residual of the app copy -/

/-- A 100 x 160 app frame looking at a slope: in every row the pixel of column `col` has
depth `col / 100 + 1/2`. -/
def slopeFrameA : App.Frame :=
  { timestamp := 1, depth_data := fun k => ((k % 100 : Int) : ℚ) / 100 + 1 / 2,
    image_width := 100, image_height := 160, color_to_depth_ratio := 1 }

/-! ## Theorems -/

/-! ### Addressing -/

theorem offset_div (W row col : Int) (h0 : 0 ≤ col) (h1 : col < W) :
    (row * W + col) / W = row := by
  have hW : W ≠ 0 := by omega
  rw [add_comm, Int.add_mul_ediv_right _ _ hW, Int.ediv_eq_zero_of_lt h0 h1, zero_add]

theorem offset_mod (W row col : Int) (h0 : 0 ≤ col) (h1 : col < W) :
    (row * W + col) % W = col := by
  rw [add_comm, Int.add_mul_emod_self, Int.emod_eq_of_lt h0 h1]

theorem offset_inBounds (W H row col : Int) (hr0 : 0 ≤ row) (hr1 : row < H)
    (h0 : 0 ≤ col) (h1 : col < W) : 0 ≤ row * W + col ∧ row * W + col < H * W := by
  have hW : 0 < W := by omega
  constructor
  · have := mul_nonneg hr0 hW.le
    omega
  · have h2 : (row + 1) * W ≤ H * W := mul_le_mul_of_nonneg_right (by omega) hW.le
    have h3 : (row + 1) * W = row * W + W := by ring
    omega

theorem truncToInt_of_nonneg (q : ℚ) (h : 0 ≤ q) : truncToInt q = ⌊q⌋ := by
  simp [truncToInt, h]

/-- Membership in a `for` range. -/
theorem mem_intRange (lo hi i : Int) : i ∈ intRange lo hi ↔ lo ≤ i ∧ i < hi := by
  simp only [intRange, List.mem_map, List.bind_eq_flatMap, List.mem_flatMap, List.mem_range,
    List.pure_def, List.mem_singleton]
  constructor
  · rintro ⟨a, ⟨k, hk, rfl⟩, rfl⟩
    omega
  · intro h
    exact ⟨i - lo, ⟨(i - lo).toNat, by omega, by omega⟩, by omega⟩

theorem intRange_eq_map (lo hi : Int) :
    intRange lo hi = (List.range (hi - lo).toNat).map (fun k : Nat => lo + (k : Int)) := by
  simp only [intRange, List.bind_eq_flatMap, List.pure_def, List.map_flatMap, List.map_cons,
    List.map_nil]
  induction List.range (hi - lo).toNat with
  | nil => rfl
  | cons a l ih => simp [List.flatMap_cons, ih]

theorem intRange_of_le (lo hi : Int) (h : hi ≤ lo) : intRange lo hi = [] := by
  rw [intRange_eq_map, Int.toNat_eq_zero.2 (by omega)]
  rfl

theorem intRange_cons (lo hi : Int) (h : lo < hi) :
    intRange lo hi = lo :: intRange (lo + 1) hi := by
  rw [intRange_eq_map, intRange_eq_map]
  have hn : (hi - lo).toNat = (hi - (lo + 1)).toNat + 1 := by omega
  rw [hn, List.range_succ_eq_map, List.map_cons, List.map_map]
  congr 1
  · simp
  · apply List.map_congr_left
    intro k _
    simp only [Function.comp, Nat.cast_succ]
    ring

theorem intRange_snoc (lo hi : Int) (h : lo < hi) :
    intRange lo hi = intRange lo (hi - 1) ++ [hi - 1] := by
  rw [intRange_eq_map, intRange_eq_map]
  have hn : (hi - lo).toNat = (hi - 1 - lo).toNat + 1 := by omega
  rw [hn, List.range_succ, List.map_append, List.map_singleton]
  congr 2
  omega

/-- The first element of a `for` range on which `p` holds. -/
theorem find_intRange (p : Int → Bool) (a hi : Int) (n : Nat) (lo : Int) (hlo : lo + n = a)
    (ha : a < hi) (hp : p a = true) (hlt : ∀ i, lo ≤ i → i < a → p i = false) :
    (intRange lo hi).find? p = some a := by
  induction n generalizing lo with
  | zero =>
    have : lo = a := by omega
    subst this
    rw [intRange_cons _ _ ha, List.find?_cons, hp]
  | succ n ih =>
    rw [intRange_cons _ _ (by omega), List.find?_cons, hlt lo (le_refl _) (by omega)]
    exact ih (lo + 1) (by push_cast at hlo; omega) (fun i h1 h2 => hlt i (by omega) h2)

/-- The last element of a `for` range on which `p` holds. -/
theorem find_reverse_intRange (p : Int → Bool) (lo b : Int) (n : Nat) (hi : Int)
    (hhi : b + 1 + n = hi)
    (hb : lo ≤ b) (hp : p b = true) (hgt : ∀ i, b < i → i < hi → p i = false) :
    (intRange lo hi).reverse.find? p = some b := by
  induction n generalizing hi with
  | zero =>
    have : hi = b + 1 := by omega
    subst this
    rw [intRange_snoc _ _ (by omega), List.reverse_append, List.reverse_singleton,
      List.singleton_append, List.find?_cons]
    simp [hp]
  | succ n ih =>
    rw [intRange_snoc _ _ (by omega), List.reverse_append, List.reverse_singleton,
      List.singleton_append, List.find?_cons, hgt (hi - 1) (by omega) (by omega)]
    exact ih (hi - 1) (by push_cast at hhi; omega) (fun i h1 h2 => hgt i h1 (by omega))

/-! ### The rate gate -/

theorem robot_gateRejects_iff (det : Detector) (t : ℚ) :
    Robot.gateRejects det t = true ↔ t < det.prev_image_timestamp_ + 1 / 10 := by
  simp [Robot.gateRejects, Robot.kProcessImagesFPS]

theorem app_gateRejects_iff (det : Detector) (t : ℚ) :
    App.gateRejects det t = true ↔ t < det.prev_image_timestamp_ + 1 / 1 := by
  simp [App.gateRejects, App.kProcessImagesFPS]

theorem robot_process_rejected (lib : CvLib) (det : Detector) (f : Robot.Frame)
    (h : f.timestamp < det.prev_image_timestamp_ + 1 / 10) :
    Robot.ProcessDepthAndColorImages lib det f
      = { ret := none, detector := det, depth_image := f.depth_image } := by
  have hg := (robot_gateRejects_iff det f.timestamp).2 h
  simp [Robot.ProcessDepthAndColorImages, hg]

theorem robot_process_admitted (lib : CvLib) (det : Detector) (f : Robot.Frame)
    (h : ¬ f.timestamp < det.prev_image_timestamp_ + 1 / 10) :
    Robot.ProcessDepthAndColorImages lib det f
      = { ret := if (Robot.floorSamples f).length < 50 then none
                 else Robot.detectObjects lib f (Robot.floorSamples f),
          detector := { prev_image_timestamp_ := f.timestamp },
          depth_image := (Robot.zeroEdges f).data } := by
  have hg : Robot.gateRejects det f.timestamp = false := by
    rw [← Bool.not_eq_true, robot_gateRejects_iff]; exact h
  simp only [Robot.ProcessDepthAndColorImages, hg]
  split_ifs <;> simp_all

theorem app_process_rejected (lib : CvLib) (det : Detector) (f : App.Frame)
    (h : f.timestamp < det.prev_image_timestamp_ + 1 / 1) :
    App.ProcessDepthAndColorImages lib det f
      = { ret := none, detector := det, depth_image := f.depth_data } := by
  have hg := (app_gateRejects_iff det f.timestamp).2 h
  simp [App.ProcessDepthAndColorImages, hg]

theorem app_process_admitted (lib : CvLib) (det : Detector) (f : App.Frame)
    (h : ¬ f.timestamp < det.prev_image_timestamp_ + 1 / 1) :
    App.ProcessDepthAndColorImages lib det f
      = { ret := if f.color_to_depth_ratio ≠ 1 then none
                 else if (App.floorSamples f).length < 100 then none
                 else some (App.detectObjects lib f (App.floorSamples f)),
          detector := { prev_image_timestamp_ := f.timestamp },
          depth_image := f.depth_data } := by
  have hg : App.gateRejects det f.timestamp = false := by
    rw [← Bool.not_eq_true, app_gateRejects_iff]; exact h
  simp only [App.ProcessDepthAndColorImages, hg]
  split_ifs <;> simp_all

/-- C1. FrameGate step, both copies.  With `p` the stored timestamp and `t > 0` the
timestamp of the frame: when `t < p + 1/fps` (fps 10 in the robot copy, 1 in the
app copy) the call returns no result and the stored timestamp is still `p`;
otherwise, equality `t = p + 1/fps` included, the stored timestamp is `t` after the call. -/
theorem C1_frame_gate (lib : CvLib) (p : ℚ) (fB : Robot.Frame) (fA : App.Frame)
    (hB : 0 < fB.timestamp) (hA : 0 < fA.timestamp) :
    ((fB.timestamp < p + 1 / 10 →
        (Robot.ProcessDepthAndColorImages lib ⟨p⟩ fB).ret = none ∧
        (Robot.ProcessDepthAndColorImages lib ⟨p⟩ fB).detector.prev_image_timestamp_ = p) ∧
      (¬ fB.timestamp < p + 1 / 10 →
        (Robot.ProcessDepthAndColorImages lib ⟨p⟩ fB).detector.prev_image_timestamp_
          = fB.timestamp)) ∧
    ((fA.timestamp < p + 1 / 1 →
        (App.ProcessDepthAndColorImages lib ⟨p⟩ fA).ret = none ∧
        (App.ProcessDepthAndColorImages lib ⟨p⟩ fA).detector.prev_image_timestamp_ = p) ∧
      (¬ fA.timestamp < p + 1 / 1 →
        (App.ProcessDepthAndColorImages lib ⟨p⟩ fA).detector.prev_image_timestamp_
          = fA.timestamp)) := by
  have _ := hB
  have _ := hA
  refine ⟨⟨fun h => ?_, fun h => ?_⟩, ⟨fun h => ?_, fun h => ?_⟩⟩
  · rw [robot_process_rejected lib ⟨p⟩ fB h]; exact ⟨rfl, rfl⟩
  · rw [robot_process_admitted lib ⟨p⟩ fB h]
  · rw [app_process_rejected lib ⟨p⟩ fA h]; exact ⟨rfl, rfl⟩
  · rw [app_process_admitted lib ⟨p⟩ fA h]

/-- C1 at concrete inputs: stored timestamp 1, a robot frame stamped 1 (rejected, since
1 < 1 + 1/10) and an app frame stamped 2 (admitted at the boundary 2 = 1 + 1/1). -/
theorem C1_frame_gate_witness :
    ((Robot.ProcessDepthAndColorImages plainLib ⟨1⟩ smallFrameB).ret = none ∧
      (Robot.ProcessDepthAndColorImages plainLib ⟨1⟩
        smallFrameB).detector.prev_image_timestamp_ = 1) ∧
    (App.ProcessDepthAndColorImages plainLib ⟨1⟩
        { smallFrameA with timestamp := 2 }).detector.prev_image_timestamp_ = 2 :=
  ⟨(C1_frame_gate plainLib 1 smallFrameB { smallFrameA with timestamp := 2 }
      (by decide!) (by decide!)).1.1 (by decide!),
   (C1_frame_gate plainLib 1 smallFrameB { smallFrameA with timestamp := 2 }
      (by decide!) (by decide!)).2.2 (by decide!)⟩

/-! ### Depth preprocessing of the robot copy -/

theorem robot_edgeHeight_eq (H : Int) (hH : 0 < H) :
    Robot.edgeHeight H = ⌊(0.075 : ℚ) * (H : ℚ)⌋ := by
  have hq : (0 : ℚ) < (H : ℚ) := by exact_mod_cast hH
  exact truncToInt_of_nonneg _ (by positivity)

theorem robot_edgeWidth_eq (W : Int) (hW : 0 < W) :
    Robot.edgeWidth W = ⌊(0.1 : ℚ) * (W : ℚ)⌋ := by
  have hq : (0 : ℚ) < (W : ℚ) := by exact_mod_cast hW
  exact truncToInt_of_nonneg _ (by positivity)

/-- The caller's buffer after the four `setTo` calls, pixel by pixel. -/
theorem robot_zeroEdges_data (f : Robot.Frame) (row col : Int)
    (hr0 : 0 ≤ row) (hr1 : row < f.depth_height) (hc0 : 0 ≤ col) (hc1 : col < f.depth_width) :
    (Robot.zeroEdges f).data (row * f.depth_width + col)
      = if row < Robot.edgeHeight f.depth_height
            ∨ f.depth_height - Robot.edgeHeight f.depth_height ≤ row
            ∨ col < Robot.edgeWidth f.depth_width
            ∨ f.depth_width - Robot.edgeWidth f.depth_width ≤ col
        then 0 else f.depth_image (row * f.depth_width + col) := by
  obtain ⟨hb0, hb1⟩ := offset_inBounds f.depth_width f.depth_height row col hr0 hr1 hc0 hc1
  simp only [Robot.zeroEdges, Mat.setToRoi, Robot.depthMat, Mat.inBounds, Rect.contains,
    offset_div _ _ _ hc0 hc1, offset_mod _ _ _ hc0 hc1, Bool.and_eq_true, decide_eq_true_eq]
  by_cases h1 : row < Robot.edgeHeight f.depth_height
  · simp [h1, hb0, hb1, hr0, hr1, hc0, hc1]
  by_cases h2 : f.depth_height - Robot.edgeHeight f.depth_height ≤ row
  · simp [h2, hb0, hb1, hr0, hr1, hc0, hc1]
  by_cases h3 : col < Robot.edgeWidth f.depth_width
  · simp [h3, hb0, hb1, hr0, hr1, hc0, hc1]
  by_cases h4 : f.depth_width - Robot.edgeWidth f.depth_width ≤ col
  · simp [h4, hb0, hb1, hr0, hr1, hc0, hc1]
  · simp [h1, h2, h3, h4]

/-- Offsets that are not elements of the image are not written. -/
theorem robot_zeroEdges_outside (f : Robot.Frame) (k : Int)
    (hk : ¬ (0 ≤ k ∧ k < f.depth_height * f.depth_width)) :
    (Robot.zeroEdges f).data k = f.depth_image k := by
  simp [Robot.zeroEdges, Mat.setToRoi, Robot.depthMat, Mat.inBounds, hk]

/-- C2. DepthPreprocessor of the robot copy.  For an image of width `W` and height `H`
and a pixel `(row, col)` of it, the filtered depth is 0 when the pixel lies in the top or
bottom band of `floor(0.075 * H)` rows, in the left or right band of `floor(0.1 * W)`
columns, or when its input depth is above 1.5; otherwise it is the input depth (1.5
itself passes).  The filtered image has the shape of the input. -/
theorem C2_depth_preprocessor (f : Robot.Frame) (row col : Int)
    (hW : 0 < f.depth_width) (hH : 0 < f.depth_height)
    (hr0 : 0 ≤ row) (hr1 : row < f.depth_height) (hc0 : 0 ≤ col) (hc1 : col < f.depth_width) :
    (Robot.depthFiltered f).at row col
      = (if row < ⌊(0.075 : ℚ) * (f.depth_height : ℚ)⌋
            ∨ f.depth_height - ⌊(0.075 : ℚ) * (f.depth_height : ℚ)⌋ ≤ row
            ∨ col < ⌊(0.1 : ℚ) * (f.depth_width : ℚ)⌋
            ∨ f.depth_width - ⌊(0.1 : ℚ) * (f.depth_width : ℚ)⌋ ≤ col
            ∨ f.depth_image (row * f.depth_width + col) > 1.5
        then 0 else f.depth_image (row * f.depth_width + col))
    ∧ (Robot.depthFiltered f).rows = f.depth_height
    ∧ (Robot.depthFiltered f).cols = f.depth_width := by
  refine ⟨?_, rfl, rfl⟩
  have hcols : (Robot.depthFiltered f).cols = f.depth_width := rfl
  have hdata : (Robot.depthFiltered f).data (row * f.depth_width + col)
      = if (Robot.zeroEdges f).data (row * f.depth_width + col) > 1.5 then 0
        else (Robot.zeroEdges f).data (row * f.depth_width + col) := rfl
  rw [Mat.at, hcols, hdata, robot_zeroEdges_data f row col hr0 hr1 hc0 hc1,
    ← robot_edgeHeight_eq _ hH, ← robot_edgeWidth_eq _ hW]
  by_cases hb : row < Robot.edgeHeight f.depth_height
            ∨ f.depth_height - Robot.edgeHeight f.depth_height ≤ row
            ∨ col < Robot.edgeWidth f.depth_width
            ∨ f.depth_width - Robot.edgeWidth f.depth_width ≤ col
  · have hb2 : row < Robot.edgeHeight f.depth_height
            ∨ f.depth_height - Robot.edgeHeight f.depth_height ≤ row
            ∨ col < Robot.edgeWidth f.depth_width
            ∨ f.depth_width - Robot.edgeWidth f.depth_width ≤ col
            ∨ f.depth_image (row * f.depth_width + col) > 1.5 := by tauto
    rw [if_pos hb, if_pos hb2]
    norm_num
  · rw [if_neg hb]
    by_cases hd : f.depth_image (row * f.depth_width + col) > 1.5
    · rw [if_pos hd, if_pos (by tauto)]
    · rw [if_neg hd, if_neg (by tauto)]

/-- C2 at concrete inputs: in the 20 x 20 frame of constant depth 1, pixel (0, 5) lies in
the top band (floor(0.075 * 20) = 1) and is zeroed; pixel (5, 5) keeps its depth. -/
theorem C2_depth_preprocessor_witness :
    (Robot.depthFiltered smallFrameB).at 0 5 = 0 ∧ (Robot.depthFiltered smallFrameB).at 5 5 = 1 :=
  ⟨(C2_depth_preprocessor smallFrameB 0 5 (by decide) (by decide) (by decide) (by decide)
      (by decide) (by decide)).1.trans (by decide!),
   (C2_depth_preprocessor smallFrameB 5 5 (by decide) (by decide) (by decide) (by decide)
      (by decide) (by decide)).1.trans (by decide!)⟩

/-- C3 as stated fails: the admitted 20 x 20 frame of constant depth 1 comes back with
element 0 of the caller's depth buffer changed from 1 to 0. -/
theorem C3_depth_buffer_counterexample :
    smallFrameB.depth_image 0 = 1 ∧
    (Robot.ProcessDepthAndColorImages plainLib Detector.initial smallFrameB).depth_image 0 = 0 := by
  decide!

/-- C3, amended.  A rate-gated call leaves the caller's depth buffer as it was.  An
admitted call, whether it returns a result or not, leaves every element outside the four
edge bands as it was and sets every element inside them (top and bottom
`floor(0.075 * H)` rows, left and right `floor(0.1 * W)` columns) to 0. -/
theorem C3_depth_buffer_effect (lib : CvLib) (det : Detector) (f : Robot.Frame)
    (hW : 0 < f.depth_width) (hH : 0 < f.depth_height) :
    (f.timestamp < det.prev_image_timestamp_ + 1 / 10 →
      (Robot.ProcessDepthAndColorImages lib det f).depth_image = f.depth_image) ∧
    (¬ f.timestamp < det.prev_image_timestamp_ + 1 / 10 →
      ∀ row col : Int, 0 ≤ row → row < f.depth_height → 0 ≤ col → col < f.depth_width →
        (Robot.ProcessDepthAndColorImages lib det f).depth_image (row * f.depth_width + col)
          = if row < ⌊(0.075 : ℚ) * (f.depth_height : ℚ)⌋
              ∨ f.depth_height - ⌊(0.075 : ℚ) * (f.depth_height : ℚ)⌋ ≤ row
              ∨ col < ⌊(0.1 : ℚ) * (f.depth_width : ℚ)⌋
              ∨ f.depth_width - ⌊(0.1 : ℚ) * (f.depth_width : ℚ)⌋ ≤ col
            then 0 else f.depth_image (row * f.depth_width + col)) := by
  refine ⟨fun h => ?_, fun h row col hr0 hr1 hc0 hc1 => ?_⟩
  · rw [robot_process_rejected lib det f h]
  · rw [robot_process_admitted lib det f h]
    simp only []
    rw [robot_zeroEdges_data f row col hr0 hr1 hc0 hc1, ← robot_edgeHeight_eq _ hH,
      ← robot_edgeWidth_eq _ hW]

/-- C3 (amended) at a concrete input: the admitted 20 x 20 frame keeps the interior
element (5, 5) and zeroes the edge element (0, 5). -/
theorem C3_depth_buffer_effect_witness :
    (Robot.ProcessDepthAndColorImages plainLib Detector.initial smallFrameB).depth_image
        (5 * 20 + 5) = 1 ∧
    (Robot.ProcessDepthAndColorImages plainLib Detector.initial smallFrameB).depth_image
        (0 * 20 + 5) = 0 :=
  ⟨((C3_depth_buffer_effect plainLib Detector.initial smallFrameB (by decide) (by decide)).2
      (by decide!) 5 5 (by decide) (by decide) (by decide) (by decide)).trans (by decide!),
   ((C3_depth_buffer_effect plainLib Detector.initial smallFrameB (by decide) (by decide)).2
      (by decide!) 0 5 (by decide) (by decide) (by decide) (by decide)).trans (by decide!)⟩

/-! ### Insufficient evidence -/

theorem flatMap_nil_of_forall {α β : Type} (l : List α) (g : α → List β)
    (h : ∀ a ∈ l, g a = []) : l.flatMap g = [] := by
  induction l with
  | nil => rfl
  | cons a t ih =>
    rw [List.flatMap_cons, h a (List.mem_cons_self a t),
      ih (fun b hb => h b (List.mem_cons_of_mem a hb))]
    rfl

theorem robot_columnSamples_short (f : Robot.Frame) (col : Int)
    (h : maxLabelCount Robot.kFloorMinDepth (Robot.columnLine f col) < 20) :
    Robot.columnSamples f col = [] := by
  simp [Robot.columnSamples, h]

theorem app_rowSamples_short (f : App.Frame) (r : Int)
    (h : maxLabelCount 0 (App.rowLine f r) < 100) :
    App.rowSamples f r = [] := by
  simp [App.rowSamples, h]

/-- C6. InsufficientEvidence, both copies.  A scan line whose longest run is below the
minimum support (20 in the robot copy, 100 in the app copy) contributes no sample; an
admitted frame with fewer accumulated samples than the minimum (50 and 100) returns no
result; in particular an admitted frame whose every scanned line has too short a
longest run returns no result. -/
theorem C6_insufficient_evidence (lib : CvLib) (det : Detector) (fB : Robot.Frame)
    (fA : App.Frame) :
    (∀ col, maxLabelCount Robot.kFloorMinDepth (Robot.columnLine fB col) < 20 →
        Robot.columnSamples fB col = []) ∧
    (∀ r, maxLabelCount 0 (App.rowLine fA r) < 100 → App.rowSamples fA r = []) ∧
    (¬ fB.timestamp < det.prev_image_timestamp_ + 1 / 10 →
        (Robot.floorSamples fB).length < 50 →
        (Robot.ProcessDepthAndColorImages lib det fB).ret = none) ∧
    (¬ fA.timestamp < det.prev_image_timestamp_ + 1 / 1 →
        (App.floorSamples fA).length < 100 →
        (App.ProcessDepthAndColorImages lib det fA).ret = none) ∧
    (¬ fB.timestamp < det.prev_image_timestamp_ + 1 / 10 →
        (∀ col ∈ intRange (Robot.colLowerRange fB.depth_width)
            (Robot.colUpperRange fB.depth_width),
          maxLabelCount Robot.kFloorMinDepth (Robot.columnLine fB col) < 20) →
        (Robot.ProcessDepthAndColorImages lib det fB).ret = none) ∧
    (¬ fA.timestamp < det.prev_image_timestamp_ + 1 / 1 →
        (∀ r ∈ App.bandRows fA.image_height, maxLabelCount 0 (App.rowLine fA r) < 100) →
        (App.ProcessDepthAndColorImages lib det fA).ret = none) := by
  have hB : ¬ fB.timestamp < det.prev_image_timestamp_ + 1 / 10 →
      (Robot.floorSamples fB).length < 50 →
      (Robot.ProcessDepthAndColorImages lib det fB).ret = none := by
    intro h hlen
    rw [robot_process_admitted lib det fB h]
    simp [hlen]
  have hA : ¬ fA.timestamp < det.prev_image_timestamp_ + 1 / 1 →
      (App.floorSamples fA).length < 100 →
      (App.ProcessDepthAndColorImages lib det fA).ret = none := by
    intro h hlen
    rw [app_process_admitted lib det fA h]
    simp [hlen]
  refine ⟨robot_columnSamples_short fB, app_rowSamples_short fA, hB, hA, ?_, ?_⟩
  · intro h hall
    apply hB h
    have : Robot.floorSamples fB = [] :=
      flatMap_nil_of_forall _ _ (fun col hcol => robot_columnSamples_short fB col (hall col hcol))
    rw [this]
    decide
  · intro h hall
    apply hA h
    have : App.floorSamples fA = [] :=
      flatMap_nil_of_forall _ _ (fun r hr => app_rowSamples_short fA r (hall r hr))
    rw [this]
    decide

/-- C6 at concrete inputs: the admitted 20 x 20 robot frame (its columns hold a run of
18 pixels) and the admitted 4 x 160 app frame (runs of 4 pixels) return no result. -/
theorem C6_insufficient_evidence_witness :
    (Robot.ProcessDepthAndColorImages plainLib Detector.initial smallFrameB).ret = none ∧
    (App.ProcessDepthAndColorImages plainLib Detector.initial smallFrameA).ret = none :=
  ⟨(C6_insufficient_evidence plainLib Detector.initial smallFrameB smallFrameA).2.2.2.2.1
      (by decide!) (by decide!),
   (C6_insufficient_evidence plainLib Detector.initial smallFrameB smallFrameA).2.2.2.2.2
      (by decide!) (by decide!)⟩

/-! ### The residual map of the robot copy -/

/-- C10. ResidualMapGenerator of the robot copy.  At pixel (row `i`, column `j`) with
filtered depth `d`, the residual map holds `(a * Xz + b * Yz + c - d) / sqrt (a^2 + b^2 + 1)`
with `Xz = (j - cx) * d / fx` and `Yz = (i - cy) * d / fy` when `d > 0`, and 0 otherwise;
the map has the shape of the depth image. -/
theorem C10_residual_map (lib : CvLib) (f : Robot.Frame) (a b c : ℚ) (i j : Int)
    (hi0 : 0 ≤ i) (hi1 : i < f.depth_height) (hj0 : 0 ≤ j) (hj1 : j < f.depth_width) :
    (Robot.residualMap lib f a b c).at i j
      = (if (Robot.depthFiltered f).at i j > 0 then
          (a * (((j : ℚ) - f.depth_cx) * (Robot.depthFiltered f).at i j / f.depth_fx)
            + b * (((i : ℚ) - f.depth_cy) * (Robot.depthFiltered f).at i j / f.depth_fy)
            + c - (Robot.depthFiltered f).at i j) / lib.sqrt (a ^ 2 + b ^ 2 + 1)
        else 0)
    ∧ (Robot.residualMap lib f a b c).rows = f.depth_height
    ∧ (Robot.residualMap lib f a b c).cols = f.depth_width := by
  have _ := hi0
  have _ := hi1
  refine ⟨?_, rfl, rfl⟩
  have hcols : (Robot.depthFiltered f).cols = f.depth_width := rfl
  have hcols2 : (Robot.residualMap lib f a b c).cols = f.depth_width := rfl
  simp only [Mat.at, hcols, hcols2]
  simp only [Robot.residualMap, diffFiltered, copyToMasked, thresholdBinary, hcols,
    offset_div _ _ _ hj0 hj1, offset_mod _ _ _ hj0 hj1]
  by_cases hd : (Robot.depthFiltered f).data (i * f.depth_width + j) > 0
  · simp only [hd, if_true]
    rw [if_pos (by norm_num)]
    congr 1
    ring
  · simp [hd]

/-- C10 at a concrete input: with the plane (0, 0, 2), whose norm is `sqrt 1`, pixel (5, 5)
of the 20 x 20 frame of depth 1 has residual `(2 - 1) / sqrt 1`, and the edge pixel (0, 5),
whose filtered depth is 0, has residual 0. -/
theorem C10_residual_map_witness :
    (Robot.residualMap plainLib smallFrameB 0 0 2).at 5 5 = 1 ∧
    (Robot.residualMap plainLib smallFrameB 0 0 2).at 0 5 = 0 :=
  ⟨(C10_residual_map plainLib smallFrameB 0 0 2 5 5 (by decide) (by decide) (by decide)
      (by decide)).1.trans (by decide!),
   (C10_residual_map plainLib smallFrameB 0 0 2 0 5 (by decide) (by decide) (by decide)
      (by decide)).1.trans (by decide!)⟩

/-! ### The sampling loop -/

theorem sampleLoop_spec (hi step : Nat) (hstep : 1 ≤ step) :
    ∀ fuel j : Nat, hi - j < fuel →
      ∃ l, sampleLoop fuel j hi step = some l ∧ l.length = (hi - j + step - 1) / step ∧
        ∀ x ∈ l, j ≤ x ∧ x < hi := by
  intro fuel
  induction fuel with
  | zero => intro j h; omega
  | succ n ih =>
    intro j h
    by_cases hj : j < hi
    · obtain ⟨l, hl, hlen, hmem⟩ := ih (j + step) (by omega)
      refine ⟨j :: l, ?_, ?_, ?_⟩
      · simp [sampleLoop, hj, hl]
      · rw [List.length_cons, hlen]
        by_cases hs : step ≤ hi - j
        · have e : hi - j + step - 1 = (hi - (j + step) + step - 1) + step := by omega
          rw [e, Nat.add_div_right _ (by omega)]
        · have e1 : (hi - (j + step) + step - 1) / step = 0 :=
            Nat.div_eq_of_lt (by omega)
          have e2 : (hi - j + step - 1) / step = 1 :=
            Nat.div_eq_of_lt_le (by omega) (by omega)
          rw [e1, e2]
      · intro x hx
        rcases List.mem_cons.1 hx with rfl | hx
        · exact ⟨le_refl _, hj⟩
        · have := hmem x hx
          omega
    · refine ⟨[], ?_, ?_, ?_⟩
      · simp [sampleLoop, hj]
      · have : (hi - j + step - 1) / step = 0 := Nat.div_eq_of_lt (by omega)
        rw [this]; rfl
      · intro x hx; cases hx

theorem sampleOffsets_length (stepDiv L : Nat) (hstep : 1 ≤ L / stepDiv) :
    (sampleOffsets stepDiv L).length
      = (8 * L / 10 - L / 10 + L / stepDiv - 1) / (L / stepDiv) := by
  have hle := Nat.div_le_self L stepDiv
  obtain ⟨l, hl, hlen, _⟩ :=
    sampleLoop_spec (8 * L / 10) (L / stepDiv) hstep L (L / 10) (by omega)
  simp [sampleOffsets, hl, hlen]

theorem sampleOffsets_length_robot (L : Nat) (hL : 20 ≤ L) :
    14 ≤ (sampleOffsets 20 L).length ∧ (sampleOffsets 20 L).length ≤ 28 := by
  have hq : 1 ≤ L / 20 := by omega
  rw [sampleOffsets_length 20 L hq]
  constructor
  · rw [Nat.le_div_iff_mul_le (by omega)]
    omega
  · have : (8 * L / 10 - L / 10 + L / 20 - 1) / (L / 20) < 29 := by
      rw [Nat.div_lt_iff_lt_mul (by omega)]
      omega
    omega

theorem sampleOffsets_length_app (L : Nat) (hL : 100 ≤ L) :
    7 ≤ (sampleOffsets 10 L).length ∧ (sampleOffsets 10 L).length ≤ 8 := by
  have hq : 1 ≤ L / 10 := by omega
  rw [sampleOffsets_length 10 L hq]
  constructor
  · rw [Nat.le_div_iff_mul_le (by omega)]
    omega
  · have : (8 * L / 10 - L / 10 + L / 10 - 1) / (L / 10) < 9 := by
      rw [Nat.div_lt_iff_lt_mul (by omega)]
      omega
    omega

theorem robot_columnSamples_length (f : Robot.Frame) (col : Int)
    (h : 20 ≤ maxLabelCount Robot.kFloorMinDepth (Robot.columnLine f col)) :
    (Robot.columnSamples f col).length
      = (sampleOffsets 20 (maxLabelCount Robot.kFloorMinDepth (Robot.columnLine f col))).length := by
  have h2 : ¬ maxLabelCount Robot.kFloorMinDepth (Robot.columnLine f col) < 20 := by omega
  simp [Robot.columnSamples, h2]

theorem app_rowSamples_length (f : App.Frame) (r : Int)
    (h : 100 ≤ maxLabelCount 0 (App.rowLine f r)) :
    (App.rowSamples f r).length = (sampleOffsets 10 (maxLabelCount 0 (App.rowLine f r))).length := by
  have h2 : ¬ maxLabelCount 0 (App.rowLine f r) < 100 := by omega
  simp [App.rowSamples, h2]

/-- C5 as stated fails.  In the 50 x 50 robot frame the scanned columns 40 and 41 both
pass the minimum support (longest runs 21 and 44) and contribute 14 and 16 samples; in
the 120 x 160 app frame rows 0 and 1 both pass (longest runs 100 and 109) and contribute
7 and 8 samples. -/
theorem C5_samples_per_line_counterexample :
    (40 ∈ intRange (Robot.colLowerRange twoRunFrameB.depth_width)
        (Robot.colUpperRange twoRunFrameB.depth_width) ∧
      41 ∈ intRange (Robot.colLowerRange twoRunFrameB.depth_width)
        (Robot.colUpperRange twoRunFrameB.depth_width) ∧
      maxLabelCount Robot.kFloorMinDepth (Robot.columnLine twoRunFrameB 40) = 21 ∧
      maxLabelCount Robot.kFloorMinDepth (Robot.columnLine twoRunFrameB 41) = 44 ∧
      (Robot.columnSamples twoRunFrameB 40).length = 14 ∧
      (Robot.columnSamples twoRunFrameB 41).length = 16) ∧
    (0 ∈ App.bandRows twoRunFrameA.image_height ∧
      1 ∈ App.bandRows twoRunFrameA.image_height ∧
      maxLabelCount 0 (App.rowLine twoRunFrameA 0) = 100 ∧
      maxLabelCount 0 (App.rowLine twoRunFrameA 1) = 109 ∧
      (App.rowSamples twoRunFrameA 0).length = 7 ∧
      (App.rowSamples twoRunFrameA 1).length = 8) := by
  decide!

/-- C5, amended.  The number of samples a scan line contributes is fixed by the length
`L` of its winning run: two lines that pass the minimum support with winning runs of
the same length contribute the same number of samples.  Across lengths the number
varies: it is `ceil ((floor (8 L / 10) - floor (L / 10)) / step)` with `step = floor (L / 20)`
in the robot copy, where it lies between 14 and 28, and `step = floor (L / 10)` in the
app copy, where it is 7 or 8. -/
theorem C5_samples_per_line (f1 f2 : Robot.Frame) (c1 c2 : Int) (g1 g2 : App.Frame)
    (r1 r2 : Int)
    (h1 : 20 ≤ maxLabelCount Robot.kFloorMinDepth (Robot.columnLine f1 c1))
    (h2 : 20 ≤ maxLabelCount Robot.kFloorMinDepth (Robot.columnLine f2 c2))
    (k1 : 100 ≤ maxLabelCount 0 (App.rowLine g1 r1))
    (k2 : 100 ≤ maxLabelCount 0 (App.rowLine g2 r2)) :
    ((maxLabelCount Robot.kFloorMinDepth (Robot.columnLine f1 c1)
          = maxLabelCount Robot.kFloorMinDepth (Robot.columnLine f2 c2) →
        (Robot.columnSamples f1 c1).length = (Robot.columnSamples f2 c2).length) ∧
      (Robot.columnSamples f1 c1).length
        = (8 * maxLabelCount Robot.kFloorMinDepth (Robot.columnLine f1 c1) / 10
            - maxLabelCount Robot.kFloorMinDepth (Robot.columnLine f1 c1) / 10
            + maxLabelCount Robot.kFloorMinDepth (Robot.columnLine f1 c1) / 20 - 1)
          / (maxLabelCount Robot.kFloorMinDepth (Robot.columnLine f1 c1) / 20) ∧
      14 ≤ (Robot.columnSamples f1 c1).length ∧ (Robot.columnSamples f1 c1).length ≤ 28) ∧
    ((maxLabelCount 0 (App.rowLine g1 r1) = maxLabelCount 0 (App.rowLine g2 r2) →
        (App.rowSamples g1 r1).length = (App.rowSamples g2 r2).length) ∧
      (App.rowSamples g1 r1).length
        = (8 * maxLabelCount 0 (App.rowLine g1 r1) / 10
            - maxLabelCount 0 (App.rowLine g1 r1) / 10
            + maxLabelCount 0 (App.rowLine g1 r1) / 10 - 1)
          / (maxLabelCount 0 (App.rowLine g1 r1) / 10) ∧
      7 ≤ (App.rowSamples g1 r1).length ∧ (App.rowSamples g1 r1).length ≤ 8) := by
  refine ⟨⟨fun e => ?_, ?_, ?_⟩, ⟨fun e => ?_, ?_, ?_⟩⟩
  · rw [robot_columnSamples_length f1 c1 h1, robot_columnSamples_length f2 c2 h2, e]
  · rw [robot_columnSamples_length f1 c1 h1]
    exact sampleOffsets_length 20 _ (by omega)
  · rw [robot_columnSamples_length f1 c1 h1]
    exact sampleOffsets_length_robot _ h1
  · rw [app_rowSamples_length g1 r1 k1, app_rowSamples_length g2 r2 k2, e]
  · rw [app_rowSamples_length g1 r1 k1]
    exact sampleOffsets_length 10 _ (by omega)
  · rw [app_rowSamples_length g1 r1 k1]
    exact sampleOffsets_length_app _ k1

/-- C5 (amended) at concrete inputs: columns 41 and 42 of the 50 x 50 robot frame both
have a winning run of 44 pixels and contribute the same number of samples, as do rows 1
and 2 of the 120 x 160 app frame (winning runs of 109 pixels). -/
theorem C5_samples_per_line_witness :
    (Robot.columnSamples twoRunFrameB 41).length = (Robot.columnSamples twoRunFrameB 42).length ∧
    (App.rowSamples twoRunFrameA 1).length = (App.rowSamples twoRunFrameA 2).length :=
  ⟨(C5_samples_per_line twoRunFrameB twoRunFrameB 41 42 twoRunFrameA twoRunFrameA 1 2
      (by decide!) (by decide!) (by decide!) (by decide!)).1.1 (by decide!),
   (C5_samples_per_line twoRunFrameB twoRunFrameB 41 42 twoRunFrameA twoRunFrameA 1 2
      (by decide!) (by decide!) (by decide!) (by decide!)).2.1 (by decide!)⟩


/-! ### The plane fit -/

theorem det3_eq_det (m : Matrix (Fin 3) (Fin 3) ℚ) : det3 m = m.det := by
  rw [Matrix.det_fin_three, det3]
  ring

theorem cvInv3_eq_inv (m : Matrix (Fin 3) (Fin 3) ℚ) : cvInv3 m = m⁻¹ := by
  rw [Matrix.inv_def, Ring.inverse_eq_inv', cvInv3]
  by_cases hd : det3 m = 0
  · rw [if_pos hd, ← det3_eq_det, hd]
    simp
  · rw [if_neg hd, ← det3_eq_det, Matrix.adjugate_fin_three]
    generalize det3 m = d
    ext i j
    fin_cases i <;> fin_cases j <;>
      simp [div_eq_inv_mul] <;> ring_nf <;> simp


theorem cvInv3_mul_self (m : Matrix (Fin 3) (Fin 3) ℚ) (h : m.det ≠ 0) : cvInv3 m * m = 1 := by
  rw [cvInv3_eq_inv]
  exact Matrix.nonsing_inv_mul m (isUnit_iff_ne_zero.2 h)

theorem self_mul_cvInv3 (m : Matrix (Fin 3) (Fin 3) ℚ) (h : m.det ≠ 0) : m * cvInv3 m = 1 := by
  rw [cvInv3_eq_inv]
  exact Matrix.mul_nonsing_inv m (isUnit_iff_ne_zero.2 h)

theorem cvInv3_singular (m : Matrix (Fin 3) (Fin 3) ℚ) (h : m.det = 0) : cvInv3 m = 0 := by
  have hd : det3 m = 0 := by rw [det3_eq_det]; exact h
  simp [cvInv3, hd]

/-- The normal equations hold for the fitted plane when the normal matrix is invertible. -/
theorem fitPlane_normal_equations (samples : List Sample)
    (h : (normalMatrix samples).det ≠ 0) :
    normalMatrix samples * fitPlane samples
      = (leftHandSide samples).transpose * rightHandSide samples := by
  unfold fitPlane
  rw [Matrix.mul_assoc, ← Matrix.mul_assoc (normalMatrix samples), self_mul_cvInv3 _ h,
    Matrix.one_mul]

theorem fitPlane_orthogonal (samples : List Sample) (h : (normalMatrix samples).det ≠ 0)
    (j : Fin 3) :
    ∑ k : Fin samples.length, leftHandSide samples k j *
      (fitPlane samples 0 0 * (samples.get k).location.x
        + fitPlane samples 1 0 * (samples.get k).location.y
        + fitPlane samples 2 0 * (samples.get k).location.z - (samples.get k).depth) = 0 := by
  have hne := congrFun (congrFun (fitPlane_normal_equations samples h) j) 0
  simp only [normalMatrix, Matrix.mul_apply, Fin.sum_univ_three, Matrix.transpose_apply,
    Finset.sum_mul] at hne
  rw [← Finset.sum_add_distrib, ← Finset.sum_add_distrib] at hne
  rw [← sub_eq_zero, ← Finset.sum_sub_distrib] at hne
  rw [← hne]
  apply Finset.sum_congr rfl
  intro k _
  simp [leftHandSide, rightHandSide]
  ring


theorem sum_map_eq_sum_get (samples : List Sample) (g : Sample → ℚ) :
    (samples.map g).sum = ∑ k : Fin samples.length, g (samples.get k) :=
  (Fin.sum_univ_get' samples g).symm

/-- The fitted plane minimises the sum of squared errors (rows `(x, y, z)`). -/
theorem fitPlane_minimises (samples : List Sample) (h : (normalMatrix samples).det ≠ 0)
    (a' b' c' : ℚ) :
    ∑ k : Fin samples.length,
        (fitPlane samples 0 0 * (samples.get k).location.x
          + fitPlane samples 1 0 * (samples.get k).location.y
          + fitPlane samples 2 0 * (samples.get k).location.z - (samples.get k).depth) ^ 2
      ≤ ∑ k : Fin samples.length,
        (a' * (samples.get k).location.x + b' * (samples.get k).location.y
          + c' * (samples.get k).location.z - (samples.get k).depth) ^ 2 := by
  have h0 := fitPlane_orthogonal samples h 0
  have h1 := fitPlane_orthogonal samples h 1
  have h2 := fitPlane_orthogonal samples h 2
  simp only [leftHandSide, Matrix.of_apply, Matrix.cons_val_zero, Matrix.cons_val_one,
    Matrix.head_cons, Matrix.cons_val_two, Matrix.tail_cons] at h0 h1 h2
  set a := fitPlane samples 0 0
  set b := fitPlane samples 1 0
  set c := fitPlane samples 2 0
  have key : ∀ k : Fin samples.length,
      (a' * (samples.get k).location.x + b' * (samples.get k).location.y
          + c' * (samples.get k).location.z - (samples.get k).depth) ^ 2
      = (a * (samples.get k).location.x + b * (samples.get k).location.y
          + c * (samples.get k).location.z - (samples.get k).depth) ^ 2
        + ((a' - a) * (samples.get k).location.x + (b' - b) * (samples.get k).location.y
            + (c' - c) * (samples.get k).location.z) ^ 2
        + (2 * (a' - a) * ((samples.get k).location.x *
              (a * (samples.get k).location.x + b * (samples.get k).location.y
                + c * (samples.get k).location.z - (samples.get k).depth))
          + 2 * (b' - b) * ((samples.get k).location.y *
              (a * (samples.get k).location.x + b * (samples.get k).location.y
                + c * (samples.get k).location.z - (samples.get k).depth))
          + 2 * (c' - c) * ((samples.get k).location.z *
              (a * (samples.get k).location.x + b * (samples.get k).location.y
                + c * (samples.get k).location.z - (samples.get k).depth))) := by
    intro k
    ring
  rw [Finset.sum_congr rfl (fun k _ => key k)]
  rw [Finset.sum_add_distrib, Finset.sum_add_distrib, Finset.sum_add_distrib,
    Finset.sum_add_distrib, ← Finset.mul_sum, ← Finset.mul_sum, ← Finset.mul_sum,
    h0, h1, h2]
  have hsq : 0 ≤ ∑ k : Fin samples.length,
      ((a' - a) * (samples.get k).location.x + (b' - b) * (samples.get k).location.y
            + (c' - c) * (samples.get k).location.z) ^ 2 :=
    Finset.sum_nonneg (fun k _ => sq_nonneg _)
  linarith

/-- A plane that reproduces every sample depth is the fitted plane. -/
theorem fitPlane_exact (samples : List Sample) (h : (normalMatrix samples).det ≠ 0)
    (p0 : Matrix (Fin 3) (Fin 1) ℚ)
    (hb : rightHandSide samples = leftHandSide samples * p0) :
    fitPlane samples = p0 := by
  unfold fitPlane
  rw [hb, Matrix.mul_assoc, ← Matrix.mul_assoc (leftHandSide samples).transpose]
  change cvInv3 (normalMatrix samples) * (normalMatrix samples * p0) = p0
  rw [← Matrix.mul_assoc, cvInv3_mul_self _ h, Matrix.one_mul]

/-- Three samples whose rows are linearly independent make the normal matrix invertible. -/
theorem normalMatrix_det_ne_zero (samples : List Sample) (s1 s2 s3 : Sample)
    (h1 : s1 ∈ samples) (h2 : s2 ∈ samples) (h3 : s3 ∈ samples)
    (hdet : s1.location.x * (s2.location.y * s3.location.z - s2.location.z * s3.location.y)
      - s1.location.y * (s2.location.x * s3.location.z - s2.location.z * s3.location.x)
      + s1.location.z * (s2.location.x * s3.location.y - s2.location.y * s3.location.x) ≠ 0) :
    (normalMatrix samples).det ≠ 0 := by
  intro hzero
  obtain ⟨v, hv, hmul⟩ := Matrix.exists_mulVec_eq_zero_iff.2 hzero
  have hsq : Matrix.dotProduct (Matrix.mulVec (leftHandSide samples) v)
      (Matrix.mulVec (leftHandSide samples) v) = 0 := by
    have e : Matrix.dotProduct v (Matrix.mulVec (normalMatrix samples) v) = 0 := by
      rw [hmul, Matrix.dotProduct_zero]
    rw [normalMatrix, ← Matrix.mulVec_mulVec, Matrix.dotProduct_mulVec,
      Matrix.vecMul_transpose] at e
    exact e
  have hAv : Matrix.mulVec (leftHandSide samples) v = 0 := Matrix.dotProduct_self_eq_zero.1 hsq
  have hrow : ∀ s ∈ samples,
      s.location.x * v 0 + s.location.y * v 1 + s.location.z * v 2 = 0 := by
    intro s hs
    obtain ⟨k, hk⟩ := List.mem_iff_get.1 hs
    have := congrFun hAv k
    simp only [Matrix.mulVec, Matrix.dotProduct, Fin.sum_univ_three, leftHandSide,
      Matrix.of_apply, Matrix.cons_val_zero, Matrix.cons_val_one, Matrix.head_cons,
      Matrix.cons_val_two, Matrix.tail_cons, Pi.zero_apply, hk] at this
    exact this
  have e1 := hrow s1 h1
  have e2 := hrow s2 h2
  have e3 := hrow s3 h3
  have hv0 : v 0 = 0 := by
    have : (s1.location.x * (s2.location.y * s3.location.z - s2.location.z * s3.location.y)
      - s1.location.y * (s2.location.x * s3.location.z - s2.location.z * s3.location.x)
      + s1.location.z * (s2.location.x * s3.location.y - s2.location.y * s3.location.x))
        * v 0 = 0 := by
      linear_combination
        (s2.location.y * s3.location.z - s2.location.z * s3.location.y) * e1
        - (s1.location.y * s3.location.z - s1.location.z * s3.location.y) * e2
        + (s1.location.y * s2.location.z - s1.location.z * s2.location.y) * e3
    exact (mul_eq_zero.1 this).resolve_left hdet
  have hv1 : v 1 = 0 := by
    have : (s1.location.x * (s2.location.y * s3.location.z - s2.location.z * s3.location.y)
      - s1.location.y * (s2.location.x * s3.location.z - s2.location.z * s3.location.x)
      + s1.location.z * (s2.location.x * s3.location.y - s2.location.y * s3.location.x))
        * v 1 = 0 := by
      linear_combination
        - (s2.location.x * s3.location.z - s2.location.z * s3.location.x) * e1
        + (s1.location.x * s3.location.z - s1.location.z * s3.location.x) * e2
        - (s1.location.x * s2.location.z - s1.location.z * s2.location.x) * e3
    exact (mul_eq_zero.1 this).resolve_left hdet
  have hv2 : v 2 = 0 := by
    have : (s1.location.x * (s2.location.y * s3.location.z - s2.location.z * s3.location.y)
      - s1.location.y * (s2.location.x * s3.location.z - s2.location.z * s3.location.x)
      + s1.location.z * (s2.location.x * s3.location.y - s2.location.y * s3.location.x))
        * v 2 = 0 := by
      linear_combination
        (s2.location.x * s3.location.y - s2.location.y * s3.location.x) * e1
        - (s1.location.x * s3.location.y - s1.location.y * s3.location.x) * e2
        + (s1.location.x * s2.location.y - s1.location.y * s2.location.x) * e3
    exact (mul_eq_zero.1 this).resolve_left hdet
  apply hv
  funext i
  fin_cases i
  · exact hv0
  · exact hv1
  · exact hv2

/-- Samples that all satisfy `depth = a x + b y + c z` with an invertible normal matrix are
fitted by the plane `(a, b, c)`. -/
theorem fitPlane_of_model (samples : List Sample) (a0 b0 c0 : ℚ)
    (hd : ∀ s ∈ samples,
      s.depth = a0 * s.location.x + b0 * s.location.y + c0 * s.location.z)
    (hinv : (normalMatrix samples).det ≠ 0) :
    fitPlane samples 0 0 = a0 ∧ fitPlane samples 1 0 = b0 ∧ fitPlane samples 2 0 = c0 := by
  have hfit : fitPlane samples = Matrix.of ![![a0], ![b0], ![c0]] := by
    apply fitPlane_exact samples hinv
    ext k j
    obtain rfl : j = 0 := Subsingleton.elim _ _
    have hdk := hd _ (List.get_mem samples k.1 k.2)
    simp only [List.get_eq_getElem] at hdk
    simp only [rightHandSide, leftHandSide, Matrix.mul_apply, Fin.sum_univ_three,
      Matrix.of_apply, Matrix.cons_val_zero, Matrix.cons_val_one, Matrix.head_cons,
      Matrix.cons_val_two, Matrix.tail_cons, List.get_eq_getElem, hdk]
    ring
  rw [hfit]
  exact ⟨rfl, rfl, rfl⟩

/-- Samples whose rows all satisfy one non-trivial linear equation have a singular normal
matrix. -/
theorem normalMatrix_det_zero (samples : List Sample) (v0 v1 v2 : ℚ)
    (hv : v0 ≠ 0 ∨ v1 ≠ 0 ∨ v2 ≠ 0)
    (h : ∀ s ∈ samples, s.location.x * v0 + s.location.y * v1 + s.location.z * v2 = 0) :
    (normalMatrix samples).det = 0 := by
  apply Matrix.exists_mulVec_eq_zero_iff.1
  refine ⟨![v0, v1, v2], ?_, ?_⟩
  · intro h0
    have e0 := congrFun h0 0
    have e1 := congrFun h0 1
    have e2 := congrFun h0 2
    simp only [Matrix.cons_val_zero, Matrix.cons_val_one, Matrix.head_cons, Matrix.cons_val_two,
      Matrix.tail_cons, Pi.zero_apply] at e0 e1 e2
    rcases hv with hv | hv | hv
    · exact hv e0
    · exact hv e1
    · exact hv e2
  · have hA : Matrix.mulVec (leftHandSide samples) ![v0, v1, v2] = 0 := by
      funext k
      have := h _ (List.get_mem samples k.1 k.2)
      simp only [List.get_eq_getElem] at this
      simp only [Matrix.mulVec, Matrix.dotProduct, Fin.sum_univ_three, leftHandSide,
        Matrix.of_apply, Matrix.cons_val_zero, Matrix.cons_val_one, Matrix.head_cons,
        Matrix.cons_val_two, Matrix.tail_cons, Pi.zero_apply, List.get_eq_getElem]
      exact this
    rw [normalMatrix, ← Matrix.mulVec_mulVec, hA, Matrix.mulVec_zero]

/-- C7. PlaneFitter is a least-squares fit.  For samples with rows `(x, y, 1)` whose normal
matrix `AᵗA` is invertible, the computed plane is `(AᵗA)⁻¹ Aᵗ b`, it satisfies the normal
equations `AᵗA p = Aᵗ b`, and for every `(a', b', c')` the sum over the samples of
`(a x + b y + c - z)^2` is at most the sum of `(a' x + b' y + c' - z)^2`. -/
theorem C7_plane_fit_least_squares (samples : List Sample)
    (hz : ∀ s ∈ samples, s.location.z = 1) (hinv : (normalMatrix samples).det ≠ 0) :
    fitPlane samples
      = (normalMatrix samples)⁻¹ * (leftHandSide samples).transpose * rightHandSide samples ∧
    normalMatrix samples * fitPlane samples
      = (leftHandSide samples).transpose * rightHandSide samples ∧
    ∀ a' b' c' : ℚ,
      (samples.map fun s => (fitPlane samples 0 0 * s.location.x
          + fitPlane samples 1 0 * s.location.y + fitPlane samples 2 0 - s.depth) ^ 2).sum
        ≤ (samples.map fun s =>
            (a' * s.location.x + b' * s.location.y + c' - s.depth) ^ 2).sum := by
  refine ⟨?_, fitPlane_normal_equations samples hinv, fun a' b' c' => ?_⟩
  · rw [fitPlane, cvInv3_eq_inv]
  · rw [sum_map_eq_sum_get, sum_map_eq_sum_get]
    have hmin := fitPlane_minimises samples hinv a' b' c'
    have hz1 : ∀ k : Fin samples.length, (samples.get k).location.z = 1 :=
      fun k => hz _ (List.get_mem samples k.1 k.2)
    simp only [hz1, mul_one] at hmin
    exact hmin

/-- C8. PlaneFitter recovers a known plane.  When every sample has row `(x, y, 1)` and
depth `a0 x + b0 y + c0`, and `AᵗA` is invertible, the fitted plane is `(a0, b0, c0)`. -/
theorem C8_plane_fit_recovers (samples : List Sample) (a0 b0 c0 : ℚ)
    (hz : ∀ s ∈ samples, s.location.z = 1)
    (hd : ∀ s ∈ samples, s.depth = a0 * s.location.x + b0 * s.location.y + c0)
    (hinv : (normalMatrix samples).det ≠ 0) :
    fitPlane samples 0 0 = a0 ∧ fitPlane samples 1 0 = b0 ∧ fitPlane samples 2 0 = c0 := by
  have hfit : fitPlane samples = Matrix.of ![![a0], ![b0], ![c0]] := by
    apply fitPlane_exact samples hinv
    ext k j
    obtain rfl : j = 0 := Subsingleton.elim _ _
    have hk := List.get_mem samples k.1 k.2
    have hdk := hd _ hk
    have hzk := hz _ hk
    simp only [List.get_eq_getElem] at hdk hzk
    simp only [rightHandSide, leftHandSide, Matrix.mul_apply, Fin.sum_univ_three,
      Matrix.of_apply, Matrix.cons_val_zero, Matrix.cons_val_one, Matrix.head_cons,
      Matrix.cons_val_two, Matrix.tail_cons, List.get_eq_getElem, hdk, hzk]
    ring
  rw [hfit]
  exact ⟨rfl, rfl, rfl⟩


/-- C7 at a concrete input: the three samples have an invertible normal matrix. -/
theorem C7_plane_fit_least_squares_witness :
    normalMatrix threeSamples * fitPlane threeSamples
      = (leftHandSide threeSamples).transpose * rightHandSide threeSamples :=
  (C7_plane_fit_least_squares threeSamples (by decide!) (by decide!)).2.1

/-- C8 at a concrete input: the three samples generated from the plane (1, 2, 1) give it back. -/
theorem C8_plane_fit_recovers_witness :
    fitPlane threeSamples 0 0 = 1 ∧ fitPlane threeSamples 1 0 = 2 ∧ fitPlane threeSamples 2 0 = 1 :=
  C8_plane_fit_recovers threeSamples 1 2 1 (by decide!) (by decide!) (by decide!)

/-! ### Degenerate plane fits -/

theorem fitPlane_singular (samples : List Sample) (h : (normalMatrix samples).det = 0) :
    fitPlane samples = 0 := by
  rw [fitPlane, cvInv3_singular _ h, Matrix.zero_mul, Matrix.zero_mul]

theorem robot_projectRects_zero_plane (f : Robot.Frame) (rects : List Rect) :
    Robot.projectRects f 0 0 0 rects = some (List.replicate (6 * rects.length) 0) := by
  induction rects with
  | nil => rfl
  | cons r t ih =>
    have hden : ∀ px py : Int, Robot.denominator f 0 0 px py = 1 := by
      intro px py
      simp [Robot.denominator]
    have hcorner : ∀ px py : Int, Robot.cornerFloats f 0 0 0 px py = [0, 0, 0] := by
      intro px py
      simp [Robot.cornerFloats]
    simp only [Robot.projectRects, hden, hcorner, ih, one_ne_zero, if_false, Option.map_some',
      List.length_cons]
    have e : 6 * (t.length + 1) = (6 * t.length).succ.succ.succ.succ.succ.succ := by omega
    rw [e]
    rfl

/-- The robot copy on an admitted frame with enough samples and a singular normal matrix. -/
theorem robot_singular_result (lib : CvLib) (det : Detector) (f : Robot.Frame)
    (hadm : ¬ f.timestamp < det.prev_image_timestamp_ + 1 / 10)
    (hlen : 50 ≤ (Robot.floorSamples f).length)
    (hsing : (normalMatrix (Robot.floorSamples f)).det = 0) :
    (Robot.ProcessDepthAndColorImages lib det f).ret
      = some (((boundRects lib 150
            (lib.findContours (Robot.componentsImage lib f 0 0 0))).length : ℚ)
          :: List.replicate (6 * (boundRects lib 150
            (lib.findContours (Robot.componentsImage lib f 0 0 0))).length) 0) := by
  rw [robot_process_admitted lib det f hadm]
  have hl : ¬ (Robot.floorSamples f).length < 50 := by omega
  simp only [hl, if_false, Robot.detectObjects, fitPlane_singular _ hsing, Matrix.zero_apply,
    robot_projectRects_zero_plane, Option.map_some']

/-- The app copy on an admitted frame of ratio 1 with enough samples. -/
theorem app_enough_samples_result (lib : CvLib) (det : Detector) (f : App.Frame)
    (hadm : ¬ f.timestamp < det.prev_image_timestamp_ + 1 / 1)
    (hratio : f.color_to_depth_ratio = 1)
    (hlen : 100 ≤ (App.floorSamples f).length) :
    (App.ProcessDepthAndColorImages lib det f).ret
      = some (App.detectObjects lib f (App.floorSamples f)) := by
  rw [app_process_admitted lib det f hadm]
  have hl : ¬ (App.floorSamples f).length < 100 := by omega
  simp [hl, hratio]

/-- Every sample of the wall frame has `X = 20`, so its normal matrix is singular. -/
theorem wallFrameB_singular : (normalMatrix (Robot.floorSamples wallFrameB)).det = 0 :=
  normalMatrix_det_zero _ 1 0 (-20) (Or.inl one_ne_zero) (by decide!)

/-- C9 as stated fails.  The 50 x 30 wall frame is admitted by a fresh detector, yields 72
samples whose normal matrix `AᵗA` is singular, and the call returns the array `[0]`
with the stand-in library, and some array with every library. -/
theorem C9_degenerate_plane_counterexample :
    ¬ wallFrameB.timestamp < Detector.initial.prev_image_timestamp_ + 1 / 10 ∧
    (Robot.floorSamples wallFrameB).length = 72 ∧
    (normalMatrix (Robot.floorSamples wallFrameB)).det = 0 ∧
    (Robot.ProcessDepthAndColorImages plainLib Detector.initial wallFrameB).ret = some [0] ∧
    ∀ lib : CvLib,
      (Robot.ProcessDepthAndColorImages lib Detector.initial wallFrameB).ret ≠ none := by
  have h1 : ¬ wallFrameB.timestamp < Detector.initial.prev_image_timestamp_ + 1 / 10 := by
    decide!
  have h2 : (Robot.floorSamples wallFrameB).length = 72 := by decide!
  have h3 : (normalMatrix (Robot.floorSamples wallFrameB)).det = 0 := wallFrameB_singular
  refine ⟨h1, h2, h3, by decide!, fun lib => ?_⟩
  rw [robot_singular_result lib Detector.initial wallFrameB h1 (by omega) h3]
  exact Option.some_ne_none _

/-- C9, amended.  Neither copy tests whether `AᵗA` is singular.  In the robot copy an
admitted frame with at least 50 samples and a singular `AᵗA` gets the all-zero inverse,
hence the plane (0, 0, 0), and the call returns the array `[K, 0, ..., 0]` of `1 + 6 K`
floats for the `K` rectangles found.  In the app copy an admitted frame of ratio 1 with
at least 100 samples returns an array whether `AᵗA` is singular or not, and a singular
`AᵗA` gives the plane (0, 0, 0). -/
theorem C9_degenerate_plane (lib : CvLib) (det : Detector) (fB : Robot.Frame) (fA : App.Frame)
    (hB : ¬ fB.timestamp < det.prev_image_timestamp_ + 1 / 10)
    (hlenB : 50 ≤ (Robot.floorSamples fB).length)
    (hsingB : (normalMatrix (Robot.floorSamples fB)).det = 0)
    (hA : ¬ fA.timestamp < det.prev_image_timestamp_ + 1 / 1)
    (hratio : fA.color_to_depth_ratio = 1)
    (hlenA : 100 ≤ (App.floorSamples fA).length) :
    (fitPlane (Robot.floorSamples fB) = 0 ∧
      (Robot.ProcessDepthAndColorImages lib det fB).ret
        = some (((boundRects lib 150
              (lib.findContours (Robot.componentsImage lib fB 0 0 0))).length : ℚ)
            :: List.replicate (6 * (boundRects lib 150
              (lib.findContours (Robot.componentsImage lib fB 0 0 0))).length) 0)) ∧
    ((App.ProcessDepthAndColorImages lib det fA).ret
        = some (App.detectObjects lib fA (App.floorSamples fA)) ∧
      ((normalMatrix (App.floorSamples fA)).det = 0 → fitPlane (App.floorSamples fA) = 0)) :=
  ⟨⟨fitPlane_singular _ hsingB, robot_singular_result lib det fB hB hlenB hsingB⟩,
   ⟨app_enough_samples_result lib det fA hA hratio hlenA, fitPlane_singular _⟩⟩


/-- The first five rows of the 100 x 160 frame give seven samples each. -/
theorem flatFrameA_rows_lo :
    ((intRange 0 5).flatMap (App.rowSamples flatFrameA)).length = 35 := by
  decide!

theorem flatFrameA_rows_mid :
    ((intRange 5 10).flatMap (App.rowSamples flatFrameA)).length = 35 := by
  decide!

theorem flatFrameA_rows_hi :
    ((intRange 10 15).flatMap (App.rowSamples flatFrameA)).length = 35 := by
  decide!

/-- The 15 floor rows of the 100 x 160 frame give 105 samples. -/
theorem flatFrameA_samples : 100 ≤ (App.floorSamples flatFrameA).length := by
  have hrows : App.bandRows flatFrameA.image_height
      = intRange 0 5 ++ (intRange 5 10 ++ (intRange 10 15 ++ intRange 15 80)) := by
    decide!
  rw [App.floorSamples, hrows, List.flatMap_append, List.flatMap_append, List.flatMap_append,
    List.length_append, List.length_append, List.length_append, flatFrameA_rows_lo,
    flatFrameA_rows_mid, flatFrameA_rows_hi]
  omega

/-- C9 (amended) at concrete inputs: the wall frame in the robot copy and a 100 x 160 frame
with 15 floor rows (105 samples) in the app copy. -/
theorem C9_degenerate_plane_witness :
    fitPlane (Robot.floorSamples wallFrameB) = 0 ∧
    (App.ProcessDepthAndColorImages plainLib Detector.initial flatFrameA).ret
      = some (App.detectObjects plainLib flatFrameA (App.floorSamples flatFrameA)) :=
  have h := C9_degenerate_plane plainLib Detector.initial wallFrameB flatFrameA (by decide!)
    (by decide!) wallFrameB_singular (by decide!) (by decide!) flatFrameA_samples
  ⟨h.1.1, h.2.1⟩

/-! ### Run-length labelling -/

theorem isRun_iff (fm : ℚ) (line : List ℚ) (s len : Nat) :
    IsRun fm line s len ↔
      s + len ≤ line.length ∧
      (∀ i, s ≤ i → i < s + len → fm < line.getD i 0) ∧
      (∀ i, s ≤ i → i + 1 < s + len → |line.getD (i + 1) 0 - line.getD i 0| < 0.03) := by
  constructor
  · rintro ⟨h1, h2, h3⟩
    refine ⟨h1, fun i hi1 hi2 => ?_, fun i hi1 hi2 => ?_⟩
    · have h := h2 (i - s) (by omega)
      rwa [show s + (i - s) = i by omega] at h
    · have h := h3 (i - s) (by omega)
      rwa [show s + (i - s) = i by omega] at h
  · rintro ⟨h1, h2, h3⟩
    exact ⟨h1, fun i hi => h2 (s + i) (by omega) (by omega),
      fun i hi => h3 (s + i) (by omega) (by omega)⟩

theorem isRun_one (fm : ℚ) (line : List ℚ) (n : Nat) (hn : n < line.length)
    (hv : fm < line.getD n 0) : IsRun fm line n 1 := by
  rw [isRun_iff]
  refine ⟨by omega, fun i h1 h2 => ?_, fun i h1 h2 => by omega⟩
  have : i = n := by omega
  rw [this]; exact hv

theorem isRun_snoc (fm : ℚ) (line : List ℚ) (s len : Nat) (h : IsRun fm line s len)
    (hn : s + len < line.length) (hv : fm < line.getD (s + len) 0)
    (hl : |line.getD (s + len) 0 - line.getD (s + len - 1) 0| < 0.03) :
    IsRun fm line s (len + 1) := by
  rw [isRun_iff] at h ⊢
  obtain ⟨h1, h2, h3⟩ := h
  refine ⟨by omega, fun i hi1 hi2 => ?_, fun i hi1 hi2 => ?_⟩
  · by_cases hi : i = s + len
    · rw [hi]; exact hv
    · exact h2 i hi1 (by omega)
  · by_cases hi : i + 1 = s + len
    · have e : i = s + len - 1 := by omega
      rw [hi, e]; exact hl
    · exact h3 i hi1 (by omega)

theorem isRun_shorten (fm : ℚ) (line : List ℚ) (s len : Nat)
    (h : IsRun fm line s (len + 1)) : IsRun fm line s len := by
  rw [isRun_iff] at h ⊢
  obtain ⟨h1, h2, h3⟩ := h
  exact ⟨by omega, fun i hi1 hi2 => h2 i hi1 (by omega), fun i hi1 hi2 => h3 i hi1 (by omega)⟩

theorem isRun_valid (fm : ℚ) (line : List ℚ) (s len i : Nat) (h : IsRun fm line s len)
    (h1 : s ≤ i) (h2 : i < s + len) : fm < line.getD i 0 :=
  ((isRun_iff fm line s len).1 h).2.1 i h1 h2

theorem isRun_link (fm : ℚ) (line : List ℚ) (s len i : Nat) (h : IsRun fm line s len)
    (h1 : s ≤ i) (h2 : i + 1 < s + len) : |line.getD (i + 1) 0 - line.getD i 0| < 0.03 :=
  ((isRun_iff fm line s len).1 h).2.2 i h1 h2

theorem isRun_le_length (fm : ℚ) (line : List ℚ) (s len : Nat) (h : IsRun fm line s len) :
    s + len ≤ line.length := h.1

/-- A run that starts inside another run and reaches its end can be glued before it. -/
theorem isRun_glue (fm : ℚ) (line : List ℚ) (s1 l1 s2 l2 : Nat)
    (h1 : IsRun fm line s1 l1) (h2 : IsRun fm line s2 l2) (hov : s2 < s1 + l1) :
    IsRun fm line s1 (s2 + l2 - s1) := by
  rw [isRun_iff] at h1 h2 ⊢
  obtain ⟨a1, a2, a3⟩ := h1
  obtain ⟨b1, b2, b3⟩ := h2
  refine ⟨by omega, fun i hi1 hi2 => ?_, fun i hi1 hi2 => ?_⟩
  · by_cases hi : i < s2
    · exact a2 i hi1 (by omega)
    · exact b2 i (by omega) (by omega)
  · by_cases hi : i < s2
    · exact a3 i hi1 (by omega)
    · exact b3 i (by omega) (by omega)

/-- Two maximal runs that share a pixel are the same run. -/
theorem isMaximalRun_unique (fm : ℚ) (line : List ℚ) (s1 l1 s2 l2 p : Nat)
    (h1 : IsMaximalRun fm line s1 l1) (h2 : IsMaximalRun fm line s2 l2)
    (hp1 : s1 ≤ p ∧ p < s1 + l1) (hp2 : s2 ≤ p ∧ p < s2 + l2) : s1 = s2 ∧ l1 = l2 := by
  obtain ⟨p1, r1, nr1, nl1⟩ := h1
  obtain ⟨p2, r2, nr2, nl2⟩ := h2
  have key : ∀ (a la b lb : Nat), IsRun fm line a la → IsRun fm line b lb → 0 < lb →
      a < b → b < a + la → IsRun fm line (b - 1) (lb + 1) := by
    intro a la b lb ra rb hlb hab hov
    have hsub : IsRun fm line (b - 1) 2 := by
      rw [isRun_iff] at ra ⊢
      obtain ⟨a1, a2, a3⟩ := ra
      exact ⟨by omega, fun i hi1 hi2 => a2 i (by omega) (by omega),
        fun i hi1 hi2 => a3 i (by omega) (by omega)⟩
    have := isRun_glue fm line (b - 1) 2 b lb hsub rb (by omega)
    rwa [show b + lb - (b - 1) = lb + 1 by omega] at this
  have keyR : ∀ (a la lb : Nat), IsRun fm line a la → IsRun fm line a lb → 0 < la →
      la < lb → IsRun fm line a (la + 1) := by
    intro a la lb ra rb hla hlt
    rw [isRun_iff] at rb ⊢
    obtain ⟨b1, b2, b3⟩ := rb
    exact ⟨by omega, fun i hi1 hi2 => b2 i hi1 (by omega), fun i hi1 hi2 => b3 i hi1 (by omega)⟩
  have hs : s1 = s2 := by
    rcases Nat.lt_trichotomy s1 s2 with h | h | h
    · exact absurd (key s1 l1 s2 l2 r1 r2 p2 h (by omega)) (nl2 (by omega))
    · exact h
    · exact absurd (key s2 l2 s1 l1 r2 r1 p1 h (by omega)) (nl1 (by omega))
  subst hs
  refine ⟨rfl, ?_⟩
  rcases Nat.lt_trichotomy l1 l2 with h | h | h
  · exact absurd (keyR s1 l1 l2 r1 r2 p1 h) nr1
  · exact h
  · exact absurd (keyR s1 l2 l1 r2 r1 p2 h) nr2

theorem labelInv_init (fm : ℚ) (line : List ℚ) : LabelInv fm line 0 LabelState.init where
  pos_eq := rfl
  count_len := rfl
  zero_iff := fun i hi => by omega
  le_latest := fun i hi => by omega
  closed := fun k h1 h2 => by simp [LabelState.init] at h2
  current := fun h => by simp [LabelState.init] at h
  fresh := fun _ => ⟨rfl, rfl⟩
  mono := fun i j _ hj => by omega
  head_zero := rfl
  active_iff := fun h => by omega
  depth_eq := fun h => by simp [LabelState.init] at h

/-- The loop invariant survives a pixel at or below the floor minimum. -/
theorem labelInv_invalid (fm : ℚ) (line : List ℚ) (n : Nat) (s t : LabelState)
    (hinv : LabelInv fm line n s) (hv : ¬ fm < line.getD n 0)
    (h_labeled : t.labeled = Function.update s.labeled s.pos 0)
    (h_lc : t.labels_count = s.labels_count)
    (h_act : t.component_active = false)
    (h_cnt : t.component_count = s.component_count)
    (h_lat : t.latest_label = s.latest_label)
    (h_pos : t.pos = s.pos + 1) : LabelInv fm line (n + 1) t := by
  have hl_n : t.labeled n = 0 := by rw [h_labeled, hinv.pos_eq, Function.update_same]
  have hl_lt : ∀ i, i < n → t.labeled i = s.labeled i := by
    intro i hi
    rw [h_labeled, hinv.pos_eq, Function.update_noteq (by omega)]
  refine ⟨?_, ?_, ?_, ?_, ?_, ?_, ?_, ?_, ?_, ?_, ?_⟩
  · rw [h_pos, hinv.pos_eq]
  · rw [h_lc, h_lat, hinv.count_len]
  · intro i hi
    rcases Nat.lt_succ_iff_lt_or_eq.1 hi with h | h
    · rw [hl_lt i h]; exact hinv.zero_iff i h
    · subst h; rw [hl_n]; exact iff_of_true rfl hv
  · intro i hi
    rcases Nat.lt_succ_iff_lt_or_eq.1 hi with h | h
    · rw [hl_lt i h, h_lat]; exact hinv.le_latest i h
    · subst h; rw [hl_n]; omega
  · intro k hk1 hk2
    rw [h_lat] at hk2
    obtain ⟨st, hm, hle, hiff⟩ := hinv.closed k hk1 hk2
    rw [h_lc]
    refine ⟨st, hm, by omega, fun i hi => ?_⟩
    rcases Nat.lt_succ_iff_lt_or_eq.1 hi with h | h
    · rw [hl_lt i h]; exact hiff i h
    · subst h; rw [hl_n]; constructor <;> intro h' <;> omega
  · intro hL
    rw [h_lat] at hL
    obtain ⟨st, hc, hrun, hleft, hle, hiff, hact, hinact⟩ := hinv.current hL
    rw [h_cnt, h_lat]
    refine ⟨st, hc, hrun, hleft, by omega, fun i hi => ?_, fun h => ?_, fun _ => ?_⟩
    · rcases Nat.lt_succ_iff_lt_or_eq.1 hi with h | h
      · rw [hl_lt i h]; exact hiff i h
      · subst h; rw [hl_n]; constructor <;> intro h' <;> omega
    · rw [h_act] at h; cases h
    · by_cases ha : s.component_active = true
      · have e := hact ha
        refine ⟨by omega, ?_⟩
        rw [e]; exact hv
      · have h2 := hinact (by simpa using ha)
        exact ⟨by omega, h2.2⟩
  · intro hL
    rw [h_lat] at hL
    exact ⟨by rw [h_cnt]; exact (hinv.fresh hL).1, h_act⟩
  · intro i j hij hj hi1 hj1
    rcases Nat.lt_succ_iff_lt_or_eq.1 hj with h | h
    · rw [hl_lt j h] at hj1 ⊢
      rw [hl_lt i (by omega)] at hi1 ⊢
      exact hinv.mono i j hij h hi1 hj1
    · subst h; rw [hl_n] at hj1; omega
  · rw [h_lc]; exact hinv.head_zero
  · intro _
    rw [h_act, Nat.add_sub_cancel]
    exact iff_of_false Bool.false_ne_true hv
  · intro h; rw [h_act] at h; cases h

/-- The loop invariant survives a pixel that joins the current run. -/
theorem labelInv_join (fm : ℚ) (line : List ℚ) (n : Nat) (s t : LabelState)
    (hinv : LabelInv fm line n s) (hn : n < line.length) (hv : fm < line.getD n 0)
    (hact : s.component_active = true)
    (hlink : |line.getD n 0 - s.component_depth| < 0.03)
    (h_labeled : t.labeled = Function.update s.labeled s.pos s.latest_label)
    (h_lc : t.labels_count = s.labels_count)
    (h_act : t.component_active = true)
    (h_cnt : t.component_count = s.component_count + 1)
    (h_lat : t.latest_label = s.latest_label)
    (h_dep : t.component_depth = line.getD n 0)
    (h_pos : t.pos = s.pos + 1) : LabelInv fm line (n + 1) t := by
  have hl_n : t.labeled n = s.latest_label := by
    rw [h_labeled, hinv.pos_eq, Function.update_same]
  have hl_lt : ∀ i, i < n → t.labeled i = s.labeled i := by
    intro i hi
    rw [h_labeled, hinv.pos_eq, Function.update_noteq (by omega)]
  have hL : 1 ≤ s.latest_label := by
    by_contra hc
    have := (hinv.fresh (by omega)).2
    rw [hact] at this
    cases this
  obtain ⟨st, hc, hrun, hleft, hle, hiff, hactive, _⟩ := hinv.current hL
  have hend := hactive hact
  have hdep := hinv.depth_eq hact
  refine ⟨?_, ?_, ?_, ?_, ?_, ?_, ?_, ?_, ?_, ?_, ?_⟩
  · rw [h_pos, hinv.pos_eq]
  · rw [h_lc, h_lat, hinv.count_len]
  · intro i hi
    rcases Nat.lt_succ_iff_lt_or_eq.1 hi with h | h
    · rw [hl_lt i h]; exact hinv.zero_iff i h
    · subst h; rw [hl_n]
      exact iff_of_false (by omega) (not_not.2 hv)
  · intro i hi
    rcases Nat.lt_succ_iff_lt_or_eq.1 hi with h | h
    · rw [hl_lt i h, h_lat]; exact hinv.le_latest i h
    · subst h; rw [hl_n, h_lat]
  · intro k hk1 hk2
    rw [h_lat] at hk2
    obtain ⟨st2, hm, hle2, hiff2⟩ := hinv.closed k hk1 hk2
    rw [h_lc]
    refine ⟨st2, hm, by omega, fun i hi => ?_⟩
    rcases Nat.lt_succ_iff_lt_or_eq.1 hi with h | h
    · rw [hl_lt i h]; exact hiff2 i h
    · subst h; rw [hl_n]; constructor <;> intro h' <;> omega
  · intro _
    rw [h_cnt, h_lat]
    refine ⟨st, by omega, ?_, fun h0 hr => hleft h0 (isRun_shorten _ _ _ _ hr), by omega,
      fun i hi => ?_, fun _ => by omega, fun h => ?_⟩
    · apply isRun_snoc fm line st s.component_count hrun (by omega)
      · rw [hend]; exact hv
      · rw [hend, ← hdep]; exact hlink
    · rcases Nat.lt_succ_iff_lt_or_eq.1 hi with h | h
      · rw [hl_lt i h]
        constructor
        · intro h'; have := (hiff i h).1 h'; omega
        · intro h'; exact (hiff i h).2 ⟨h'.1, by omega⟩
      · subst h; rw [hl_n]
        exact iff_of_true rfl ⟨by omega, by omega⟩
    · rw [h_act] at h; cases h
  · intro h0
    rw [h_lat] at h0; omega
  · intro i j hij hj hi1 hj1
    rcases Nat.lt_succ_iff_lt_or_eq.1 hj with h | h
    · rw [hl_lt j h] at hj1 ⊢
      rw [hl_lt i (by omega)] at hi1 ⊢
      exact hinv.mono i j hij h hi1 hj1
    · subst h
      rw [hl_n]
      rcases Nat.lt_or_ge i j with h2 | h2
      · rw [hl_lt i h2]; exact hinv.le_latest i h2
      · have : i = j := by omega
        subst this; rw [hl_n]
  · rw [h_lc]; exact hinv.head_zero
  · intro _
    rw [h_act, Nat.add_sub_cancel]
    exact iff_of_true rfl hv
  · intro _
    rw [h_dep, Nat.add_sub_cancel]

/-- The loop invariant survives a pixel that starts a new run. -/
theorem labelInv_new (fm : ℚ) (line : List ℚ) (n : Nat) (s t : LabelState)
    (hinv : LabelInv fm line n s) (hn : n < line.length) (hv : fm < line.getD n 0)
    (hnl : s.component_active = true → ¬ |line.getD n 0 - s.component_depth| < 0.03)
    (h_labeled : t.labeled = Function.update s.labeled s.pos (s.latest_label + 1))
    (h_lc : t.labels_count = s.labels_count ++ [s.component_count])
    (h_act : t.component_active = true)
    (h_cnt : t.component_count = 1)
    (h_lat : t.latest_label = s.latest_label + 1)
    (h_dep : t.component_depth = line.getD n 0)
    (h_pos : t.pos = s.pos + 1) : LabelInv fm line (n + 1) t := by
  have hl_n : t.labeled n = s.latest_label + 1 := by
    rw [h_labeled, hinv.pos_eq, Function.update_same]
  have hl_lt : ∀ i, i < n → t.labeled i = s.labeled i := by
    intro i hi
    rw [h_labeled, hinv.pos_eq, Function.update_noteq (by omega)]
  have hlen := hinv.count_len
  -- the pixel before `n` cannot be glued to pixel `n`
  have hleftn : 0 < n → ¬ IsRun fm line (n - 1) 2 := by
    intro h0 hr
    have hvalid := isRun_valid fm line (n - 1) 2 (n - 1) hr (by omega) (by omega)
    have hact := (hinv.active_iff h0).2 hvalid
    have hlk := isRun_link fm line (n - 1) 2 (n - 1) hr (by omega) (by omega)
    rw [show n - 1 + 1 = n by omega, ← hinv.depth_eq hact] at hlk
    exact hnl hact hlk
  refine ⟨?_, ?_, ?_, ?_, ?_, ?_, ?_, ?_, ?_, ?_, ?_⟩
  · rw [h_pos, hinv.pos_eq]
  · rw [h_lc, h_lat, List.length_append, hlen]; rfl
  · intro i hi
    rcases Nat.lt_succ_iff_lt_or_eq.1 hi with h | h
    · rw [hl_lt i h]; exact hinv.zero_iff i h
    · subst h; rw [hl_n]
      exact iff_of_false (by omega) (not_not.2 hv)
  · intro i hi
    rcases Nat.lt_succ_iff_lt_or_eq.1 hi with h | h
    · rw [hl_lt i h, h_lat]; have := hinv.le_latest i h; omega
    · subst h; rw [hl_n, h_lat]
  · intro k hk1 hk2
    rw [h_lat] at hk2
    rcases Nat.lt_succ_iff_lt_or_eq.1 hk2 with hk | hk
    · obtain ⟨st2, hm, hle2, hiff2⟩ := hinv.closed k hk1 hk
      rw [h_lc, List.getD_append _ _ _ _ (by omega)]
      refine ⟨st2, hm, by omega, fun i hi => ?_⟩
      rcases Nat.lt_succ_iff_lt_or_eq.1 hi with h | h
      · rw [hl_lt i h]; exact hiff2 i h
      · subst h; rw [hl_n]; constructor <;> intro h' <;> omega
    · subst hk
      obtain ⟨st, hc, hrun, hleft, hle, hiff, hactive, hinactive⟩ := hinv.current hk1
      have hget : (s.labels_count ++ [s.component_count]).getD s.latest_label 0
          = s.component_count := by
        rw [List.getD_append_right _ _ _ _ (by omega), hlen, Nat.sub_self]
        rfl
      rw [h_lc, hget]
      refine ⟨st, ⟨hc, hrun, ?_, hleft⟩, by omega, fun i hi => ?_⟩
      · intro hr
        by_cases ha : s.component_active = true
        · have hend := hactive ha
          have hlk := isRun_link fm line st (s.component_count + 1) (n - 1) hr (by omega)
            (by omega)
          rw [show n - 1 + 1 = n by omega, ← hinv.depth_eq ha] at hlk
          exact hnl ha hlk
        · have h2 := hinactive (by simpa using ha)
          exact h2.2 (isRun_valid fm line st (s.component_count + 1) _ hr (by omega) (by omega))
      · rcases Nat.lt_succ_iff_lt_or_eq.1 hi with h | h
        · rw [hl_lt i h]; exact hiff i h
        · subst h; rw [hl_n]; constructor <;> intro h' <;> omega
  · intro _
    rw [h_cnt, h_lat]
    refine ⟨n, by omega, isRun_one fm line n hn hv, hleftn, by omega, fun i hi => ?_,
      fun _ => rfl, fun h => ?_⟩
    · rcases Nat.lt_succ_iff_lt_or_eq.1 hi with h | h
      · rw [hl_lt i h]
        have := hinv.le_latest i h
        constructor <;> intro h' <;> omega
      · subst h; rw [hl_n]
        exact iff_of_true rfl ⟨by omega, by omega⟩
    · rw [h_act] at h; cases h
  · intro h0
    rw [h_lat] at h0; omega
  · intro i j hij hj hi1 hj1
    rcases Nat.lt_succ_iff_lt_or_eq.1 hj with h | h
    · rw [hl_lt j h] at hj1 ⊢
      rw [hl_lt i (by omega)] at hi1 ⊢
      exact hinv.mono i j hij h hi1 hj1
    · subst h
      rw [hl_n]
      rcases Nat.lt_or_ge i j with h2 | h2
      · rw [hl_lt i h2]; have := hinv.le_latest i h2; omega
      · have : i = j := by omega
        subst this; rw [hl_n]
  · rw [h_lc]
    by_cases h0 : s.latest_label = 0
    · have hnil : s.labels_count = [] := List.length_eq_zero.1 (by omega)
      rw [hnil, (hinv.fresh h0).1]
      rfl
    · rw [List.getD_append _ _ _ _ (by omega)]
      exact hinv.head_zero
  · intro _
    rw [h_act, Nat.add_sub_cancel]
    exact iff_of_true rfl hv
  · intro _
    rw [h_dep, Nat.add_sub_cancel]

theorem labelInv_step (fm : ℚ) (line : List ℚ) (n : Nat) (s : LabelState)
    (hinv : LabelInv fm line n s) (hn : n < line.length) :
    LabelInv fm line (n + 1) (labelStep fm s (line.getD n 0)) := by
  unfold labelStep
  split_ifs with h1 h2 h3
  · exact labelInv_join fm line n s _ hinv hn h1 h2 h3 rfl rfl h2 rfl rfl rfl rfl
  · exact labelInv_new fm line n s _ hinv hn h1 (fun _ => h3) rfl rfl h2 rfl rfl rfl rfl
  · exact labelInv_new fm line n s _ hinv hn h1 (fun ha => absurd ha h2) rfl rfl rfl rfl rfl
      rfl rfl
  · exact labelInv_invalid fm line n s _ hinv h1 rfl rfl rfl rfl rfl rfl

theorem labelInv_foldl (fm : ℚ) (line : List ℚ) :
    ∀ (rest pre : List ℚ) (s : LabelState), pre ++ rest = line → LabelInv fm line pre.length s →
      LabelInv fm line line.length (rest.foldl (labelStep fm) s) := by
  intro rest
  induction rest with
  | nil =>
    intro pre s hline hinv
    rw [List.append_nil] at hline
    subst hline
    exact hinv
  | cons d rest ih =>
    intro pre s hline hinv
    have hd : line.getD pre.length 0 = d := by
      rw [← hline, List.getD_append_right _ _ _ _ (le_refl _), Nat.sub_self]
      rfl
    have hlt : pre.length < line.length := by
      rw [← hline, List.length_append, List.length_cons]
      omega
    have hstep := labelInv_step fm line pre.length s hinv hlt
    rw [hd] at hstep
    rw [List.foldl_cons]
    apply ih (pre ++ [d]) _ (by rw [List.append_assoc]; exact hline)
    rw [List.length_append]
    exact hstep

theorem labelLine_inv (fm : ℚ) (line : List ℚ) :
    LabelInv fm line line.length (labelLine fm line) :=
  labelInv_foldl fm line line [] LabelState.init rfl (labelInv_init fm line)

theorem labelsCount_length (fm : ℚ) (line : List ℚ) :
    (labelsCount fm line).length = (labelLine fm line).latest_label + 1 := by
  rw [labelsCount, List.length_append, (labelLine_inv fm line).count_len]
  rfl

theorem labelsCount_head (fm : ℚ) (line : List ℚ) : (labelsCount fm line).getD 0 0 = 0 := by
  have hinv := labelLine_inv fm line
  rw [labelsCount]
  by_cases h0 : (labelLine fm line).latest_label = 0
  · have hnil : (labelLine fm line).labels_count = [] :=
      List.length_eq_zero.1 (by rw [hinv.count_len]; exact h0)
    rw [hnil, (hinv.fresh h0).1]
    rfl
  · rw [List.getD_append _ _ _ _ (by rw [hinv.count_len]; omega)]
    exact hinv.head_zero

/-- Every label from 1 on marks exactly the pixels of one maximal run, whose length is the
entry of `labels_count` at that label. -/
theorem labelsCount_runs (fm : ℚ) (line : List ℚ) (k : Nat) (hk1 : 1 ≤ k)
    (hk2 : k ≤ (labelLine fm line).latest_label) :
    ∃ st, IsMaximalRun fm line st ((labelsCount fm line).getD k 0) ∧
      ∀ i, i < line.length →
        ((labelLine fm line).labeled i = k ↔
          st ≤ i ∧ i < st + (labelsCount fm line).getD k 0) := by
  have hinv := labelLine_inv fm line
  have hlen := hinv.count_len
  rcases Nat.lt_or_ge k (labelLine fm line).latest_label with hlt | hge
  · obtain ⟨st, hm, _, hiff⟩ := hinv.closed k hk1 hlt
    rw [labelsCount, List.getD_append _ _ _ _ (by omega)]
    exact ⟨st, hm, hiff⟩
  · have hk : k = (labelLine fm line).latest_label := by omega
    subst hk
    obtain ⟨st, hc, hrun, hleft, hle, hiff, hactive, hinactive⟩ := hinv.current hk1
    have hget : (labelsCount fm line).getD (labelLine fm line).latest_label 0
        = (labelLine fm line).component_count := by
      rw [labelsCount, List.getD_append_right _ _ _ _ (by omega), hlen, Nat.sub_self]
      rfl
    rw [hget]
    refine ⟨st, ⟨hc, hrun, ?_, hleft⟩, hiff⟩
    intro hr
    by_cases ha : (labelLine fm line).component_active = true
    · have hend := hactive ha
      have := isRun_le_length fm line _ _ hr
      omega
    · have h2 := hinactive (by simpa using ha)
      exact h2.2 (isRun_valid fm line st _ _ hr (by omega) (by omega))

theorem maxElementFrom_spec (cs : List Nat) :
    ∀ (rest pre : List Nat) (best : Nat × Nat), pre ++ rest = cs →
      (best.1 < pre.length ∧ cs.getD best.1 0 = best.2 ∧
        (∀ k, k < pre.length → cs.getD k 0 ≤ best.2) ∧
        (∀ k, k < best.1 → cs.getD k 0 < best.2)) →
      ((maxElementFrom rest pre.length best).1 < cs.length ∧
        cs.getD (maxElementFrom rest pre.length best).1 0
          = (maxElementFrom rest pre.length best).2 ∧
        (∀ k, k < cs.length → cs.getD k 0 ≤ (maxElementFrom rest pre.length best).2) ∧
        (∀ k, k < (maxElementFrom rest pre.length best).1 →
          cs.getD k 0 < (maxElementFrom rest pre.length best).2)) := by
  intro rest
  induction rest with
  | nil =>
    intro pre best hcs hq
    rw [List.append_nil] at hcs
    subst hcs
    exact hq
  | cons v rest ih =>
    intro pre best hcs hq
    obtain ⟨q1, q2, q3, q4⟩ := hq
    have hv : cs.getD pre.length 0 = v := by
      rw [← hcs, List.getD_append_right _ _ _ _ (le_refl _), Nat.sub_self]
      rfl
    have hlen : (pre ++ [v]).length = pre.length + 1 := by
      rw [List.length_append]; rfl
    have hnext := ih (pre ++ [v]) (if best.2 < v then (pre.length, v) else best)
      (by rw [List.append_assoc]; exact hcs)
    rw [hlen] at hnext
    rw [maxElementFrom]
    apply hnext
    by_cases hb : best.2 < v
    · rw [if_pos hb]
      refine ⟨by simp, hv, fun k hk => ?_, fun k hk => ?_⟩
      · rcases Nat.lt_succ_iff_lt_or_eq.1 hk with h | h
        · have := q3 k h
          simp only
          omega
        · subst h
          simp only
          omega
      · have := q3 k hk
        simp only
        omega
    · rw [if_neg hb]
      refine ⟨by omega, q2, fun k hk => ?_, q4⟩
      rcases Nat.lt_succ_iff_lt_or_eq.1 hk with h | h
      · exact q3 k h
      · subst h
        omega

theorem maxElement_spec (cs : List Nat) (hne : 0 < cs.length) :
    (maxElement cs).1 < cs.length ∧ cs.getD (maxElement cs).1 0 = (maxElement cs).2 ∧
      (∀ k, k < cs.length → cs.getD k 0 ≤ (maxElement cs).2) ∧
      (∀ k, k < (maxElement cs).1 → cs.getD k 0 < (maxElement cs).2) := by
  cases cs with
  | nil => simp at hne
  | cons v rest =>
    have h := maxElementFrom_spec (v :: rest) rest [v] (0, v) rfl
      ⟨by simp, rfl, fun k hk => by
        have : k = 0 := by simpa using hk
        subst this
        exact le_refl _, fun k hk => by omega⟩
    exact h

theorem filter_range_eq_range' (n st m : Nat) (p : Nat → Bool) (h : st + m ≤ n)
    (hp : ∀ i, i < n → (p i = true ↔ st ≤ i ∧ i < st + m)) :
    (List.range n).filter p = List.range' st m := by
  apply List.eq_of_perm_of_sorted (r := (· < ·))
  · apply (List.perm_ext_iff_of_nodup ((List.nodup_range n).filter _)
      (List.nodup_range' st m)).2
    intro i
    rw [List.mem_filter, List.mem_range, List.mem_range'_1]
    constructor
    · rintro ⟨h1, h2⟩
      exact (hp i h1).1 h2
    · intro h1
      have hi : i < n := by omega
      exact ⟨hi, (hp i hi).2 h1⟩
  · exact (List.sorted_lt_range n).filter _
  · exact List.pairwise_lt_range' st m

/-- The labelling loop against the specification's runs, for any floor minimum: the
computed maximum is an upper bound on the length of every maximal run, and when it is
positive it is the length of a maximal run, the first of that length, whose pixels are
exactly the collected indices. -/
theorem labelLine_spec (fm : ℚ) (line : List ℚ) :
    (∀ s len, IsMaximalRun fm line s len → len ≤ maxLabelCount fm line) ∧
    (0 < maxLabelCount fm line →
      ∃ s, IsMaximalRun fm line s (maxLabelCount fm line) ∧
        (∀ s2, IsMaximalRun fm line s2 (maxLabelCount fm line) → s ≤ s2) ∧
        maxLabelIndxs fm line = List.range' s (maxLabelCount fm line)) := by
  have hinv := labelLine_inv fm line
  have hcslen := labelsCount_length fm line
  obtain ⟨m1, m2, m3, m4⟩ := maxElement_spec (labelsCount fm line) (by omega)
  have hM : maxLabelCount fm line = (maxElement (labelsCount fm line)).2 := rfl
  have hI : maxLabelsCountIdx fm line = (maxElement (labelsCount fm line)).1 := rfl
  rw [← hM] at m2 m3 m4
  rw [← hI] at m1 m2 m4
  -- every maximal run is the run of the label of its first pixel
  have hlabel : ∀ s len, IsMaximalRun fm line s len →
      1 ≤ (labelLine fm line).labeled s ∧
      (labelLine fm line).labeled s ≤ (labelLine fm line).latest_label ∧
      (labelsCount fm line).getD ((labelLine fm line).labeled s) 0 = len := by
    intro s len hm
    have hs : s < line.length := by
      have := isRun_le_length fm line s len hm.2.1
      have := hm.1
      omega
    have hvalid := isRun_valid fm line s len s hm.2.1 (le_refl _) (by have := hm.1; omega)
    have hnz : (labelLine fm line).labeled s ≠ 0 :=
      fun h0 => ((hinv.zero_iff s hs).1 h0) hvalid
    have hle := hinv.le_latest s hs
    obtain ⟨st, hmk, hiff⟩ := labelsCount_runs fm line _ (by omega) hle
    have hin := (hiff s hs).1 rfl
    have huniq := isMaximalRun_unique fm line s len st _ s hm hmk
      ⟨le_refl _, by have := hm.1; omega⟩ hin
    exact ⟨by omega, hle, huniq.2.symm⟩
  refine ⟨fun s len hm => ?_, fun hpos => ?_⟩
  · obtain ⟨h1, h2, h3⟩ := hlabel s len hm
    rw [← h3]
    exact m3 _ (by omega)
  · have hidx1 : 1 ≤ maxLabelsCountIdx fm line := by
      by_contra hc
      have h0 : maxLabelsCountIdx fm line = 0 := by omega
      rw [h0, labelsCount_head] at m2
      omega
    obtain ⟨s0, hm0, hiff0⟩ := labelsCount_runs fm line _ hidx1 (by omega)
    rw [m2] at hm0 hiff0
    have hs0len := isRun_le_length fm line s0 _ hm0.2.1
    have hs0 : s0 < line.length := by omega
    have hl0 : (labelLine fm line).labeled s0 = maxLabelsCountIdx fm line :=
      (hiff0 s0 hs0).2 ⟨le_refl _, by omega⟩
    refine ⟨s0, hm0, fun s2 hm2 => ?_, ?_⟩
    · obtain ⟨h1, h2, h3⟩ := hlabel s2 _ hm2
      have hs2 : s2 < line.length := by
        have := isRun_le_length fm line s2 _ hm2.2.1
        omega
      have hge : maxLabelsCountIdx fm line ≤ (labelLine fm line).labeled s2 := by
        by_contra hc
        have := m4 ((labelLine fm line).labeled s2) (by omega)
        omega
      by_contra hlt
      have hmono := hinv.mono s2 s0 (by omega) hs0 h1 (by omega)
      have heq : (labelLine fm line).labeled s2 = maxLabelsCountIdx fm line := by omega
      have := (hiff0 s2 hs2).1 heq
      omega
    · unfold maxLabelIndxs
      apply filter_range_eq_range' _ _ _ _ hs0len
      intro i hi
      rw [decide_eq_true_iff]
      exact hiff0 i hi

/-- C4. Run-length labelling of one scan line, both copies (floor minimum 0.65 in the
robot copy, 0 in the app copy; the run depth is carried from pixel to pixel).  The computed
maximum run length is the length of the longest maximal run of consecutive pixels that are
above the floor minimum and differ from their predecessor by less than 0.03: no maximal
run is longer, and when the maximum is positive (the code collects indices only when it
is at least 20, resp. 100) a maximal run of that length exists; the collected index list
is the ascending list of the pixels of the first such run, so its length is the maximum.
For the line [0,0,5,5,5,0,6,6,6,6,0] the maximum is 4 and the indices are 6,7,8,9. -/
theorem C4_run_length_labelling (line : List ℚ) :
    ((∀ s len, IsMaximalRun 0.65 line s len → len ≤ maxLabelCount Robot.kFloorMinDepth line) ∧
      (0 < maxLabelCount Robot.kFloorMinDepth line →
        ∃ s, IsMaximalRun 0.65 line s (maxLabelCount Robot.kFloorMinDepth line) ∧
          (∀ s2, IsMaximalRun 0.65 line s2 (maxLabelCount Robot.kFloorMinDepth line) → s ≤ s2) ∧
          maxLabelIndxs Robot.kFloorMinDepth line
            = List.range' s (maxLabelCount Robot.kFloorMinDepth line) ∧
          (maxLabelIndxs Robot.kFloorMinDepth line).length
            = maxLabelCount Robot.kFloorMinDepth line)) ∧
    ((∀ s len, IsMaximalRun 0 line s len → len ≤ maxLabelCount 0 line) ∧
      (0 < maxLabelCount 0 line →
        ∃ s, IsMaximalRun 0 line s (maxLabelCount 0 line) ∧
          (∀ s2, IsMaximalRun 0 line s2 (maxLabelCount 0 line) → s ≤ s2) ∧
          maxLabelIndxs 0 line = List.range' s (maxLabelCount 0 line) ∧
          (maxLabelIndxs 0 line).length = maxLabelCount 0 line)) ∧
    (maxLabelCount Robot.kFloorMinDepth [0, 0, 5, 5, 5, 0, 6, 6, 6, 6, 0] = 4 ∧
      maxLabelIndxs Robot.kFloorMinDepth [0, 0, 5, 5, 5, 0, 6, 6, 6, 6, 0] = [6, 7, 8, 9] ∧
      maxLabelCount 0 [0, 0, 5, 5, 5, 0, 6, 6, 6, 6, 0] = 4 ∧
      maxLabelIndxs 0 [0, 0, 5, 5, 5, 0, 6, 6, 6, 6, 0] = [6, 7, 8, 9] ∧
      IsMaximalRun 0 [0, 0, 5, 5, 5, 0, 6, 6, 6, 6, 0] 6 4) := by
  have hB := labelLine_spec Robot.kFloorMinDepth line
  have hA := labelLine_spec 0 line
  refine ⟨⟨hB.1, fun hpos => ?_⟩, ⟨hA.1, fun hpos => ?_⟩, by decide!⟩
  · obtain ⟨s, h1, h2, h3⟩ := hB.2 hpos
    exact ⟨s, h1, h2, h3, by rw [h3, List.length_range']⟩
  · obtain ⟨s, h1, h2, h3⟩ := hA.2 hpos
    exact ⟨s, h1, h2, h3, by rw [h3, List.length_range']⟩

/-! ### Object segmentation -/

theorem filter_map_eq_range {α β : Type} (l : List α) (d : α) (p : α → Bool) (g : α → β) :
    (l.filter p).map g
      = ((List.range l.length).filter (fun i => p (l.getD i d))).map
          (fun i => g (l.getD i d)) := by
  induction l with
  | nil => rfl
  | cons a t ih =>
    rw [List.length_cons, List.range_succ_eq_map, List.filter_cons, List.filter_cons,
      List.filter_map, List.getD_cons_zero]
    by_cases h : p a = true
    · rw [if_pos h, if_pos h, List.map_cons, List.map_cons, List.map_map, List.getD_cons_zero,
        ih]
      rfl
    · rw [if_neg h, if_neg h, List.map_map, ih]
      rfl

theorem boundRects_eq_range (lib : CvLib) (minArea : ℚ) (contours : List Contour) :
    boundRects lib minArea contours
      = ((List.range contours.length).filter
            (fun i => decide (1 ≤ i ∧ lib.contourArea (contours.getD i []) > minArea))).map
          (fun i => lib.boundingRect (contours.getD i [])) := by
  cases contours with
  | nil => rfl
  | cons c rest =>
    rw [boundRects, List.drop_one, List.tail_cons,
      filter_map_eq_range rest [] (fun c => decide (lib.contourArea c > minArea))
        lib.boundingRect,
      List.length_cons, List.range_succ_eq_map, List.filter_cons, List.filter_map]
    rw [if_neg (by simp), List.map_map]
    congr 1
    apply List.filter_congr
    intro i _
    simp

/-- C11. ObjectSegmenter selection and order, both copies.  For every list of contours the
list of bounding rectangles is the list of the bounding rectangles of the contours at
the positions `i >= 1` whose area passes the filter of the code (`contourArea > 150` in the
robot copy, `> 1000` in the app copy), by ascending position; the first contour yields no
rectangle whatever it is, and this list is the `bound_rects` of a frame. -/
theorem C11_object_segmenter (lib : CvLib) (contours : List Contour) (fB : Robot.Frame)
    (fA : App.Frame) :
    boundRects lib 150 contours
      = ((List.range contours.length).filter
            (fun i => decide (1 ≤ i ∧ lib.contourArea (contours.getD i []) > 150))).map
          (fun i => lib.boundingRect (contours.getD i [])) ∧
    boundRects lib 1000 contours
      = ((List.range contours.length).filter
            (fun i => decide (1 ≤ i ∧ lib.contourArea (contours.getD i []) > 1000))).map
          (fun i => lib.boundingRect (contours.getD i [])) ∧
    (∀ (first other : Contour) (rest : List Contour),
      boundRects lib 150 (first :: rest) = boundRects lib 150 (other :: rest) ∧
      boundRects lib 1000 (first :: rest) = boundRects lib 1000 (other :: rest)) ∧
    (∀ first : Contour, boundRects lib 150 [first] = [] ∧ boundRects lib 1000 [first] = []) ∧
    Robot.detectObjects lib fB (Robot.floorSamples fB)
      = (Robot.projectRects fB (Robot.framePlane fB 0 0) (Robot.framePlane fB 1 0)
          (Robot.framePlane fB 2 0)
          (boundRects lib 150 (lib.findContours (Robot.componentsImage lib fB
            (Robot.framePlane fB 0 0) (Robot.framePlane fB 1 0)
            (Robot.framePlane fB 2 0))))).map
        (fun floats => ((boundRects lib 150 (lib.findContours (Robot.componentsImage lib fB
            (Robot.framePlane fB 0 0) (Robot.framePlane fB 1 0)
            (Robot.framePlane fB 2 0)))).length : ℚ) :: floats) ∧
    App.detectObjects lib fA (App.floorSamples fA)
      = ((boundRects lib 1000 (lib.findContours (App.componentsImage lib fA
            (fitPlane (App.floorSamples fA) 0 0) (fitPlane (App.floorSamples fA) 1 0)
            (fitPlane (App.floorSamples fA) 2 0)))).length : ℚ)
        :: (boundRects lib 1000 (lib.findContours (App.componentsImage lib fA
            (fitPlane (App.floorSamples fA) 0 0) (fitPlane (App.floorSamples fA) 1 0)
            (fitPlane (App.floorSamples fA) 2 0)))).flatMap (App.rectFloats fA) :=
  ⟨boundRects_eq_range lib 150 contours, boundRects_eq_range lib 1000 contours,
    fun _ _ _ => ⟨rfl, rfl⟩, fun _ => ⟨rfl, rfl⟩, rfl, rfl⟩

theorem boundRects_split (lib : CvLib) (minArea : ℚ) (first c : Contour)
    (pre post : List Contour) :
    boundRects lib minArea (first :: (pre ++ c :: post))
      = boundRects lib minArea (first :: pre)
        ++ (if lib.contourArea c > minArea then [lib.boundingRect c] else [])
        ++ boundRects lib minArea (first :: post) := by
  simp only [boundRects, List.drop_one, List.tail_cons, List.filter_append, List.filter_cons,
    List.map_append, decide_eq_true_eq]
  by_cases h : lib.contourArea c > minArea
  · simp [h]
  · simp [h]

/-- C12 as stated fails: with polygon areas, the second contour of the list is a rectangle
of area exactly 150 (resp. 1000) and the robot copy (resp. the app copy) drops it. -/
theorem C12_area_filter_boundary_counterexample :
    (polygonArea (rectContour 0 0 15 10) = 150 ∧
      boundRects (polygonLib []) 150 [rectContour 0 0 50 50, rectContour 0 0 15 10] = []) ∧
    (polygonArea (rectContour 0 0 40 25) = 1000 ∧
      boundRects (polygonLib []) 1000 [rectContour 0 0 50 50, rectContour 0 0 40 25] = []) := by
  decide!

/-- C12, amended.  The area filter is strict: a contour that is not the first one is kept,
in its place, exactly when its area is greater than the minimum area (150 in the robot
copy, 1000 in the app copy); a contour of area exactly the minimum area, like one of area
the minimum area minus 1, is dropped. -/
theorem C12_area_filter_boundary (lib : CvLib) (first c : Contour) (pre post : List Contour) :
    (boundRects lib 150 (first :: (pre ++ c :: post))
      = boundRects lib 150 (first :: pre)
        ++ (if lib.contourArea c > 150 then [lib.boundingRect c] else [])
        ++ boundRects lib 150 (first :: post)) ∧
    (boundRects lib 1000 (first :: (pre ++ c :: post))
      = boundRects lib 1000 (first :: pre)
        ++ (if lib.contourArea c > 1000 then [lib.boundingRect c] else [])
        ++ boundRects lib 1000 (first :: post)) ∧
    (lib.contourArea c = 150 ∨ lib.contourArea c = 150 - 1 →
      boundRects lib 150 (first :: (pre ++ c :: post))
        = boundRects lib 150 (first :: pre) ++ boundRects lib 150 (first :: post)) ∧
    (lib.contourArea c = 1000 ∨ lib.contourArea c = 1000 - 1 →
      boundRects lib 1000 (first :: (pre ++ c :: post))
        = boundRects lib 1000 (first :: pre) ++ boundRects lib 1000 (first :: post)) := by
  refine ⟨boundRects_split lib 150 first c pre post, boundRects_split lib 1000 first c pre post,
    fun h => ?_, fun h => ?_⟩
  · rw [boundRects_split, if_neg (by rcases h with h | h <;> rw [h] <;> norm_num),
      List.append_nil]
  · rw [boundRects_split, if_neg (by rcases h with h | h <;> rw [h] <;> norm_num),
      List.append_nil]

theorem robot_admitted_ret (lib : CvLib) (det : Detector) (f : Robot.Frame)
    (hadm : ¬ f.timestamp < det.prev_image_timestamp_ + 1 / 10)
    (hlen : 50 ≤ (Robot.floorSamples f).length) :
    (Robot.ProcessDepthAndColorImages lib det f).ret
      = (Robot.projectRects f (Robot.framePlane f 0 0) (Robot.framePlane f 1 0)
          (Robot.framePlane f 2 0) (Robot.frameRects lib f)).map
        (fun floats => ((Robot.frameRects lib f).length : ℚ) :: floats) := by
  rw [robot_process_admitted lib det f hadm]
  have hl : ¬ (Robot.floorSamples f).length < 50 := by omega
  simp only [hl, if_false]
  rfl

/-- A robot frame that reaches the contour search with exactly one contour returns `[0]`. -/
theorem robot_single_contour (lib : CvLib) (det : Detector) (f : Robot.Frame) (c : Contour)
    (hadm : ¬ f.timestamp < det.prev_image_timestamp_ + 1 / 10)
    (hlen : 50 ≤ (Robot.floorSamples f).length)
    (hone : lib.findContours (Robot.componentsImage lib f (Robot.framePlane f 0 0)
      (Robot.framePlane f 1 0) (Robot.framePlane f 2 0)) = [c]) :
    (Robot.ProcessDepthAndColorImages lib det f).ret = some [0] := by
  have hrects : Robot.frameRects lib f = [] := by
    rw [Robot.frameRects, hone]
    rfl
  rw [robot_admitted_ret lib det f hadm hlen, hrects]
  rfl

theorem blockFrameB_admitted :
    ¬ blockFrameB.timestamp < Detector.initial.prev_image_timestamp_ + 1 / 10 := by
  decide!

theorem blockFrameB_samples : (Robot.floorSamples blockFrameB).length = 90 := by
  decide!

/-- Every sample of the block frame is a floor pixel of depth 1. -/
theorem blockFrameB_flat :
    ∀ s ∈ Robot.floorSamples blockFrameB, s.depth = 1 ∧ s.location.z = 1 := by
  decide!

/-- Three samples of the block frame that do not lie on one line. -/
theorem blockFrameB_three :
    (⟨⟨9 / 250, -21 / 500, 1⟩, 1⟩ : Sample) ∈ Robot.floorSamples blockFrameB ∧
    (⟨⟨9 / 250, -19 / 500, 1⟩, 1⟩ : Sample) ∈ Robot.floorSamples blockFrameB ∧
    (⟨⟨19 / 500, -21 / 500, 1⟩, 1⟩ : Sample) ∈ Robot.floorSamples blockFrameB := by
  decide!

theorem blockFrameB_plane :
    Robot.framePlane blockFrameB 0 0 = 0 ∧ Robot.framePlane blockFrameB 1 0 = 0 ∧
      Robot.framePlane blockFrameB 2 0 = 1 :=
  fitPlane_of_model _ 0 0 1
    (fun s hs => by
      rw [(blockFrameB_flat s hs).1, (blockFrameB_flat s hs).2]
      norm_num)
    (normalMatrix_det_ne_zero _ _ _ _ blockFrameB_three.1 blockFrameB_three.2.1
      blockFrameB_three.2.2 (by norm_num))

theorem boxContours_block (m : Mat) (x0 y0 x1 y1 : Int)
    (hy0 : 0 ≤ y0) (hy : y0 ≤ y1) (hy1 : y1 < m.rows)
    (hx0 : 0 ≤ x0) (hx : x0 ≤ x1) (hx1 : x1 < m.cols)
    (hm : ∀ row col, 0 ≤ row → row < m.rows → 0 ≤ col → col < m.cols →
      (m.at row col ≠ 0 ↔ (y0 ≤ row ∧ row ≤ y1) ∧ x0 ≤ col ∧ col ≤ x1)) :
    boxContours m = [rectContour x0 y0 x1 y1] := by
  have hrow : ∀ row, 0 ≤ row → row < m.rows →
      ((intRange 0 m.cols).any (fun col => decide (m.at row col ≠ 0)) = true
        ↔ y0 ≤ row ∧ row ≤ y1) := by
    intro row h0 h1
    rw [List.any_eq_true]
    constructor
    · rintro ⟨col, hcol, hne⟩
      rw [mem_intRange] at hcol
      exact ((hm row col h0 h1 hcol.1 hcol.2).1 (of_decide_eq_true hne)).1
    · intro h
      exact ⟨x0, (mem_intRange _ _ _).2 ⟨hx0, by omega⟩,
        decide_eq_true ((hm row x0 h0 h1 hx0 (by omega)).2 ⟨h, le_refl _, hx⟩)⟩
  have hcol : ∀ col, 0 ≤ col → col < m.cols →
      ((intRange 0 m.rows).any (fun row => decide (m.at row col ≠ 0)) = true
        ↔ x0 ≤ col ∧ col ≤ x1) := by
    intro col h0 h1
    rw [List.any_eq_true]
    constructor
    · rintro ⟨row, hrow, hne⟩
      rw [mem_intRange] at hrow
      exact ((hm row col hrow.1 hrow.2 h0 h1).1 (of_decide_eq_true hne)).2
    · intro h
      exact ⟨y0, (mem_intRange _ _ _).2 ⟨hy0, by omega⟩,
        decide_eq_true ((hm y0 col hy0 (by omega) h0 h1).2 ⟨⟨le_refl _, hy⟩, h⟩)⟩
  have hfalse : ∀ {b : Bool} {p : Prop}, (b = true ↔ p) → ¬ p → b = false := by
    intro b p h hp
    cases b
    · rfl
    · exact absurd (h.1 rfl) hp
  have h1 := find_intRange
    (fun row => (intRange 0 m.cols).any (fun col => decide (m.at row col ≠ 0)))
    y0 m.rows y0.toNat 0 (by omega) (by omega)
    ((hrow y0 hy0 (by omega)).2 ⟨le_refl _, hy⟩)
    (fun i hi0 hi1 => hfalse (hrow i hi0 (by omega)) (by omega))
  have h2 := find_reverse_intRange
    (fun row => (intRange 0 m.cols).any (fun col => decide (m.at row col ≠ 0)))
    0 y1 (m.rows - (y1 + 1)).toNat m.rows (by omega) (by omega)
    ((hrow y1 (by omega) hy1).2 ⟨hy, le_refl _⟩)
    (fun i hi0 hi1 => hfalse (hrow i (by omega) hi1) (by omega))
  have h3 := find_intRange
    (fun col => (intRange 0 m.rows).any (fun row => decide (m.at row col ≠ 0)))
    x0 m.cols x0.toNat 0 (by omega) (by omega)
    ((hcol x0 hx0 (by omega)).2 ⟨le_refl _, hx⟩)
    (fun i hi0 hi1 => hfalse (hcol i hi0 (by omega)) (by omega))
  have h4 := find_reverse_intRange
    (fun col => (intRange 0 m.rows).any (fun row => decide (m.at row col ≠ 0)))
    0 x1 (m.cols - (x1 + 1)).toNat m.cols (by omega) (by omega)
    ((hcol x1 (by omega) hx1).2 ⟨hx, le_refl _⟩)
    (fun i hi0 hi1 => hfalse (hcol i (by omega) hi1) (by omega))
  simp only [boxContours, h1, h2, h3, h4]

theorem robot_depthFiltered_at (f : Robot.Frame) (row col : Int)
    (hr0 : 0 ≤ row) (hr1 : row < f.depth_height) (hc0 : 0 ≤ col) (hc1 : col < f.depth_width) :
    (Robot.depthFiltered f).at row col
      = if row < Robot.edgeHeight f.depth_height
            ∨ f.depth_height - Robot.edgeHeight f.depth_height ≤ row
            ∨ col < Robot.edgeWidth f.depth_width
            ∨ f.depth_width - Robot.edgeWidth f.depth_width ≤ col
        then 0
        else if f.depth_image (row * f.depth_width + col) > 1.5 then 0
        else f.depth_image (row * f.depth_width + col) := by
  have h : (Robot.depthFiltered f).at row col
      = if (Robot.zeroEdges f).data (row * f.depth_width + col) > 1.5 then 0
        else (Robot.zeroEdges f).data (row * f.depth_width + col) := rfl
  rw [h, robot_zeroEdges_data f row col hr0 hr1 hc0 hc1]
  by_cases hedge : row < Robot.edgeHeight f.depth_height
      ∨ f.depth_height - Robot.edgeHeight f.depth_height ≤ row
      ∨ col < Robot.edgeWidth f.depth_width
      ∨ f.depth_width - Robot.edgeWidth f.depth_width ≤ col
  · rw [if_pos hedge, if_neg (by norm_num), if_pos hedge]
  · rw [if_neg hedge, if_neg hedge]

theorem robot_residual_at (lib : CvLib) (f : Robot.Frame) (a b c : ℚ) (i j : Int)
    (hj0 : 0 ≤ j) (hj1 : j < f.depth_width) :
    (Robot.residualMap lib f a b c).at i j
      = if (Robot.depthFiltered f).at i j > 0 then
          (a * (((j : ℚ) - f.depth_cx) * (Robot.depthFiltered f).at i j / f.depth_fx)
            + b * (((i : ℚ) - f.depth_cy) * (Robot.depthFiltered f).at i j / f.depth_fy)
            + c - (Robot.depthFiltered f).at i j) / lib.sqrt (a ^ 2 + b ^ 2 + 1)
        else 0 := by
  have hcols : (Robot.depthFiltered f).cols = f.depth_width := rfl
  have hcols2 : (Robot.residualMap lib f a b c).cols = f.depth_width := rfl
  simp only [Mat.at, hcols, hcols2]
  simp only [Robot.residualMap, diffFiltered, copyToMasked, thresholdBinary, hcols,
    offset_div _ _ _ hj0 hj1, offset_mod _ _ _ hj0 hj1]
  by_cases hd : (Robot.depthFiltered f).data (i * f.depth_width + j) > 0
  · simp only [hd, if_true]
    rw [if_pos (by norm_num)]
    congr 1
    ring
  · simp [hd]

theorem blockFrameB_filtered (row col : Int)
    (hr0 : 0 ≤ row) (hr1 : row < 60) (hc0 : 0 ≤ col) (hc1 : col < 60) :
    (Robot.depthFiltered blockFrameB).at row col
      = if row < 4 ∨ 56 ≤ row ∨ col < 6 ∨ 54 ≤ col then 0
        else if 10 ≤ row ∧ row < 50 ∧ 7 ≤ col ∧ col < 47 then 0.9 else 1 := by
  have hH : Robot.edgeHeight 60 = 4 := by decide!
  have hW : Robot.edgeWidth 60 = 6 := by decide!
  rw [robot_depthFiltered_at blockFrameB row col hr0 hr1 hc0 hc1]
  simp only [blockFrameB, hH, hW, offset_div 60 row col hc0 hc1, offset_mod 60 row col hc0 hc1]
  have e1 : (60 : Int) - 4 = 56 := by norm_num
  have e2 : (60 : Int) - 6 = 54 := by norm_num
  rw [e1, e2]
  by_cases hedge : row < 4 ∨ 56 ≤ row ∨ col < 6 ∨ 54 ≤ col
  · rw [if_pos hedge, if_pos hedge]
  · rw [if_neg hedge, if_neg hedge]
    by_cases hb : 10 ≤ row ∧ row < 50 ∧ 7 ≤ col ∧ col < 47
    · rw [if_pos hb, if_neg (by norm_num)]
    · rw [if_neg hb, if_neg (by norm_num)]

theorem blockFrameB_residual_at (row col : Int)
    (hr0 : 0 ≤ row) (hr1 : row < 60) (hc0 : 0 ≤ col) (hc1 : col < 60) :
    (Robot.residualMap blockLib blockFrameB 0 0 1).at row col
      = if 10 ≤ row ∧ row < 50 ∧ 7 ≤ col ∧ col < 47 then 0.1 else 0 := by
  rw [robot_residual_at blockLib blockFrameB 0 0 1 row col hc0 hc1,
    blockFrameB_filtered row col hr0 hr1 hc0 hc1]
  have hs : blockLib.sqrt (0 ^ 2 + 0 ^ 2 + 1) = 1 := by
    simp [blockLib]
  rw [hs]
  by_cases hb : 10 ≤ row ∧ row < 50 ∧ 7 ≤ col ∧ col < 47
  · have hedge : ¬ (row < 4 ∨ 56 ≤ row ∨ col < 6 ∨ 54 ≤ col) := by omega
    rw [if_neg hedge, if_pos hb, if_pos hb, if_pos (by norm_num)]
    norm_num
  · rw [if_neg hb, if_neg hb]
    by_cases hedge : row < 4 ∨ 56 ≤ row ∨ col < 6 ∨ 54 ≤ col
    · rw [if_pos hedge, if_neg (by norm_num)]
    · rw [if_neg hedge, if_pos (by norm_num)]
      norm_num

theorem blockFrameB_residual :
    ∀ row ∈ intRange 0 60, ∀ col ∈ intRange 0 60,
      (Robot.residualMap blockLib blockFrameB 0 0 1).at row col
        = if 10 ≤ row ∧ row < 50 ∧ 7 ≤ col ∧ col < 47 then 0.1 else 0 := by
  intro row hrow col hcol
  rw [mem_intRange] at hrow hcol
  exact blockFrameB_residual_at row col hrow.1 hrow.2 hcol.1 hcol.2

theorem blockFrameB_contours :
    blockLib.findContours (Robot.componentsImage blockLib blockFrameB 0 0 1)
      = [rectContour 7 10 46 49] := by
  have hrows : (Robot.componentsImage blockLib blockFrameB 0 0 1).rows = 60 := rfl
  have hcols : (Robot.componentsImage blockLib blockFrameB 0 0 1).cols = 60 := rfl
  refine boxContours_block _ 7 10 46 49 (by norm_num) (by norm_num) (by rw [hrows]; norm_num)
    (by norm_num) (by norm_num) (by rw [hcols]; norm_num) ?_
  intro row col hr0 hr1 hc0 hc1
  rw [hrows] at hr1
  rw [hcols] at hc1
  have hres := blockFrameB_residual_at row col hr0 hr1 hc0 hc1
  have hat : (Robot.componentsImage blockLib blockFrameB 0 0 1).at row col
      = if (Robot.residualMap blockLib blockFrameB 0 0 1).at row col > 0.035 then 255
        else 0 := rfl
  rw [hat, hres]
  by_cases hb : 10 ≤ row ∧ row < 50 ∧ 7 ≤ col ∧ col < 47
  · rw [if_pos hb, if_pos (by norm_num)]
    constructor
    · intro _
      omega
    · intro _
      norm_num
  · rw [if_neg hb, if_neg (by norm_num)]
    constructor
    · intro h
      exact absurd rfl h
    · intro h
      exact absurd (by omega) hb

/-- C13 as stated fails.  The 60 x 60 frame is admitted by a fresh detector, its fitted
plane is (0, 0, 1), its residual map is 0 everywhere except on the block of 40 x 40
pixels, where it is 0.1, the contour search finds the outline of the block and nothing
else, its area 1521 is above 150, and the call returns the array `[0]`: no detected
object. -/
theorem C13_single_block_counterexample :
    ¬ blockFrameB.timestamp < Detector.initial.prev_image_timestamp_ + 1 / 10 ∧
    (∀ row ∈ intRange 0 60, ∀ col ∈ intRange 0 60,
      (Robot.residualMap blockLib blockFrameB (Robot.framePlane blockFrameB 0 0)
          (Robot.framePlane blockFrameB 1 0) (Robot.framePlane blockFrameB 2 0)).at row col
        = if 10 ≤ row ∧ row < 50 ∧ 7 ≤ col ∧ col < 47 then 0.1 else 0) ∧
    blockLib.findContours (Robot.componentsImage blockLib blockFrameB
        (Robot.framePlane blockFrameB 0 0) (Robot.framePlane blockFrameB 1 0)
        (Robot.framePlane blockFrameB 2 0)) = [rectContour 7 10 46 49] ∧
    blockLib.contourArea (rectContour 7 10 46 49) = 1521 ∧
    (Robot.ProcessDepthAndColorImages blockLib Detector.initial blockFrameB).ret
      = some [0] := by
  obtain ⟨ha, hb, hc⟩ := blockFrameB_plane
  have hcont : blockLib.findContours (Robot.componentsImage blockLib blockFrameB
      (Robot.framePlane blockFrameB 0 0) (Robot.framePlane blockFrameB 1 0)
      (Robot.framePlane blockFrameB 2 0)) = [rectContour 7 10 46 49] := by
    rw [ha, hb, hc]
    exact blockFrameB_contours
  refine ⟨blockFrameB_admitted, ?_, hcont, by decide!, ?_⟩
  · rw [ha, hb, hc]
    exact blockFrameB_residual
  · exact robot_single_contour blockLib Detector.initial blockFrameB _ blockFrameB_admitted
      (by rw [blockFrameB_samples]; decide) hcont

/-- C13, amended.  An admitted robot frame with at least 50 floor samples for which the
contour search finds exactly one external contour, as for a residual map that is zero
except for one block of 40 x 40 pixels, reports no detected object: the returned array is
`[0]`, because the contour at position 0 is never turned into a rectangle. -/
theorem C13_single_block (lib : CvLib) (det : Detector) (f : Robot.Frame) (c : Contour)
    (hadm : ¬ f.timestamp < det.prev_image_timestamp_ + 1 / 10)
    (hlen : 50 ≤ (Robot.floorSamples f).length)
    (hone : lib.findContours (Robot.componentsImage lib f (Robot.framePlane f 0 0)
      (Robot.framePlane f 1 0) (Robot.framePlane f 2 0)) = [c]) :
    (Robot.ProcessDepthAndColorImages lib det f).ret = some [0] :=
  robot_single_contour lib det f c hadm hlen hone

/-- C13 (amended) at a concrete input: the 60 x 60 frame with one block. -/
theorem C13_single_block_witness :
    (Robot.ProcessDepthAndColorImages blockLib Detector.initial blockFrameB).ret = some [0] :=
  C13_single_block blockLib Detector.initial blockFrameB (rectContour 7 10 46 49)
    blockFrameB_admitted (by rw [blockFrameB_samples]; decide)
    (by rw [blockFrameB_plane.1, blockFrameB_plane.2.1, blockFrameB_plane.2.2]
        exact blockFrameB_contours)

/-! ### Output arrays -/

theorem flatMap_getD_chunk {α : Type} (n : Nat) (g : α → List ℚ) (hg : ∀ a, (g a).length = n)
    (dflt : α) :
    ∀ (l : List α) (j i : Nat), j < l.length → i < n →
      (l.flatMap g).getD (n * j + i) 0 = (g (l.getD j dflt)).getD i 0 := by
  intro l
  induction l with
  | nil => intro j i hj; simp at hj
  | cons a t ih =>
    intro j i hj hi
    rw [List.flatMap_cons]
    cases j with
    | zero =>
      rw [Nat.mul_zero, Nat.zero_add, List.getD_append _ _ _ _ (by rw [hg]; exact hi),
        List.getD_cons_zero]
    | succ j =>
      have hj2 : j < t.length := by simpa using hj
      rw [List.getD_append_right _ _ _ _ (by rw [hg, Nat.mul_succ]; omega), hg,
        show n * (j + 1) + i - n = n * j + i by rw [Nat.mul_succ]; omega, List.getD_cons_succ]
      exact ih j i hj2 hi

theorem flatMap_length_chunk {α : Type} (n : Nat) (g : α → List ℚ)
    (hg : ∀ a, (g a).length = n) (l : List α) : (l.flatMap g).length = n * l.length := by
  induction l with
  | nil => rfl
  | cons a t ih =>
    rw [List.flatMap_cons, List.length_append, hg, ih, List.length_cons, Nat.mul_succ]
    omega

/-- The six floats the output loop of the robot copy writes for one rectangle. -/
theorem robot_projectRects_some (f : Robot.Frame) (a b c : ℚ) (rects : List Rect)
    (h : ∀ r ∈ rects, Robot.denominator f a b (r.x + r.width) r.y ≠ 0 ∧
      Robot.denominator f a b (r.x + r.width) (r.y + r.height) ≠ 0) :
    Robot.projectRects f a b c rects
      = some (rects.flatMap fun r =>
          Robot.cornerFloats f a b c (r.x + r.width) r.y
            ++ Robot.cornerFloats f a b c (r.x + r.width) (r.y + r.height)) := by
  induction rects with
  | nil => rfl
  | cons r t ih =>
    have hr := h r (List.mem_cons_self r t)
    have ht := ih (fun q hq => h q (List.mem_cons_of_mem r hq))
    simp only [Robot.projectRects, hr.1, hr.2, if_false, ht, Option.map_some',
      List.flatMap_cons, List.append_assoc]

theorem robot_projectRects_none (f : Robot.Frame) (a b c : ℚ) (rects : List Rect)
    (h : ∃ r ∈ rects, Robot.denominator f a b (r.x + r.width) r.y = 0 ∨
      Robot.denominator f a b (r.x + r.width) (r.y + r.height) = 0) :
    Robot.projectRects f a b c rects = none := by
  induction rects with
  | nil =>
    obtain ⟨r, hr, _⟩ := h
    cases hr
  | cons q t ih =>
    obtain ⟨r, hr, hz⟩ := h
    simp only [Robot.projectRects]
    by_cases h1 : Robot.denominator f a b (q.x + q.width) q.y = 0
    · rw [if_pos h1]
    · rw [if_neg h1]
      by_cases h2 : Robot.denominator f a b (q.x + q.width) (q.y + q.height) = 0
      · rw [if_pos h2]
      · rw [if_neg h2]
        rcases List.mem_cons.1 hr with rfl | hmem
        · rcases hz with hz | hz
          · exact absurd hz h1
          · exact absurd hz h2
        · rw [ih ⟨r, hmem, hz⟩]
          rfl

/-- C14. Output encoding of the robot copy.  An admitted frame with at least 50 samples
that yields `K` bounding rectangles, none with a zero denominator, returns an array of
`1 + 6 K` floats whose element 0 is `K` and whose six floats for the rectangle at position
`j` are `(X, Y, Z)` of its top-right corner `(x + width, y)` followed by `(X, Y, Z)` of its
bottom-right corner `(x + width, y + height)`, where for a corner `(px, py)`:
`Z = c / (1 - (px - cx) a / fx - (py - cy) b / fy)`, `X = (px - cx) Z / fx` and
`Y = (py - cy) Z / fy`. -/
theorem C14_robot_output_encoding (lib : CvLib) (det : Detector) (f : Robot.Frame)
    (hadm : ¬ f.timestamp < det.prev_image_timestamp_ + 1 / 10)
    (hlen : 50 ≤ (Robot.floorSamples f).length)
    (hden : ∀ r ∈ Robot.frameRects lib f,
      1 - (((r.x + r.width : Int) : ℚ) - f.depth_cx) * Robot.framePlane f 0 0 / f.depth_fx
          - (((r.y : Int) : ℚ) - f.depth_cy) * Robot.framePlane f 1 0 / f.depth_fy ≠ 0 ∧
      1 - (((r.x + r.width : Int) : ℚ) - f.depth_cx) * Robot.framePlane f 0 0 / f.depth_fx
          - (((r.y + r.height : Int) : ℚ) - f.depth_cy) * Robot.framePlane f 1 0 / f.depth_fy
        ≠ 0) :
    ∃ out : List ℚ,
      (Robot.ProcessDepthAndColorImages lib det f).ret = some out ∧
      out.length = 1 + 6 * (Robot.frameRects lib f).length ∧
      out.getD 0 0 = ((Robot.frameRects lib f).length : ℚ) ∧
      ∀ j, j < (Robot.frameRects lib f).length →
        ∀ r, r = (Robot.frameRects lib f).getD j ⟨0, 0, 0, 0⟩ →
        ∀ zt zb : ℚ,
          zt = Robot.framePlane f 2 0 /
            (1 - (((r.x + r.width : Int) : ℚ) - f.depth_cx) * Robot.framePlane f 0 0 / f.depth_fx
              - (((r.y : Int) : ℚ) - f.depth_cy) * Robot.framePlane f 1 0 / f.depth_fy) →
          zb = Robot.framePlane f 2 0 /
            (1 - (((r.x + r.width : Int) : ℚ) - f.depth_cx) * Robot.framePlane f 0 0 / f.depth_fx
              - (((r.y + r.height : Int) : ℚ) - f.depth_cy) * Robot.framePlane f 1 0
                / f.depth_fy) →
          out.getD (6 * j + 1) 0 = (((r.x + r.width : Int) : ℚ) - f.depth_cx) * zt / f.depth_fx ∧
          out.getD (6 * j + 2) 0 = (((r.y : Int) : ℚ) - f.depth_cy) * zt / f.depth_fy ∧
          out.getD (6 * j + 3) 0 = zt ∧
          out.getD (6 * j + 4) 0 = (((r.x + r.width : Int) : ℚ) - f.depth_cx) * zb / f.depth_fx ∧
          out.getD (6 * j + 5) 0
            = (((r.y + r.height : Int) : ℚ) - f.depth_cy) * zb / f.depth_fy ∧
          out.getD (6 * j + 6) 0 = zb := by
  have hsix : ∀ r : Rect,
      (Robot.cornerFloats f (Robot.framePlane f 0 0) (Robot.framePlane f 1 0)
          (Robot.framePlane f 2 0) (r.x + r.width) r.y
        ++ Robot.cornerFloats f (Robot.framePlane f 0 0) (Robot.framePlane f 1 0)
          (Robot.framePlane f 2 0) (r.x + r.width) (r.y + r.height)).length = 6 :=
    fun _ => rfl
  refine ⟨((Robot.frameRects lib f).length : ℚ) :: (Robot.frameRects lib f).flatMap fun r =>
      Robot.cornerFloats f (Robot.framePlane f 0 0) (Robot.framePlane f 1 0)
          (Robot.framePlane f 2 0) (r.x + r.width) r.y
        ++ Robot.cornerFloats f (Robot.framePlane f 0 0) (Robot.framePlane f 1 0)
          (Robot.framePlane f 2 0) (r.x + r.width) (r.y + r.height), ?_, ?_, ?_, ?_⟩
  · rw [robot_admitted_ret lib det f hadm hlen, robot_projectRects_some _ _ _ _ _ hden]
    rfl
  · rw [List.length_cons, flatMap_length_chunk 6 _ hsix]
    omega
  · rfl
  · intro j hj r hr zt zb hzt hzb
    have hget : ∀ i, i < 6 →
        (((Robot.frameRects lib f).length : ℚ) :: (Robot.frameRects lib f).flatMap fun r =>
            Robot.cornerFloats f (Robot.framePlane f 0 0) (Robot.framePlane f 1 0)
                (Robot.framePlane f 2 0) (r.x + r.width) r.y
              ++ Robot.cornerFloats f (Robot.framePlane f 0 0) (Robot.framePlane f 1 0)
                (Robot.framePlane f 2 0) (r.x + r.width) (r.y + r.height)).getD
            (6 * j + i + 1) 0
          = (Robot.cornerFloats f (Robot.framePlane f 0 0) (Robot.framePlane f 1 0)
                (Robot.framePlane f 2 0) (r.x + r.width) r.y
              ++ Robot.cornerFloats f (Robot.framePlane f 0 0) (Robot.framePlane f 1 0)
                (Robot.framePlane f 2 0) (r.x + r.width) (r.y + r.height)).getD i 0 := by
      intro i hi
      rw [List.getD_cons_succ, flatMap_getD_chunk 6 _ hsix ⟨0, 0, 0, 0⟩ _ j i hj hi, ← hr]
    have h0 := hget 0 (by omega)
    have h1 := hget 1 (by omega)
    have h2 := hget 2 (by omega)
    have h3 := hget 3 (by omega)
    have h4 := hget 4 (by omega)
    have h5 := hget 5 (by omega)
    rw [hzt, hzb]
    exact ⟨h0, h1, h2, h3, h4, h5⟩

/-- C15. DegenerateProjection of the robot copy.  If for some rectangle of the frame the
denominator `1 - (px - cx) a / fx - (py - cy) b / fy` of its top-right or of its
bottom-right corner is exactly 0, the call returns no result, whatever the other
rectangles are. -/
theorem C15_degenerate_projection (lib : CvLib) (det : Detector) (f : Robot.Frame) (r : Rect)
    (hr : r ∈ Robot.frameRects lib f)
    (hzero :
      1 - (((r.x + r.width : Int) : ℚ) - f.depth_cx) * Robot.framePlane f 0 0 / f.depth_fx
          - (((r.y : Int) : ℚ) - f.depth_cy) * Robot.framePlane f 1 0 / f.depth_fy = 0 ∨
      1 - (((r.x + r.width : Int) : ℚ) - f.depth_cx) * Robot.framePlane f 0 0 / f.depth_fx
          - (((r.y + r.height : Int) : ℚ) - f.depth_cy) * Robot.framePlane f 1 0 / f.depth_fy
        = 0) :
    (Robot.ProcessDepthAndColorImages lib det f).ret = none := by
  by_cases hadm : f.timestamp < det.prev_image_timestamp_ + 1 / 10
  · rw [robot_process_rejected lib det f hadm]
  · by_cases hlen : (Robot.floorSamples f).length < 50
    · rw [robot_process_admitted lib det f hadm]
      simp [hlen]
    · rw [robot_admitted_ret lib det f hadm (by omega),
        robot_projectRects_none _ _ _ _ _ ⟨r, hr, hzero⟩]
      rfl

theorem tiltFrameB_samples : (Robot.floorSamples tiltFrameB).length = 72 := by
  decide!

theorem tiltFrameB_plane :
    Robot.framePlane tiltFrameB 0 0 = 1 ∧ Robot.framePlane tiltFrameB 1 0 = 0 ∧
      Robot.framePlane tiltFrameB 2 0 = 1 := by
  have h : (∀ s ∈ Robot.floorSamples tiltFrameB,
        s.depth = 1 * s.location.x + 0 * s.location.y + 1 * s.location.z) ∧
      (⟨⟨0, -11 / 10, 1⟩, 1⟩ : Sample) ∈ Robot.floorSamples tiltFrameB ∧
      (⟨⟨0, -1, 1⟩, 1⟩ : Sample) ∈ Robot.floorSamples tiltFrameB ∧
      (⟨⟨1 / 9, -11 / 9, 1⟩, 10 / 9⟩ : Sample) ∈ Robot.floorSamples tiltFrameB := by
    decide!
  exact fitPlane_of_model _ 1 0 1 h.1
    (normalMatrix_det_ne_zero _ _ _ _ h.2.1 h.2.2.1 h.2.2.2 (by norm_num))

/-- C14 at a concrete input: on the tilted-plane frame, with the contours of a 6 x 6 square
and of a rectangle whose bounding rectangle is (10, 5, 20, 10), the call returns seven
floats, the first of them 1. -/
theorem C14_robot_output_encoding_witness :
    ∃ out : List ℚ,
      (Robot.ProcessDepthAndColorImages
        (polygonLib [rectContour 0 0 5 5, rectContour 10 5 29 14]) Detector.initial
        tiltFrameB).ret = some out ∧ out.length = 7 ∧ out.getD 0 0 = 1 := by
  obtain ⟨out, h1, h2, h3, _⟩ := C14_robot_output_encoding
    (polygonLib [rectContour 0 0 5 5, rectContour 10 5 29 14]) Detector.initial tiltFrameB
    (by decide!) (by rw [tiltFrameB_samples]; decide)
    (by rw [tiltFrameB_plane.1, tiltFrameB_plane.2.1]; decide!)
  have hK : (Robot.frameRects (polygonLib [rectContour 0 0 5 5, rectContour 10 5 29 14])
      tiltFrameB).length = 1 := by decide!
  rw [hK] at h2 h3
  exact ⟨out, h1, h2, by rw [h3]; norm_num⟩

/-- C15 at a concrete input: on the tilted-plane frame the rectangle (10, 5, 40, 10) has its
top-right corner at column 50, where the denominator `1 - (50 - 40) / 10` is 0, and the
call returns no result. -/
theorem C15_degenerate_projection_witness :
    (Robot.ProcessDepthAndColorImages
      (polygonLib [rectContour 0 0 5 5, rectContour 10 5 49 14]) Detector.initial
      tiltFrameB).ret = none :=
  C15_degenerate_projection (polygonLib [rectContour 0 0 5 5, rectContour 10 5 49 14])
    Detector.initial tiltFrameB ⟨10, 5, 40, 10⟩ (by decide!)
    (Or.inl (by rw [tiltFrameB_plane.1, tiltFrameB_plane.2.1]; norm_num [tiltFrameB]))

/-- C17. The app copy rejects unsupported resolutions: a call whose `color_to_depth_ratio`
is not 1 returns no result, whatever the buffers hold. -/
theorem C17_unsupported_ratio (lib : CvLib) (det : Detector) (f : App.Frame)
    (h : f.color_to_depth_ratio ≠ 1) :
    (App.ProcessDepthAndColorImages lib det f).ret = none := by
  by_cases hadm : f.timestamp < det.prev_image_timestamp_ + 1 / 1
  · rw [app_process_rejected lib det f hadm]
  · rw [app_process_admitted lib det f hadm]
    simp [h]

/-- C17 at a concrete input: the 100 x 160 frame with ratio 2, admitted by a fresh detector. -/
theorem C17_unsupported_ratio_witness :
    (App.ProcessDepthAndColorImages plainLib Detector.initial
      { flatFrameA with color_to_depth_ratio := 2 }).ret = none :=
  C17_unsupported_ratio plainLib Detector.initial { flatFrameA with color_to_depth_ratio := 2 }
    (by decide)

theorem foldl_min_spec (vs : List ℚ) :
    ∀ v : ℚ, vs.foldl min v ∈ v :: vs ∧ ∀ u ∈ v :: vs, vs.foldl min v ≤ u := by
  induction vs with
  | nil =>
    intro v
    exact ⟨List.mem_cons_self v [], fun u hu => by
      rw [List.mem_singleton] at hu
      rw [hu]
      exact le_refl _⟩
  | cons w t ih =>
    intro v
    obtain ⟨h1, h2⟩ := ih (min v w)
    rw [List.foldl_cons]
    constructor
    · rcases List.mem_cons.1 h1 with h | h
      · rw [h]
        rcases min_choice v w with hm | hm
        · rw [hm]; exact List.mem_cons_self _ _
        · rw [hm]; exact List.mem_cons_of_mem _ (List.mem_cons_self _ _)
      · exact List.mem_cons_of_mem _ (List.mem_cons_of_mem _ h)
    · intro u hu
      rcases List.mem_cons.1 hu with h | h
      · rw [h]
        exact le_trans (h2 _ (List.mem_cons_self _ _)) (min_le_left v w)
      · rcases List.mem_cons.1 h with h | h
        · rw [h]
          exact le_trans (h2 _ (List.mem_cons_self _ _)) (min_le_right v w)
        · exact h2 u (List.mem_cons_of_mem _ h)

/-- The value `min_depth_val` is the least positive entry of the matrix inside the rectangle,
when there is one. -/
theorem app_minDepthVal_spec (m : Mat) (r : Rect) :
    (∀ row col, r.contains row col = true → m.at row col > 0 →
      App.minDepthVal m r ≤ m.at row col) ∧
    ((∃ row col, r.contains row col = true ∧ m.at row col > 0) →
      ∃ row col, r.contains row col = true ∧ m.at row col = App.minDepthVal m r ∧
        App.minDepthVal m r > 0) := by
  have hmem : ∀ v : ℚ,
      v ∈ ((intRange r.y (r.y + r.height)).flatMap fun row =>
          (intRange r.x (r.x + r.width)).map fun col => m.at row col).filter
            (fun v => decide (v > 0))
        ↔ ∃ row col, r.contains row col = true ∧ m.at row col = v ∧ v > 0 := by
    intro v
    simp only [List.mem_filter, List.mem_flatMap, List.mem_map, mem_intRange, Rect.contains,
      decide_eq_true_eq]
    constructor
    · rintro ⟨⟨row, hrow, col, hcol, rfl⟩, hv⟩
      exact ⟨row, col, ⟨hrow.1, hrow.2, hcol.1, hcol.2⟩, rfl, hv⟩
    · rintro ⟨row, col, ⟨h1, h2, h3, h4⟩, rfl, hv⟩
      exact ⟨⟨row, ⟨h1, h2⟩, col, ⟨h3, h4⟩, rfl⟩, hv⟩
  unfold App.minDepthVal
  generalize ((intRange r.y (r.y + r.height)).flatMap fun row =>
      (intRange r.x (r.x + r.width)).map fun col => m.at row col).filter
        (fun v => decide (v > 0)) = vals at hmem
  cases vals with
  | nil =>
    refine ⟨fun row col hc hv => ?_, fun h => ?_⟩
    · exact absurd ((hmem _).2 ⟨row, col, hc, rfl, hv⟩) (List.not_mem_nil _)
    · obtain ⟨row, col, hc, hv⟩ := h
      exact absurd ((hmem _).2 ⟨row, col, hc, rfl, hv⟩) (List.not_mem_nil _)
  | cons v vs =>
    obtain ⟨h1, h2⟩ := foldl_min_spec vs v
    refine ⟨fun row col hc hv => ?_, fun _ => ?_⟩
    · exact h2 _ ((hmem _).2 ⟨row, col, hc, rfl, hv⟩)
    · obtain ⟨row, col, hc, he, hv⟩ := (hmem _).1 h1
      exact ⟨row, col, hc, he, hv⟩

theorem app_depthFiltered_nonneg (f : App.Frame) (h : ∀ k, 0 ≤ f.depth_data k) (row col : Int) :
    0 ≤ (App.depthFiltered f).at row col := by
  simp only [Mat.at, App.depthFiltered, thresholdToZeroInv]
  split_ifs
  · exact le_refl _
  · exact h _

theorem app_admitted_ret (lib : CvLib) (det : Detector) (f : App.Frame)
    (hadm : ¬ f.timestamp < det.prev_image_timestamp_ + 1 / 1)
    (hratio : f.color_to_depth_ratio = 1)
    (hlen : 100 ≤ (App.floorSamples f).length) :
    (App.ProcessDepthAndColorImages lib det f).ret
      = some (((App.frameRects lib f).length : ℚ)
          :: (App.frameRects lib f).flatMap (App.rectFloats f)) := by
  rw [app_enough_samples_result lib det f hadm hratio hlen]
  rfl

/-- C16. Output encoding of the app copy.  An admitted frame of ratio 1 with at least 100
samples and non-negative depths that yields `K` bounding rectangles returns an array of
`1 + 5 K` floats whose element 0 is `K` and whose five floats for the rectangle at position
`j` are `X` and `Y` of its top-left corner `(x, y)`, then `X` and `Y` of its bottom-right
corner `(x + width, y + height)`, each a pixel coordinate minus the image centre
(`image_width / 2`, `image_height / 2`) over the focal length, then the least non-zero
filtered depth among the pixels inside the rectangle. -/
theorem C16_app_output_encoding (lib : CvLib) (det : Detector) (f : App.Frame)
    (hadm : ¬ f.timestamp < det.prev_image_timestamp_ + 1 / 1)
    (hratio : f.color_to_depth_ratio = 1)
    (hlen : 100 ≤ (App.floorSamples f).length)
    (hnonneg : ∀ k, 0 ≤ f.depth_data k) :
    ∃ out : List ℚ,
      (App.ProcessDepthAndColorImages lib det f).ret = some out ∧
      out.length = 1 + 5 * (App.frameRects lib f).length ∧
      out.getD 0 0 = ((App.frameRects lib f).length : ℚ) ∧
      ∀ j, j < (App.frameRects lib f).length →
        ∀ r, r = (App.frameRects lib f).getD j ⟨0, 0, 0, 0⟩ →
          out.getD (5 * j + 1) 0
            = (((r.x : Int) : ℚ) - ((f.image_width / 2 : Int) : ℚ)) / App.fx ∧
          out.getD (5 * j + 2) 0
            = (((r.y : Int) : ℚ) - ((f.image_height / 2 : Int) : ℚ)) / App.fy ∧
          out.getD (5 * j + 3) 0
            = (((r.x + r.width : Int) : ℚ) - ((f.image_width / 2 : Int) : ℚ)) / App.fx ∧
          out.getD (5 * j + 4) 0
            = (((r.y + r.height : Int) : ℚ) - ((f.image_height / 2 : Int) : ℚ)) / App.fy ∧
          (∀ row col, r.contains row col = true → (App.depthFiltered f).at row col ≠ 0 →
            out.getD (5 * j + 5) 0 ≤ (App.depthFiltered f).at row col) ∧
          ((∃ row col, r.contains row col = true ∧ (App.depthFiltered f).at row col ≠ 0) →
            ∃ row col, r.contains row col = true ∧
              (App.depthFiltered f).at row col = out.getD (5 * j + 5) 0 ∧
              out.getD (5 * j + 5) 0 ≠ 0) := by
  have hfive : ∀ r : Rect, (App.rectFloats f r).length = 5 := fun _ => rfl
  have hpos : ∀ row col, (App.depthFiltered f).at row col ≠ 0 →
      (App.depthFiltered f).at row col > 0 := fun row col hne =>
    lt_of_le_of_ne (app_depthFiltered_nonneg f hnonneg row col) (Ne.symm hne)
  refine ⟨((App.frameRects lib f).length : ℚ)
      :: (App.frameRects lib f).flatMap (App.rectFloats f), ?_, ?_, ?_, ?_⟩
  · exact app_admitted_ret lib det f hadm hratio hlen
  · rw [List.length_cons, flatMap_length_chunk 5 _ hfive]
    omega
  · rfl
  · intro j hj r hr
    have hget : ∀ i, i < 5 →
        (((App.frameRects lib f).length : ℚ)
            :: (App.frameRects lib f).flatMap (App.rectFloats f)).getD (5 * j + i + 1) 0
          = (App.rectFloats f r).getD i 0 := by
      intro i hi
      rw [List.getD_cons_succ, flatMap_getD_chunk 5 _ hfive ⟨0, 0, 0, 0⟩ _ j i hj hi, ← hr]
    have h4 : (((App.frameRects lib f).length : ℚ)
            :: (App.frameRects lib f).flatMap (App.rectFloats f)).getD (5 * j + 5) 0
          = App.minDepthVal (App.depthFiltered f) r := hget 4 (by omega)
    obtain ⟨hmin1, hmin2⟩ := app_minDepthVal_spec (App.depthFiltered f) r
    refine ⟨hget 0 (by omega), hget 1 (by omega), hget 2 (by omega), hget 3 (by omega), ?_, ?_⟩
    · intro row col hc hne
      rw [h4]
      exact hmin1 row col hc (hpos row col hne)
    · rintro ⟨row, col, hc, hne⟩
      rw [h4]
      obtain ⟨row2, col2, hc2, he, hv⟩ := hmin2 ⟨row, col, hc, hpos row col hne⟩
      exact ⟨row2, col2, hc2, he, ne_of_gt hv⟩

theorem flatFrameA_nonneg : ∀ k, 0 ≤ flatFrameA.depth_data k := by
  intro k
  simp only [flatFrameA]
  split_ifs <;> norm_num

/-- C16 at a concrete input: on the 100 x 160 frame with 15 floor rows, with the contours of a
6 x 6 square and of a rectangle whose bounding rectangle is (10, 0, 51, 31), the call
returns six floats, the first of them 1. -/
theorem C16_app_output_encoding_witness :
    ∃ out : List ℚ,
      (App.ProcessDepthAndColorImages
        (polygonLib [rectContour 0 0 5 5, rectContour 10 0 60 30]) Detector.initial
        flatFrameA).ret = some out ∧ out.length = 6 ∧ out.getD 0 0 = 1 := by
  obtain ⟨out, h1, h2, h3, _⟩ := C16_app_output_encoding
    (polygonLib [rectContour 0 0 5 5, rectContour 10 0 60 30]) Detector.initial flatFrameA
    (by decide!) (by decide) flatFrameA_samples flatFrameA_nonneg
  have hK : (App.frameRects (polygonLib [rectContour 0 0 5 5, rectContour 10 0 60 30])
      flatFrameA).length = 1 := by decide!
  rw [hK] at h2 h3
  exact ⟨out, h1, h2, by rw [h3]; norm_num⟩

/-! ### Costmap inflation -/

theorem mem_regionCells (x_start y_start x_end y_end : Int) (c : Int × Int) :
    c ∈ CostMapInflation.regionCells x_start y_start x_end y_end
      ↔ (x_start ≤ c.1 ∧ c.1 < x_end) ∧ (y_start ≤ c.2 ∧ c.2 < y_end) := by
  simp only [CostMapInflation.regionCells, List.mem_flatMap, List.mem_map, mem_intRange]
  constructor
  · rintro ⟨x, hx, y, hy, rfl⟩
    exact ⟨hx, hy⟩
  · rintro ⟨hx, hy⟩
    exact ⟨c.1, hx, c.2, hy, rfl⟩

/-- Inside the limits the offset determines the cell. -/
theorem cellOffset_injective (lim : CostMapInflation.Limits) (x y x2 y2 : Int)
    (hx : lim.costmap_x_lower_limit ≤ x ∧ x < lim.costmap_x_upper_limit)
    (hx2 : lim.costmap_x_lower_limit ≤ x2 ∧ x2 < lim.costmap_x_upper_limit)
    (h : CostMapInflation.cellOffset lim x y = CostMapInflation.cellOffset lim x2 y2) :
    x = x2 ∧ y = y2 := by
  have e1 : CostMapInflation.cellOffset lim x y
      = (y - lim.costmap_y_lower_limit)
          * (lim.costmap_x_upper_limit - lim.costmap_x_lower_limit)
        + (x - lim.costmap_x_lower_limit) := by
    unfold CostMapInflation.cellOffset; ring
  have e2 : CostMapInflation.cellOffset lim x2 y2
      = (y2 - lim.costmap_y_lower_limit)
          * (lim.costmap_x_upper_limit - lim.costmap_x_lower_limit)
        + (x2 - lim.costmap_x_lower_limit) := by
    unfold CostMapInflation.cellOffset; ring
  rw [e1, e2] at h
  have hd := congrArg (fun k => k / (lim.costmap_x_upper_limit - lim.costmap_x_lower_limit)) h
  have hm := congrArg (fun k => k % (lim.costmap_x_upper_limit - lim.costmap_x_lower_limit)) h
  simp only at hd hm
  rw [offset_div _ _ _ (by omega) (by omega), offset_div _ _ _ (by omega) (by omega)] at hd
  rw [offset_mod _ _ _ (by omega) (by omega), offset_mod _ _ _ (by omega) (by omega)] at hm
  omega

/-- The value the loop over the cells leaves at offset `k`, when every cell that writes
there writes `a`. -/
theorem inflateCells_value (lim : CostMapInflation.Limits) (r : Int)
    (grid : CostMapInflation.Grid) (k a : Int) :
    ∀ (cells : List (Int × Int)) (copy : CostMapInflation.Grid),
      (∀ c ∈ cells, CostMapInflation.cellOffset lim c.1 c.2 = k →
        CostMapInflation.get_cost lim c.1 c.2 grid ≠ CostMapInflation.MAX_COST →
        CostMapInflation.compute_inflated_costmap
          (CostMapInflation.higherCost lim r grid c.1 c.2) = a) →
      (copy k = a ∨ ∃ c ∈ cells, CostMapInflation.cellOffset lim c.1 c.2 = k ∧
        CostMapInflation.get_cost lim c.1 c.2 grid ≠ CostMapInflation.MAX_COST) →
      (cells.foldl (CostMapInflation.inflateCell lim r grid) copy) k = a := by
  intro cells
  induction cells with
  | nil =>
    intro copy _ h
    rcases h with h | ⟨c, hc, _⟩
    · exact h
    · cases hc
  | cons c rest ih =>
    intro copy hall h
    rw [List.foldl_cons]
    apply ih _ (fun d hd => hall d (List.mem_cons_of_mem c hd))
    unfold CostMapInflation.inflateCell
    by_cases hskip : CostMapInflation.get_cost lim c.1 c.2 grid = CostMapInflation.MAX_COST
    · rw [if_pos hskip]
      rcases h with h | ⟨d, hd, hk, hns⟩
      · exact Or.inl h
      · rcases List.mem_cons.1 hd with rfl | hd
        · exact absurd hskip hns
        · exact Or.inr ⟨d, hd, hk, hns⟩
    · rw [if_neg hskip]
      by_cases hk : CostMapInflation.cellOffset lim c.1 c.2 = k
      · left
        rw [hk, Function.update_same]
        exact hall c (List.mem_cons_self c rest) hk hskip
      · rw [Function.update_noteq (Ne.symm hk)]
        rcases h with h | ⟨d, hd, hdk, hns⟩
        · exact Or.inl h
        · rcases List.mem_cons.1 hd with rfl | hd
          · exact absurd hdk hk
          · exact Or.inr ⟨d, hd, hdk, hns⟩

/-- The returned grid, cell by cell, for a positive inscribed radius. -/
theorem inflate_cell (grid : CostMapInflation.Grid) (length : Int) (radius resolution : ℚ)
    (lim : CostMapInflation.Limits) (x y : Int)
    (hr : 1 ≤ ⌈radius / resolution⌉)
    (hx : lim.costmap_x_lower_limit ≤ x ∧ x < lim.costmap_x_upper_limit)
    (hy : lim.costmap_y_lower_limit ≤ y ∧ y < lim.costmap_y_upper_limit)
    (hoff : 0 ≤ CostMapInflation.cellOffset lim x y ∧
      CostMapInflation.cellOffset lim x y < length) :
    (CostMapInflation.inflate grid length radius resolution lim).ret
        (CostMapInflation.cellOffset lim x y)
      = if CostMapInflation.get_cost lim x y grid = CostMapInflation.MAX_COST then
          grid (CostMapInflation.cellOffset lim x y)
        else CostMapInflation.compute_inflated_costmap
          (CostMapInflation.higherCost lim ⌈radius / resolution⌉ grid x y) := by
  have hnot : ¬ ⌈radius / resolution⌉ ≤ 0 := by omega
  simp only [CostMapInflation.inflate, hnot, if_false]
  have hsame : ∀ c ∈ CostMapInflation.regionCells lim.costmap_x_lower_limit
      lim.costmap_y_lower_limit lim.costmap_x_upper_limit lim.costmap_y_upper_limit,
      CostMapInflation.cellOffset lim c.1 c.2 = CostMapInflation.cellOffset lim x y →
      c = (x, y) := by
    intro c hc he
    have hcx := ((mem_regionCells _ _ _ _ c).1 hc).1
    have := cellOffset_injective lim c.1 c.2 x y hcx hx he
    exact Prod.ext this.1 this.2
  by_cases hobs : CostMapInflation.get_cost lim x y grid = CostMapInflation.MAX_COST
  · rw [if_pos hobs]
    apply inflateCells_value
    · intro c hc he hns
      rw [hsame c hc he] at hns
      exact absurd hobs hns
    · left
      simp only [hoff.1, hoff.2, and_self, if_true]
  · rw [if_neg hobs]
    apply inflateCells_value
    · intro c hc he _
      rw [hsame c hc he]
    · right
      exact ⟨(x, y), (mem_regionCells _ _ _ _ _).2 ⟨hx, hy⟩, rfl, hobs⟩

/-- With costs of at most 127, the scan of a region returns 127 once a cell of cost 127
is among the cells still to visit. -/
theorem highestFrom_obstacle (lim : CostMapInflation.Limits) (grid : CostMapInflation.Grid)
    (hmax : ∀ i, grid i ≤ 127) :
    ∀ (cells : List (Int × Int)) (cost : Int), cost ≤ 127 →
      (∃ c ∈ cells, CostMapInflation.get_cost lim c.1 c.2 grid = 127) →
      CostMapInflation.highestFrom lim grid cells cost = 127 := by
  intro cells
  induction cells with
  | nil =>
    intro cost _ h
    obtain ⟨c, hc, _⟩ := h
    cases hc
  | cons c rest ih =>
    intro cost hcost h
    unfold CostMapInflation.highestFrom
    have hle : CostMapInflation.get_cost lim c.1 c.2 grid ≤ 127 := hmax _
    by_cases hm : max cost (CostMapInflation.get_cost lim c.1 c.2 grid)
        = CostMapInflation.MAX_COST
    · rw [if_pos hm, hm]
      rfl
    · rw [if_neg hm]
      apply ih _ (max_le hcost hle)
      obtain ⟨d, hd, hv⟩ := h
      rcases List.mem_cons.1 hd with rfl | hd
      · exfalso
        apply hm
        rw [hv]
        exact max_eq_right hcost
      · exact ⟨d, hd, hv⟩

/-- A cell whose clipped neighbour region holds an obstacle has `higher_cost` 127. -/
theorem higherCost_obstacle (lim : CostMapInflation.Limits) (r : Int)
    (grid : CostMapInflation.Grid) (hmax : ∀ i, grid i ≤ 127) (x y ox oy : Int)
    (hox : lim.costmap_x_lower_limit ≤ ox ∧ ox < lim.costmap_x_upper_limit)
    (hoy : lim.costmap_y_lower_limit ≤ oy ∧ oy < lim.costmap_y_upper_limit)
    (hnx : x - r ≤ ox ∧ ox < x + r) (hny : y - r ≤ oy ∧ oy < y + r)
    (hobs : CostMapInflation.get_cost lim ox oy grid = 127) :
    CostMapInflation.higherCost lim r grid x y = 127 := by
  unfold CostMapInflation.higherCost CostMapInflation.get_highest_cost_in_region
  simp only
  have hmem : (ox, oy) ∈ CostMapInflation.regionCells
      (if x - r < lim.costmap_x_lower_limit then lim.costmap_x_lower_limit else x - r)
      (if y - r < lim.costmap_y_lower_limit then lim.costmap_y_lower_limit else y - r)
      (if x + r > lim.costmap_x_upper_limit then lim.costmap_x_upper_limit else x + r)
      (if y + r > lim.costmap_y_upper_limit then lim.costmap_y_upper_limit else y + r) := by
    rw [mem_regionCells]
    refine ⟨⟨?_, ?_⟩, ⟨?_, ?_⟩⟩ <;> split_ifs <;> simp only <;> omega
  have hx : ¬ (if x - r < lim.costmap_x_lower_limit then lim.costmap_x_lower_limit else x - r)
      = (if x + r > lim.costmap_x_upper_limit then lim.costmap_x_upper_limit else x + r) := by
    split_ifs <;> omega
  have hy : ¬ (if y - r < lim.costmap_y_lower_limit then lim.costmap_y_lower_limit else y - r)
      = (if y + r > lim.costmap_y_upper_limit then lim.costmap_y_upper_limit else y + r) := by
    split_ifs <;> omega
  rw [if_neg hx, if_neg hy]
  exact highestFrom_obstacle lim grid hmax _ _ (by decide) ⟨(ox, oy), hmem, hobs⟩

/-- C19 fails on the code at this input: in the row `[0, 0, 127]` with inscribed radius 1 the
cell (1, 0) is next to the obstacle at (2, 0) and is returned with cost 0, below 120;
in the mirrored row `[127, 0, 0]` the same cell is returned with cost 127. -/
theorem C19_inflation_reach_failing_input :
    ⌈(1 : ℚ) / 1⌉ = 1 ∧
    CostMapInflation.get_cost rowOfThree 2 0 (gridOfList [0, 0, 127]) = 127 ∧
    (CostMapInflation.inflate (gridOfList [0, 0, 127]) 3 1 1 rowOfThree).ret
      (CostMapInflation.cellOffset rowOfThree 1 0) = 0 ∧
    (CostMapInflation.inflate (gridOfList [127, 0, 0]) 3 1 1 rowOfThree).ret
      (CostMapInflation.cellOffset rowOfThree 1 0) = 127 := by
  decide!

/-- C20 as stated fails: in the row `[127, 0, 0]` with inscribed radius 1 the non-obstacle
cell (1, 0), next to the obstacle at (0, 0), is returned with cost 127, the obstacle's own
cost and not a lower one. -/
theorem C20_inflation_decay_counterexample :
    ⌈(1 : ℚ) / 1⌉ = 1 ∧
    CostMapInflation.get_cost rowOfThree 0 0 (gridOfList [127, 0, 0]) = 127 ∧
    CostMapInflation.get_cost rowOfThree 1 0 (gridOfList [127, 0, 0]) = 0 ∧
    (CostMapInflation.inflate (gridOfList [127, 0, 0]) 3 1 1 rowOfThree).ret
      (CostMapInflation.cellOffset rowOfThree 1 0) = 127 := by
  decide!

/-- C20, amended.  Inflation propagates the obstacle's cost without decay.  For a grid of
`int8_t` costs, an inscribed radius `r >= 1` and a non-obstacle cell `(x, y)` inside the
limits whose scanned neighbour region (`x - r <= x' < x + r`, `y - r <= y' < y + r`, clipped
to the limits) holds an obstacle, the returned cost of `(x, y)` is 127, the obstacle's
own cost; so it is the same at every distance from the obstacle inside that region and
does not increase with the distance. -/
theorem C20_inflation_decay (grid : CostMapInflation.Grid) (length : Int)
    (radius resolution : ℚ) (lim : CostMapInflation.Limits) (x y ox oy : Int)
    (hint8 : ∀ i, -128 ≤ grid i ∧ grid i ≤ 127)
    (hr : 1 ≤ ⌈radius / resolution⌉)
    (hx : lim.costmap_x_lower_limit ≤ x ∧ x < lim.costmap_x_upper_limit)
    (hy : lim.costmap_y_lower_limit ≤ y ∧ y < lim.costmap_y_upper_limit)
    (hoff : 0 ≤ CostMapInflation.cellOffset lim x y ∧
      CostMapInflation.cellOffset lim x y < length)
    (hcell : CostMapInflation.get_cost lim x y grid ≠ 127)
    (hox : lim.costmap_x_lower_limit ≤ ox ∧ ox < lim.costmap_x_upper_limit)
    (hoy : lim.costmap_y_lower_limit ≤ oy ∧ oy < lim.costmap_y_upper_limit)
    (hobs : CostMapInflation.get_cost lim ox oy grid = 127)
    (hnx : x - ⌈radius / resolution⌉ ≤ ox ∧ ox < x + ⌈radius / resolution⌉)
    (hny : y - ⌈radius / resolution⌉ ≤ oy ∧ oy < y + ⌈radius / resolution⌉) :
    (CostMapInflation.inflate grid length radius resolution lim).ret
      (CostMapInflation.cellOffset lim x y) = 127 := by
  have hcell2 : ¬ CostMapInflation.get_cost lim x y grid = CostMapInflation.MAX_COST := hcell
  rw [inflate_cell grid length radius resolution lim x y hr hx hy hoff, if_neg hcell2,
    higherCost_obstacle lim _ grid (fun i => (hint8 i).2) x y ox oy hox hoy hnx hny hobs]
  rfl

theorem gridOfList_int8 : ∀ i, -128 ≤ gridOfList [127, 0, 0] i ∧ gridOfList [127, 0, 0] i ≤ 127 := by
  intro i
  unfold gridOfList
  split_ifs with h
  · rcases Nat.lt_or_ge i.toNat 3 with h3 | h3
    · interval_cases hi : i.toNat <;> simp [List.getD]
    · rw [List.getD_eq_default _ _ (by simpa using h3)]
      omega
  · omega

/-- C20 (amended) at a concrete input: the row `[127, 0, 0]` with radius 1. -/
theorem C20_inflation_decay_witness :
    (CostMapInflation.inflate (gridOfList [127, 0, 0]) 3 1 1 rowOfThree).ret
      (CostMapInflation.cellOffset rowOfThree 1 0) = 127 :=
  C20_inflation_decay (gridOfList [127, 0, 0]) 3 1 1 rowOfThree 1 0 0 0 gridOfList_int8
    (by decide!) (by decide) (by decide) (by decide) (by decide) (by decide) (by decide)
    (by decide) (by decide!) (by decide!)

/-! ### The caller's grid -/

/-- C21 fails on the code at this input: for the row `[127, 0, 0]` with inscribed radius 1
the returned grid holds 127 at cell (1, 0) while the grid that was passed in still holds 0
there.  The function never writes to the grid it is given: after every call the caller's
array is what it was before the call. -/
theorem C21_inflate_mutation_failing_input :
    ⌈(1 : ℚ) / 1⌉ = 1 ∧
    (CostMapInflation.inflate (gridOfList [127, 0, 0]) 3 1 1 rowOfThree).ret
      (CostMapInflation.cellOffset rowOfThree 1 0) = 127 ∧
    (CostMapInflation.inflate (gridOfList [127, 0, 0]) 3 1 1 rowOfThree).grid
      (CostMapInflation.cellOffset rowOfThree 1 0) = 0 ∧
    (∀ (grid : CostMapInflation.Grid) (length : Int) (radius resolution : ℚ)
        (lim : CostMapInflation.Limits),
      (CostMapInflation.inflate grid length radius resolution lim).grid = grid) := by
  refine ⟨by decide!, by decide!, by decide!, ?_⟩
  intro grid length radius resolution lim
  unfold CostMapInflation.inflate
  simp only
  split_ifs <;> rfl

/-! ### The inflation rule -/

/-- The scan of a region, for costs between 0 and 127: the result is at least the running
cost and the cost of every cell still to visit, and it is one of them. -/
theorem highestFrom_spec (lim : CostMapInflation.Limits) (grid : CostMapInflation.Grid)
    (hmax : ∀ i, grid i ≤ 127) :
    ∀ (cells : List (Int × Int)) (cost : Int), cost ≤ 127 →
      cost ≤ CostMapInflation.highestFrom lim grid cells cost ∧
      (∀ c ∈ cells, CostMapInflation.get_cost lim c.1 c.2 grid
        ≤ CostMapInflation.highestFrom lim grid cells cost) ∧
      (CostMapInflation.highestFrom lim grid cells cost = cost ∨
        ∃ c ∈ cells, CostMapInflation.get_cost lim c.1 c.2 grid
          = CostMapInflation.highestFrom lim grid cells cost) := by
  intro cells
  induction cells with
  | nil =>
    intro cost _
    exact ⟨le_refl _, fun c hc => absurd hc (List.not_mem_nil c), Or.inl rfl⟩
  | cons c rest ih =>
    intro cost hcost
    have hle : CostMapInflation.get_cost lim c.1 c.2 grid ≤ 127 := hmax _
    unfold CostMapInflation.highestFrom
    by_cases hm : max cost (CostMapInflation.get_cost lim c.1 c.2 grid)
        = CostMapInflation.MAX_COST
    · rw [if_pos hm]
      have h127 : max cost (CostMapInflation.get_cost lim c.1 c.2 grid) = 127 := hm
      refine ⟨le_max_left _ _, fun d hd => ?_, ?_⟩
      · rw [h127]
        exact hmax _
      · rcases max_choice cost (CostMapInflation.get_cost lim c.1 c.2 grid) with h | h
        · exact Or.inl h
        · exact Or.inr ⟨c, List.mem_cons_self _ _, h.symm⟩
    · rw [if_neg hm]
      obtain ⟨h1, h2, h3⟩ := ih (max cost (CostMapInflation.get_cost lim c.1 c.2 grid))
        (max_le hcost hle)
      refine ⟨le_trans (le_max_left _ _) h1, fun d hd => ?_, ?_⟩
      · rcases List.mem_cons.1 hd with rfl | hd
        · exact le_trans (le_max_right _ _) h1
        · exact h2 d hd
      · rcases h3 with h3 | ⟨d, hd, hv⟩
        · rcases max_choice cost (CostMapInflation.get_cost lim c.1 c.2 grid) with h | h
          · exact Or.inl (h3.trans h)
          · exact Or.inr ⟨c, List.mem_cons_self _ _, (h3.trans h).symm⟩
        · exact Or.inr ⟨d, List.mem_cons_of_mem _ hd, hv⟩

/-- The value `higher_cost` of a cell inside the limits, for costs between 0 and 127 and a
positive inscribed radius: the highest cost over the clipped neighbour region. -/
theorem higherCost_spec (lim : CostMapInflation.Limits) (r : Int)
    (grid : CostMapInflation.Grid) (hcost : ∀ i, 0 ≤ grid i ∧ grid i ≤ 127) (x y : Int)
    (hr : 1 ≤ r)
    (hx : lim.costmap_x_lower_limit ≤ x ∧ x < lim.costmap_x_upper_limit)
    (hy : lim.costmap_y_lower_limit ≤ y ∧ y < lim.costmap_y_upper_limit) :
    (∃ x2 y2 : Int,
      (max (x - r) lim.costmap_x_lower_limit ≤ x2 ∧ x2 < min (x + r) lim.costmap_x_upper_limit) ∧
      (max (y - r) lim.costmap_y_lower_limit ≤ y2 ∧ y2 < min (y + r) lim.costmap_y_upper_limit) ∧
      CostMapInflation.get_cost lim x2 y2 grid = CostMapInflation.higherCost lim r grid x y) ∧
    (∀ x2 y2 : Int,
      max (x - r) lim.costmap_x_lower_limit ≤ x2 ∧ x2 < min (x + r) lim.costmap_x_upper_limit →
      max (y - r) lim.costmap_y_lower_limit ≤ y2 ∧ y2 < min (y + r) lim.costmap_y_upper_limit →
      CostMapInflation.get_cost lim x2 y2 grid ≤ CostMapInflation.higherCost lim r grid x y) := by
  have hx0 : (if x - r < lim.costmap_x_lower_limit then lim.costmap_x_lower_limit else x - r)
      = max (x - r) lim.costmap_x_lower_limit := by
    split_ifs with h
    · exact (max_eq_right (le_of_lt h)).symm
    · exact (max_eq_left (not_lt.1 h)).symm
  have hy0 : (if y - r < lim.costmap_y_lower_limit then lim.costmap_y_lower_limit else y - r)
      = max (y - r) lim.costmap_y_lower_limit := by
    split_ifs with h
    · exact (max_eq_right (le_of_lt h)).symm
    · exact (max_eq_left (not_lt.1 h)).symm
  have hx1 : (if x + r > lim.costmap_x_upper_limit then lim.costmap_x_upper_limit else x + r)
      = min (x + r) lim.costmap_x_upper_limit := by
    split_ifs with h
    · exact (min_eq_right (le_of_lt h)).symm
    · exact (min_eq_left (not_lt.1 h)).symm
  have hy1 : (if y + r > lim.costmap_y_upper_limit then lim.costmap_y_upper_limit else y + r)
      = min (y + r) lim.costmap_y_upper_limit := by
    split_ifs with h
    · exact (min_eq_right (le_of_lt h)).symm
    · exact (min_eq_left (not_lt.1 h)).symm
  have hxne : ¬ max (x - r) lim.costmap_x_lower_limit = min (x + r) lim.costmap_x_upper_limit := by
    have h1 : max (x - r) lim.costmap_x_lower_limit ≤ x := max_le (by omega) hx.1
    have h2 : x < min (x + r) lim.costmap_x_upper_limit := lt_min (by omega) hx.2
    omega
  have hyne : ¬ max (y - r) lim.costmap_y_lower_limit = min (y + r) lim.costmap_y_upper_limit := by
    have h1 : max (y - r) lim.costmap_y_lower_limit ≤ y := max_le (by omega) hy.1
    have h2 : y < min (y + r) lim.costmap_y_upper_limit := lt_min (by omega) hy.2
    omega
  have hval : CostMapInflation.higherCost lim r grid x y
      = CostMapInflation.highestFrom lim grid
          (CostMapInflation.regionCells (max (x - r) lim.costmap_x_lower_limit)
            (max (y - r) lim.costmap_y_lower_limit) (min (x + r) lim.costmap_x_upper_limit)
            (min (y + r) lim.costmap_y_upper_limit)) 0 := by
    unfold CostMapInflation.higherCost CostMapInflation.get_highest_cost_in_region
    simp only [hx0, hy0, hx1, hy1, if_neg hxne, if_neg hyne]
    rfl
  obtain ⟨h1, h2, h3⟩ := highestFrom_spec lim grid (fun i => (hcost i).2)
    (CostMapInflation.regionCells (max (x - r) lim.costmap_x_lower_limit)
      (max (y - r) lim.costmap_y_lower_limit) (min (x + r) lim.costmap_x_upper_limit)
      (min (y + r) lim.costmap_y_upper_limit)) 0 (by norm_num)
  rw [← hval] at h1 h2 h3
  have hself : (x, y) ∈ CostMapInflation.regionCells (max (x - r) lim.costmap_x_lower_limit)
      (max (y - r) lim.costmap_y_lower_limit) (min (x + r) lim.costmap_x_upper_limit)
      (min (y + r) lim.costmap_y_upper_limit) := by
    rw [mem_regionCells]
    exact ⟨⟨max_le (by omega) hx.1, lt_min (by omega) hx.2⟩,
      ⟨max_le (by omega) hy.1, lt_min (by omega) hy.2⟩⟩
  constructor
  · rcases h3 with h3 | ⟨c, hc, hv⟩
    · have hle := h2 (x, y) hself
      have hge := (hcost (CostMapInflation.cellOffset lim x y)).1
      have hxy : CostMapInflation.get_cost lim x y grid
          = CostMapInflation.higherCost lim r grid x y := by
        have e : CostMapInflation.get_cost lim x y grid
            = grid (CostMapInflation.cellOffset lim x y) := rfl
        rw [e] at hle ⊢
        omega
      exact ⟨x, y, ((mem_regionCells _ _ _ _ _).1 hself).1,
        ((mem_regionCells _ _ _ _ _).1 hself).2, hxy⟩
    · exact ⟨c.1, c.2, ((mem_regionCells _ _ _ _ _).1 hc).1,
        ((mem_regionCells _ _ _ _ _).1 hc).2, hv⟩
  · intro x2 y2 hx2 hy2
    exact h2 (x2, y2) ((mem_regionCells _ _ _ _ _).2 ⟨hx2, hy2⟩)

/-- The grid of a list of costs between 0 and 127 holds costs between 0 and 127. -/
theorem gridOfList_costs (costs : List Int) (h : ∀ c ∈ costs, 0 ≤ c ∧ c ≤ 127) :
    ∀ i, 0 ≤ gridOfList costs i ∧ gridOfList costs i ≤ 127 := by
  intro i
  unfold gridOfList
  split_ifs with hi
  · rcases Nat.lt_or_ge i.toNat costs.length with hl | hl
    · rw [List.getD_eq_getElem _ _ hl]
      exact h _ (List.getElem_mem hl)
    · rw [List.getD_eq_default _ _ hl]
      omega
  · omega

/-- C25. Costmap inflation rule.  For a grid whose costs lie in 0..127 and that holds the
whole cost map, an inscribed radius `r = ceil (radius / resolution) >= 1` and a cell
`(x, y)` inside the limits: an obstacle (input cost 127) is returned unchanged; any other
cell is returned with cost `f m`, where `m` is the highest input cost over the cells
`(x2, y2)` with `max (x - r) x_min <= x2 < min (x + r) x_max` and
`max (y - r) y_min <= y2 < min (y + r) y_max`, and `f 127 = 127`, `f m = 120` for
`120 <= m < 127`, `f m = m` for `m < 120`. -/
theorem C25_inflation_rule (grid : CostMapInflation.Grid) (length : Int)
    (radius resolution : ℚ) (lim : CostMapInflation.Limits) (x y : Int)
    (hcost : ∀ i, 0 ≤ grid i ∧ grid i ≤ 127)
    (hr : 1 ≤ ⌈radius / resolution⌉)
    (hx : lim.costmap_x_lower_limit ≤ x ∧ x < lim.costmap_x_upper_limit)
    (hy : lim.costmap_y_lower_limit ≤ y ∧ y < lim.costmap_y_upper_limit)
    (hlen : (lim.costmap_y_upper_limit - lim.costmap_y_lower_limit)
      * (lim.costmap_x_upper_limit - lim.costmap_x_lower_limit) ≤ length) :
    (CostMapInflation.get_cost lim x y grid = 127 →
      (CostMapInflation.inflate grid length radius resolution lim).ret
        (CostMapInflation.cellOffset lim x y) = 127) ∧
    (CostMapInflation.get_cost lim x y grid ≠ 127 →
      ∃ m : Int,
        (∃ x2 y2 : Int,
          (max (x - ⌈radius / resolution⌉) lim.costmap_x_lower_limit ≤ x2 ∧
            x2 < min (x + ⌈radius / resolution⌉) lim.costmap_x_upper_limit) ∧
          (max (y - ⌈radius / resolution⌉) lim.costmap_y_lower_limit ≤ y2 ∧
            y2 < min (y + ⌈radius / resolution⌉) lim.costmap_y_upper_limit) ∧
          CostMapInflation.get_cost lim x2 y2 grid = m) ∧
        (∀ x2 y2 : Int,
          max (x - ⌈radius / resolution⌉) lim.costmap_x_lower_limit ≤ x2 ∧
            x2 < min (x + ⌈radius / resolution⌉) lim.costmap_x_upper_limit →
          max (y - ⌈radius / resolution⌉) lim.costmap_y_lower_limit ≤ y2 ∧
            y2 < min (y + ⌈radius / resolution⌉) lim.costmap_y_upper_limit →
          CostMapInflation.get_cost lim x2 y2 grid ≤ m) ∧
        (m = 127 →
          (CostMapInflation.inflate grid length radius resolution lim).ret
            (CostMapInflation.cellOffset lim x y) = 127) ∧
        (120 ≤ m ∧ m < 127 →
          (CostMapInflation.inflate grid length radius resolution lim).ret
            (CostMapInflation.cellOffset lim x y) = 120) ∧
        (m < 120 →
          (CostMapInflation.inflate grid length radius resolution lim).ret
            (CostMapInflation.cellOffset lim x y) = m)) := by
  have hoff : 0 ≤ CostMapInflation.cellOffset lim x y ∧
      CostMapInflation.cellOffset lim x y < length := by
    have hb := offset_inBounds (lim.costmap_x_upper_limit - lim.costmap_x_lower_limit)
      (lim.costmap_y_upper_limit - lim.costmap_y_lower_limit) (y - lim.costmap_y_lower_limit)
      (x - lim.costmap_x_lower_limit) (by omega) (by omega) (by omega) (by omega)
    have e : CostMapInflation.cellOffset lim x y
        = (y - lim.costmap_y_lower_limit)
            * (lim.costmap_x_upper_limit - lim.costmap_x_lower_limit)
          + (x - lim.costmap_x_lower_limit) := by
      unfold CostMapInflation.cellOffset; ring
    rw [e]
    omega
  have hcell := inflate_cell grid length radius resolution lim x y hr hx hy hoff
  constructor
  · intro hobs
    have hobs2 : CostMapInflation.get_cost lim x y grid = CostMapInflation.MAX_COST := hobs
    rw [hcell, if_pos hobs2]
    exact hobs
  · intro hne
    have hne2 : ¬ CostMapInflation.get_cost lim x y grid = CostMapInflation.MAX_COST := hne
    rw [hcell, if_neg hne2]
    obtain ⟨hex, hall⟩ := higherCost_spec lim ⌈radius / resolution⌉ grid hcost x y hr hx hy
    refine ⟨CostMapInflation.higherCost lim ⌈radius / resolution⌉ grid x y, hex, hall,
      fun hm => ?_, fun hm => ?_, fun hm => ?_⟩
    · rw [hm]; rfl
    · unfold CostMapInflation.compute_inflated_costmap
      rw [if_neg (by unfold CostMapInflation.MAX_COST; omega),
        if_pos (by unfold CostMapInflation.INSCRIBED_INFLATED_OBSTACLE; omega)]
      rfl
    · unfold CostMapInflation.compute_inflated_costmap
      rw [if_neg (by unfold CostMapInflation.MAX_COST; omega),
        if_neg (by unfold CostMapInflation.INSCRIBED_INFLATED_OBSTACLE; omega)]

/-- C25 at a concrete input: in the row `[127, 0, 0]` with radius 1 the obstacle cell (0, 0)
is returned with cost 127. -/
theorem C25_inflation_rule_witness :
    (CostMapInflation.inflate (gridOfList [127, 0, 0]) 3 1 1 rowOfThree).ret
      (CostMapInflation.cellOffset rowOfThree 0 0) = 127 :=
  (C25_inflation_rule (gridOfList [127, 0, 0]) 3 1 1 rowOfThree 0 0
    (gridOfList_costs _ (by decide)) (by decide!) (by decide) (by decide) (by decide)).1
    (by decide)

/-! ### Sample positions and termination of the sampling loop -/

/-- The offsets the sampling loop visits, when its step is positive and the iteration bound
is large enough. -/
theorem sampleLoop_eq (hi step : Nat) (hstep : 1 ≤ step) :
    ∀ fuel j : Nat, hi - j < fuel →
      sampleLoop fuel j hi step
        = some ((List.range ((hi - j + step - 1) / step)).map (fun k => j + k * step)) := by
  intro fuel
  induction fuel with
  | zero => intro j h; omega
  | succ n ih =>
    intro j h
    by_cases hj : j < hi
    · have hn : (hi - j + step - 1) / step = (hi - (j + step) + step - 1) / step + 1 := by
        by_cases hs : step ≤ hi - j
        · have e : hi - j + step - 1 = (hi - (j + step) + step - 1) + step := by omega
          rw [e, Nat.add_div_right _ (by omega)]
        · have e1 : (hi - (j + step) + step - 1) / step = 0 := Nat.div_eq_of_lt (by omega)
          have e2 : (hi - j + step - 1) / step = 1 :=
            Nat.div_eq_of_lt_le (by omega) (by omega)
          rw [e1, e2]
      simp only [sampleLoop, hj, if_true, ih (j + step) (by omega), Option.map_some']
      rw [hn, List.range_succ_eq_map, List.map_cons, List.map_map]
      congr 2
      · simp
      · apply List.map_congr_left
        intro k _
        simp only [Function.comp, Nat.succ_eq_add_one]
        ring
    · have hz : (hi - j + step - 1) / step = 0 := Nat.div_eq_of_lt (by omega)
      simp [sampleLoop, hj, hz]

/-- A loop that is entered with step 0 never ends. -/
theorem sampleLoop_zero_step (j hi : Nat) (hj : j < hi) :
    ∀ fuel : Nat, sampleLoop fuel j hi 0 = none := by
  intro fuel
  induction fuel with
  | zero => rfl
  | succ n ih => simp [sampleLoop, hj, ih]

/-- With a positive step the offsets of a line are evenly spaced from `L / 10` on, and any
iteration bound of at least `L` gives them. -/
theorem sampleOffsets_eq (stepDiv L : Nat) (hstep : 1 ≤ L / stepDiv) :
    (∀ fuel, L ≤ fuel →
      sampleLoop fuel (L / 10) (8 * L / 10) (L / stepDiv) = some (sampleOffsets stepDiv L)) ∧
    sampleOffsets stepDiv L
      = (List.range (sampleOffsets stepDiv L).length).map
          (fun k => L / 10 + k * (L / stepDiv)) := by
  have hle := Nat.div_le_self L stepDiv
  have hL : 8 * L / 10 - L / 10 < L := by omega
  have hoff : sampleOffsets stepDiv L
      = (List.range ((8 * L / 10 - L / 10 + L / stepDiv - 1) / (L / stepDiv))).map
          (fun k => L / 10 + k * (L / stepDiv)) := by
    simp [sampleOffsets, sampleLoop_eq (8 * L / 10) (L / stepDiv) hstep L (L / 10) hL]
  constructor
  · intro fuel hfuel
    rw [sampleLoop_eq (8 * L / 10) (L / stepDiv) hstep fuel (L / 10) (by omega), hoff]
  · have hlen : (sampleOffsets stepDiv L).length
        = (8 * L / 10 - L / 10 + L / stepDiv - 1) / (L / stepDiv) := by
      rw [hoff, List.length_map, List.length_range]
    rw [hlen]
    exact hoff

/-- Every offset of the sampling loop lies in the interior `[L / 10, 8 L / 10)` of the run. -/
theorem sampleOffsets_mem (stepDiv L : Nat) (hstep : 1 ≤ L / stepDiv) (j : Nat)
    (hj : j ∈ sampleOffsets stepDiv L) : L / 10 ≤ j ∧ j < 8 * L / 10 ∧ j < L := by
  have hle := Nat.div_le_self L stepDiv
  obtain ⟨l, hl, _, hmem⟩ :=
    sampleLoop_spec (8 * L / 10) (L / stepDiv) hstep L (L / 10) (by omega)
  have hoff : sampleOffsets stepDiv L = l := by simp [sampleOffsets, hl]
  rw [hoff] at hj
  have := hmem j hj
  omega

/-- The lookups of the sampling loop of one line: every offset is an index of
`max_label_indxs`, and the pixel found there is the pixel of the winning run at that
offset. -/
theorem sample_lookup (fm : ℚ) (stepDiv : Nat) (line : List ℚ)
    (hstep : 1 ≤ maxLabelCount fm line / stepDiv) :
    ∃ s, IsMaximalRun fm line s (maxLabelCount fm line) ∧
      ∀ j ∈ sampleOffsets stepDiv (maxLabelCount fm line),
        maxLabelCount fm line / 10 ≤ j ∧ j < 8 * maxLabelCount fm line / 10 ∧
        j < (maxLabelIndxs fm line).length ∧
        (maxLabelIndxs fm line).getD j 0 = s + j ∧
        s + j < s + maxLabelCount fm line := by
  have hle := Nat.div_le_self (maxLabelCount fm line) stepDiv
  obtain ⟨s, hs, _, hidx⟩ := (labelLine_spec fm line).2 (by omega)
  refine ⟨s, hs, fun j hj => ?_⟩
  obtain ⟨h1, h2, h3⟩ := sampleOffsets_mem stepDiv _ hstep j hj
  have hlen : (maxLabelIndxs fm line).length = maxLabelCount fm line := by
    rw [hidx, List.length_range']
  refine ⟨h1, h2, by omega, ?_, by omega⟩
  rw [List.getD_eq_getElem _ _ (by omega)]
  simp only [hidx, List.getElem_range']
  omega

/-- C22. Sample positions stay inside the winning run, both copies.  For a scan line whose
longest run has length `L` at or above the minimum support (20 in the robot copy, 100 in
the app copy) the sampled offsets are `L/10, L/10 + step, L/10 + 2 step, ...` with
`step = floor (L / 20)` in the robot copy and `floor (L / 10)` in the app copy; every
offset `j` satisfies `floor (L / 10) <= j < floor (8 L / 10)`, so `j` is below the length
`L` of the index list, and the pixel looked up is pixel `s + j` of the winning run, which
starts at `s` and has `L` pixels. -/
theorem C22_sample_positions (lineB lineA : List ℚ)
    (hB : 20 ≤ maxLabelCount Robot.kFloorMinDepth lineB)
    (hA : 100 ≤ maxLabelCount 0 lineA) :
    (sampleOffsets 20 (maxLabelCount Robot.kFloorMinDepth lineB)
        = (List.range (sampleOffsets 20 (maxLabelCount Robot.kFloorMinDepth lineB)).length).map
            (fun k => maxLabelCount Robot.kFloorMinDepth lineB / 10
              + k * (maxLabelCount Robot.kFloorMinDepth lineB / 20)) ∧
      ∃ s, IsMaximalRun 0.65 lineB s (maxLabelCount Robot.kFloorMinDepth lineB) ∧
        ∀ j ∈ sampleOffsets 20 (maxLabelCount Robot.kFloorMinDepth lineB),
          maxLabelCount Robot.kFloorMinDepth lineB / 10 ≤ j ∧
          j < 8 * maxLabelCount Robot.kFloorMinDepth lineB / 10 ∧
          j < (maxLabelIndxs Robot.kFloorMinDepth lineB).length ∧
          (maxLabelIndxs Robot.kFloorMinDepth lineB).getD j 0 = s + j ∧
          s + j < s + maxLabelCount Robot.kFloorMinDepth lineB) ∧
    (sampleOffsets 10 (maxLabelCount 0 lineA)
        = (List.range (sampleOffsets 10 (maxLabelCount 0 lineA)).length).map
            (fun k => maxLabelCount 0 lineA / 10 + k * (maxLabelCount 0 lineA / 10)) ∧
      ∃ s, IsMaximalRun 0 lineA s (maxLabelCount 0 lineA) ∧
        ∀ j ∈ sampleOffsets 10 (maxLabelCount 0 lineA),
          maxLabelCount 0 lineA / 10 ≤ j ∧
          j < 8 * maxLabelCount 0 lineA / 10 ∧
          j < (maxLabelIndxs 0 lineA).length ∧
          (maxLabelIndxs 0 lineA).getD j 0 = s + j ∧
          s + j < s + maxLabelCount 0 lineA) :=
  ⟨⟨(sampleOffsets_eq 20 _ (by omega)).2,
      sample_lookup Robot.kFloorMinDepth 20 lineB (by omega)⟩,
   ⟨(sampleOffsets_eq 10 _ (by omega)).2, sample_lookup 0 10 lineA (by omega)⟩⟩

/-- C22 at concrete inputs: a robot line of 20 pixels of depth 1 and an app line of 100
pixels of depth 1; the app line is sampled at the offsets 10, 20, ..., 70. -/
theorem C22_sample_positions_witness :
    sampleOffsets 10 (maxLabelCount 0 (List.replicate 100 1))
      = (List.range (sampleOffsets 10 (maxLabelCount 0 (List.replicate 100 1))).length).map
          (fun k => maxLabelCount 0 (List.replicate 100 1) / 10
            + k * (maxLabelCount 0 (List.replicate 100 1) / 10)) :=
  (C22_sample_positions (List.replicate 20 1) (List.replicate 100 1) (by decide!)
    (by decide!)).2.1

/-- C27. The sampling loop terminates, both copies.  For a winning run of length `L` that
passes the minimum support (`L >= 20` in the robot copy, `L >= 100` in the app copy) the
step is at least 1 and the loop ends after at most 28, resp. 8, iterations: run with any
iteration bound of at least `L` it returns the offsets it visited.  The check is what
excludes a zero step: for `2 <= L < 20` the step `floor (L / 20)` of the robot copy is 0, for
`2 <= L < 10` so is the step `floor (L / 10)` of the app copy, and the loop, which is entered,
never ends, whatever the iteration bound. -/
theorem C27_sampling_terminates (L : Nat) :
    (20 ≤ L → 1 ≤ L / 20 ∧ (sampleOffsets 20 L).length ≤ 28 ∧
      ∀ fuel, L ≤ fuel →
        sampleLoop fuel (L / 10) (8 * L / 10) (L / 20) = some (sampleOffsets 20 L)) ∧
    (100 ≤ L → 1 ≤ L / 10 ∧ (sampleOffsets 10 L).length ≤ 8 ∧
      ∀ fuel, L ≤ fuel →
        sampleLoop fuel (L / 10) (8 * L / 10) (L / 10) = some (sampleOffsets 10 L)) ∧
    (2 ≤ L → L < 20 → L / 20 = 0 ∧
      ∀ fuel, sampleLoop fuel (L / 10) (8 * L / 10) (L / 20) = none) ∧
    (2 ≤ L → L < 10 → L / 10 = 0 ∧
      ∀ fuel, sampleLoop fuel (L / 10) (8 * L / 10) (L / 10) = none) := by
  refine ⟨fun h => ⟨by omega, (sampleOffsets_length_robot L h).2,
      (sampleOffsets_eq 20 L (by omega)).1⟩,
    fun h => ⟨by omega, (sampleOffsets_length_app L h).2, (sampleOffsets_eq 10 L (by omega)).1⟩,
    fun h1 h2 => ?_, fun h1 h2 => ?_⟩
  · have hz : L / 20 = 0 := by omega
    refine ⟨hz, fun fuel => ?_⟩
    rw [hz]
    exact sampleLoop_zero_step _ _ (by omega) fuel
  · have hz : L / 10 = 0 := by omega
    refine ⟨hz, fun fuel => ?_⟩
    rw [hz]
    exact sampleLoop_zero_step _ _ (by omega) fuel

/-! ### The mask of raised pixels -/

/-- C23. Raised-pixel mask, both copies.  At every pixel the mask handed to the contour
search is 255 when the masked residual is strictly greater than the threshold (0.035 in
the robot copy, 0.03 in the app copy) and 0 otherwise, so it marks the pixel exactly when
the residual exceeds the threshold; a pixel whose filtered depth is 0 has residual 0 and
is not marked, whatever the plane is. -/
theorem C23_raised_pixel_mask (lib : CvLib) (fB : Robot.Frame) (fA : App.Frame) (a b c : ℚ)
    (i j : Int) :
    ((Robot.componentsImage lib fB a b c).at i j
        = (if (Robot.residualMap lib fB a b c).at i j > 0.035 then 255 else 0) ∧
      ((Robot.componentsImage lib fB a b c).at i j ≠ 0
        ↔ (Robot.residualMap lib fB a b c).at i j > 0.035) ∧
      ((Robot.depthFiltered fB).at i j = 0 →
        (Robot.residualMap lib fB a b c).at i j = 0 ∧
        (Robot.componentsImage lib fB a b c).at i j = 0)) ∧
    ((App.componentsImage lib fA a b c).at i j
        = (if (App.residualMap lib fA a b c).at i j > 0.03 then 255 else 0) ∧
      ((App.componentsImage lib fA a b c).at i j ≠ 0
        ↔ (App.residualMap lib fA a b c).at i j > 0.03) ∧
      ((App.depthFiltered fA).at i j = 0 →
        (App.residualMap lib fA a b c).at i j = 0 ∧
        (App.componentsImage lib fA a b c).at i j = 0)) := by
  have hB : (Robot.componentsImage lib fB a b c).at i j
      = (if (Robot.residualMap lib fB a b c).at i j > 0.035 then 255 else 0) := rfl
  have hA : (App.componentsImage lib fA a b c).at i j
      = (if (App.residualMap lib fA a b c).at i j > 0.03 then 255 else 0) := rfl
  have hzB : (Robot.depthFiltered fB).at i j = 0 →
      (Robot.residualMap lib fB a b c).at i j = 0 := by
    intro hz
    simp only [Mat.at, Robot.residualMap, diffFiltered, copyToMasked, thresholdBinary] at hz ⊢
    simp [hz]
  have hzA : (App.depthFiltered fA).at i j = 0 →
      (App.residualMap lib fA a b c).at i j = 0 := by
    intro hz
    simp only [Mat.at, App.residualMap, diffFiltered, copyToMasked, thresholdBinary] at hz ⊢
    simp [hz]
  refine ⟨⟨hB, ?_, fun hz => ⟨hzB hz, ?_⟩⟩, ⟨hA, ?_, fun hz => ⟨hzA hz, ?_⟩⟩⟩
  · rw [hB]
    split_ifs with h
    · exact ⟨fun _ => h, fun _ => by norm_num⟩
    · exact ⟨fun hne => absurd rfl hne, fun hgt => absurd hgt h⟩
  · rw [hB, hzB hz, if_neg (by norm_num)]
  · rw [hA]
    split_ifs with h
    · exact ⟨fun _ => h, fun _ => by norm_num⟩
    · exact ⟨fun hne => absurd rfl hne, fun hgt => absurd hgt h⟩
  · rw [hA, hzA hz, if_neg (by norm_num)]

/-! ### The residual of the app copy on the fitted model -/

/-- The residual map of the app copy, pixel by pixel. -/
theorem app_residual_at (lib : CvLib) (f : App.Frame) (a b c : ℚ) (i j : Int)
    (hj0 : 0 ≤ j) (hj1 : j < f.image_width) :
    (App.residualMap lib f a b c).at i j
      = if (App.depthFiltered f).at i j > 0 then
          (a * (((j : ℚ) - App.halfWidth f) / App.fx * (App.depthFiltered f).at i j)
            + b * (((i : ℚ) - App.halfHeight f) / App.fy * (App.depthFiltered f).at i j)
            + c - (App.depthFiltered f).at i j) / lib.sqrt (a ^ 2 + b ^ 2 + 1)
        else 0 := by
  have hcols : (App.depthFiltered f).cols = f.image_width := rfl
  have hcols2 : (App.residualMap lib f a b c).cols = f.image_width := rfl
  simp only [Mat.at, hcols, hcols2]
  simp only [App.residualMap, diffFiltered, copyToMasked, thresholdBinary, hcols,
    offset_div _ _ _ hj0 hj1, offset_mod _ _ _ hj0 hj1]
  by_cases hd : (App.depthFiltered f).data (i * f.image_width + j) > 0
  · simp only [hd, if_true]
    rw [if_pos (by norm_num)]
  · simp [hd]

/-- The residual of the app copy at a valid pixel whose depth is the value of the fitted
model `d = a x + b y + c` at the pixel's sample row `(x, y, 1)`: it is
`(a (x2 d - x) + b (y2 d - y)) / norm`, where `x2, y2` are the coordinates the residual map
uses. -/
theorem app_residual_on_model (lib : CvLib) (f : App.Frame) (a b c : ℚ) (i j : Int)
    (hj0 : 0 ≤ j) (hj1 : j < f.image_width)
    (hvalid : (App.depthFiltered f).at i j > 0)
    (hmodel : (App.depthFiltered f).at i j
      = a * (((j : ℚ) - (f.image_width : ℚ) / 2) / App.fx)
        + b * (((i : ℚ) - (f.image_height : ℚ) / 2) / App.fy) + c) :
    (App.residualMap lib f a b c).at i j
      = (a * (((j : ℚ) - App.halfWidth f) / App.fx * (App.depthFiltered f).at i j
              - ((j : ℚ) - (f.image_width : ℚ) / 2) / App.fx)
          + b * (((i : ℚ) - App.halfHeight f) / App.fy * (App.depthFiltered f).at i j
              - ((i : ℚ) - (f.image_height : ℚ) / 2) / App.fy))
        / lib.sqrt (a ^ 2 + b ^ 2 + 1) := by
  rw [app_residual_at lib f a b c i j hj0 hj1, if_pos hvalid]
  congr 1
  linear_combination (-1 : ℚ) * hmodel

theorem slopeFrameA_filtered (r c : Int) (hc0 : 0 ≤ c) (hc1 : c < 100) :
    (App.depthFiltered slopeFrameA).at r c = (c : ℚ) / 100 + 1 / 2 := by
  have h : (App.depthFiltered slopeFrameA).at r c
      = if (((r * 100 + c) % 100 : Int) : ℚ) / 100 + 1 / 2 > 1.5 then 0
        else (((r * 100 + c) % 100 : Int) : ℚ) / 100 + 1 / 2 := rfl
  rw [h, offset_mod 100 r c hc0 hc1]
  have hq : (c : ℚ) ≤ 99 := by exact_mod_cast (by omega : c ≤ 99)
  rw [if_neg (by norm_num; linarith)]

theorem slopeFrameA_rowLine (r : Int) :
    App.rowLine slopeFrameA r = App.rowLine slopeFrameA 0 := by
  unfold App.rowLine
  apply List.map_congr_left
  intro c hc
  rw [mem_intRange] at hc
  rw [slopeFrameA_filtered r c hc.1 hc.2, slopeFrameA_filtered 0 c hc.1 hc.2]

theorem slopeFrameA_line :
    maxLabelCount 0 (App.rowLine slopeFrameA 0) = 100 ∧
    (sampleOffsets 10 100).map (fun j => (maxLabelIndxs 0 (App.rowLine slopeFrameA 0)).getD j 0)
      = [10, 20, 30, 40, 50, 60, 70] := by
  decide!

/-- The samples of one row of the slope frame: columns 10, 20, ..., 70. -/
theorem slopeFrameA_rowSamples (r : Int) :
    App.rowSamples slopeFrameA r
      = [10, 20, 30, 40, 50, 60, 70].map (fun n : Nat =>
          ({ location :=
              { x := ((((n : Int) : ℚ)) - ((100 : Int) : ℚ) / 2) / App.fx,
                y := ((r : ℚ) - ((160 : Int) : ℚ) / 2) / App.fy,
                z := 1 },
             depth := (((n : Int) : ℚ)) / 100 + 1 / 2 } : Sample)) := by
  have hcount : ¬ maxLabelCount 0 (App.rowLine slopeFrameA 0) < 100 := by
    rw [slopeFrameA_line.1]; omega
  have hsamples : App.rowSamples slopeFrameA r
      = ((sampleOffsets 10 (maxLabelCount 0 (App.rowLine slopeFrameA 0))).map
          (fun j => (maxLabelIndxs 0 (App.rowLine slopeFrameA 0)).getD j 0)).map
          (fun n : Nat =>
            ({ location :=
                { x := ((((n : Int) : ℚ)) - ((100 : Int) : ℚ) / 2) / App.fx,
                  y := ((r : ℚ) - ((160 : Int) : ℚ) / 2) / App.fy,
                  z := 1 },
               depth := (App.depthFiltered slopeFrameA).at r (n : Int) } : Sample)) := by
    unfold App.rowSamples
    simp only [slopeFrameA_rowLine r, hcount, if_false, List.map_map]
    rfl
  rw [hsamples, slopeFrameA_line.1, slopeFrameA_line.2]
  apply List.map_congr_left
  intro n hn
  have hn1 : (n : Int) < 100 := by
    have : n ≤ 70 := by
      simp only [List.mem_cons, List.mem_singleton] at hn
      rcases hn with h | h | h | h | h | h | h | h <;> first | omega | cases h
    omega
  rw [slopeFrameA_filtered r n (by omega) hn1]

theorem length_flatMap_const {α β : Type} (g : α → List β) (n : Nat) :
    ∀ l : List α, (∀ a ∈ l, (g a).length = n) → (l.flatMap g).length = n * l.length := by
  intro l
  induction l with
  | nil => intro _; rfl
  | cons a t ih =>
    intro h
    rw [List.flatMap_cons, List.length_append, h a (List.mem_cons_self _ _),
      ih (fun b hb => h b (List.mem_cons_of_mem _ hb)), List.length_cons]
    ring

theorem slopeFrameA_samples : (App.floorSamples slopeFrameA).length = 560 := by
  have hrows : (App.bandRows slopeFrameA.image_height).length = 80 := by decide!
  rw [App.floorSamples, length_flatMap_const (App.rowSamples slopeFrameA) 7 _
    (fun r _ => by rw [slopeFrameA_rowSamples r]; rfl), hrows]

theorem slopeFrameA_mem (r : Int) (hr : 0 ≤ r ∧ r < 80) (n : Nat)
    (hn : n ∈ [10, 20, 30, 40, 50, 60, 70]) :
    ({ location :=
        { x := ((((n : Int) : ℚ)) - ((100 : Int) : ℚ) / 2) / App.fx,
          y := ((r : ℚ) - ((160 : Int) : ℚ) / 2) / App.fy,
          z := 1 },
       depth := (((n : Int) : ℚ)) / 100 + 1 / 2 } : Sample) ∈ App.floorSamples slopeFrameA := by
  rw [App.floorSamples, List.mem_flatMap]
  refine ⟨r, ?_, ?_⟩
  · rw [App.bandRows, mem_intRange]
    simp only [slopeFrameA]
    omega
  · rw [slopeFrameA_rowSamples r]
    exact List.mem_map.2 ⟨n, hn, rfl⟩

/-- The plane fitted to the slope frame is `(fx / 100, 0, 1)`. -/
theorem slopeFrameA_plane :
    fitPlane (App.floorSamples slopeFrameA) 0 0 = App.fx / 100 ∧
    fitPlane (App.floorSamples slopeFrameA) 1 0 = 0 ∧
    fitPlane (App.floorSamples slopeFrameA) 2 0 = 1 := by
  have hfx : App.fx ≠ 0 := by decide!
  have hfy : App.fy ≠ 0 := by decide!
  apply fitPlane_of_model
  · intro s hs
    rw [App.floorSamples, List.mem_flatMap] at hs
    obtain ⟨r, _, hs⟩ := hs
    rw [slopeFrameA_rowSamples r] at hs
    obtain ⟨n, _, rfl⟩ := List.mem_map.1 hs
    simp only
    field_simp
    ring
  · apply normalMatrix_det_ne_zero _ _ _ _
      (slopeFrameA_mem 0 (by omega) 10 (by decide))
      (slopeFrameA_mem 0 (by omega) 20 (by decide))
      (slopeFrameA_mem 1 (by omega) 10 (by decide))
    simp only
    intro h
    field_simp at h
    norm_num [App.fx, App.fy] at h

/-- C24 fails on the code at this input.  The 100 x 160 frame whose pixel of column `col`
has depth `col / 100 + 1/2` is admitted by a fresh detector and gives 560 samples, all of
them with `depth = (fx / 100) x + 0 y + 1` for their rows `(x, y, 1)`, so the fitted plane is
`(fx / 100, 0, 1)`.  Pixel (row 0, column 90) is valid, its depth 7/5 is the value of the
fitted model at its row `((90 - 100/2) / fx, (0 - 160/2) / fy, 1)`, and its residual is
`(4/25) / sqrt ((fx / 100)^2 + 0^2 + 1)`, which is not 0. -/
theorem C24_app_residual_failing_input :
    ¬ slopeFrameA.timestamp < Detector.initial.prev_image_timestamp_ + 1 / 1 ∧
    slopeFrameA.color_to_depth_ratio = 1 ∧
    (App.floorSamples slopeFrameA).length = 560 ∧
    (fitPlane (App.floorSamples slopeFrameA) 0 0 = App.fx / 100 ∧
      fitPlane (App.floorSamples slopeFrameA) 1 0 = 0 ∧
      fitPlane (App.floorSamples slopeFrameA) 2 0 = 1) ∧
    (App.depthFiltered slopeFrameA).at 0 90 = 7 / 5 ∧
    (7 / 5 : ℚ) = fitPlane (App.floorSamples slopeFrameA) 0 0
          * ((((90 : Int) : ℚ) - (slopeFrameA.image_width : ℚ) / 2) / App.fx)
        + fitPlane (App.floorSamples slopeFrameA) 1 0
          * ((((0 : Int) : ℚ) - (slopeFrameA.image_height : ℚ) / 2) / App.fy)
        + fitPlane (App.floorSamples slopeFrameA) 2 0 ∧
    (∀ lib : CvLib,
      (App.residualMap lib slopeFrameA (fitPlane (App.floorSamples slopeFrameA) 0 0)
          (fitPlane (App.floorSamples slopeFrameA) 1 0)
          (fitPlane (App.floorSamples slopeFrameA) 2 0)).at 0 90
        = 4 / 25 / lib.sqrt ((App.fx / 100) ^ 2 + 0 ^ 2 + 1) ∧
      (lib.sqrt ((App.fx / 100) ^ 2 + 0 ^ 2 + 1) ≠ 0 →
        (App.residualMap lib slopeFrameA (fitPlane (App.floorSamples slopeFrameA) 0 0)
          (fitPlane (App.floorSamples slopeFrameA) 1 0)
          (fitPlane (App.floorSamples slopeFrameA) 2 0)).at 0 90 ≠ 0)) := by
  obtain ⟨ha, hb, hc⟩ := slopeFrameA_plane
  have hfx : App.fx ≠ 0 := by decide!
  have hd : (App.depthFiltered slopeFrameA).at 0 90 = 7 / 5 := by
    rw [slopeFrameA_filtered 0 90 (by norm_num) (by norm_num)]
    norm_num
  have hres : ∀ lib : CvLib,
      (App.residualMap lib slopeFrameA (App.fx / 100) 0 1).at 0 90
        = 4 / 25 / lib.sqrt ((App.fx / 100) ^ 2 + 0 ^ 2 + 1) := by
    intro lib
    have hw : App.halfWidth slopeFrameA = 50 := by decide!
    rw [app_residual_at lib slopeFrameA _ _ _ 0 90 (by norm_num) (by decide), hd,
      if_pos (by norm_num), hw]
    refine congrArg₂ (fun p q : ℚ => p / q) ?_ rfl
    push_cast
    field_simp
    ring
  refine ⟨by decide!, rfl, slopeFrameA_samples, ⟨ha, hb, hc⟩, hd, ?_, fun lib => ?_⟩
  · rw [ha, hb, hc]
    simp only [slopeFrameA]
    field_simp
    ring
  · rw [ha, hb, hc, hres lib]
    exact ⟨rfl, fun hs => div_ne_zero (by norm_num) hs⟩

/-! ### Successive calls on one detector -/

theorem robot_callSequence_stored (lib : CvLib) (frames : List Robot.Frame) :
    ∀ det : Detector,
      List.Chain (fun p q : ℚ => p ≤ q) det.prev_image_timestamp_
        ((Robot.callSequence lib det frames).map
          (fun r => r.detector.prev_image_timestamp_)) := by
  induction frames with
  | nil => intro det; exact List.Chain.nil
  | cons f rest ih =>
    intro det
    simp only [Robot.callSequence, List.map_cons]
    refine List.Chain.cons ?_ (ih _)
    by_cases h : f.timestamp < det.prev_image_timestamp_ + 1 / 10
    · rw [robot_process_rejected lib det f h]
    · rw [robot_process_admitted lib det f h]
      simp only
      linarith

theorem robot_admitted_spaced (lib : CvLib) (frames : List Robot.Frame) :
    ∀ det : Detector,
      List.Chain (fun t1 t2 : ℚ => t1 + 1 / 10 ≤ t2) det.prev_image_timestamp_
        (Robot.admittedTimestamps lib det frames) := by
  induction frames with
  | nil => intro det; exact List.Chain.nil
  | cons f rest ih =>
    intro det
    by_cases h : f.timestamp < det.prev_image_timestamp_ + 1 / 10
    · have hg := (robot_gateRejects_iff det f.timestamp).2 h
      simp only [Robot.admittedTimestamps, hg, if_true]
      rw [robot_process_rejected lib det f h]
      exact ih det
    · have hg : Robot.gateRejects det f.timestamp = false := by
        rw [← Bool.not_eq_true, robot_gateRejects_iff]; exact h
      simp only [Robot.admittedTimestamps, hg]
      rw [robot_process_admitted lib det f h]
      refine List.Chain.cons (by linarith) ?_
      exact ih ⟨f.timestamp⟩

theorem app_callSequence_stored (lib : CvLib) (frames : List App.Frame) :
    ∀ det : Detector,
      List.Chain (fun p q : ℚ => p ≤ q) det.prev_image_timestamp_
        ((App.callSequence lib det frames).map
          (fun r => r.detector.prev_image_timestamp_)) := by
  induction frames with
  | nil => intro det; exact List.Chain.nil
  | cons f rest ih =>
    intro det
    simp only [App.callSequence, List.map_cons]
    refine List.Chain.cons ?_ (ih _)
    by_cases h : f.timestamp < det.prev_image_timestamp_ + 1 / 1
    · rw [app_process_rejected lib det f h]
    · rw [app_process_admitted lib det f h]
      simp only
      linarith

theorem app_admitted_spaced (lib : CvLib) (frames : List App.Frame) :
    ∀ det : Detector,
      List.Chain (fun t1 t2 : ℚ => t1 + 1 / 1 ≤ t2) det.prev_image_timestamp_
        (App.admittedTimestamps lib det frames) := by
  induction frames with
  | nil => intro det; exact List.Chain.nil
  | cons f rest ih =>
    intro det
    by_cases h : f.timestamp < det.prev_image_timestamp_ + 1 / 1
    · have hg := (app_gateRejects_iff det f.timestamp).2 h
      simp only [App.admittedTimestamps, hg, if_true]
      rw [app_process_rejected lib det f h]
      exact ih det
    · have hg : App.gateRejects det f.timestamp = false := by
        rw [← Bool.not_eq_true, app_gateRejects_iff]; exact h
      simp only [App.admittedTimestamps, hg]
      rw [app_process_admitted lib det f h]
      refine List.Chain.cons (by linarith) ?_
      exact ih ⟨f.timestamp⟩

/-- C26. Accepted frames are spaced by at least the gate interval, both copies.  For every
sequence of calls on one detector that starts in the initial state (stored timestamp 0),
whatever the order of the timestamps: the stored timestamp never decreases from one call
to the next; the first admitted timestamp is at least `1/fps` and every admitted
timestamp is at least the admitted timestamp before it plus `1/fps` (fps 10 in the robot
copy, 1 in the app copy). -/
theorem C26_accepted_frames_spaced (lib : CvLib) (framesB : List Robot.Frame)
    (framesA : List App.Frame) :
    (List.Chain (fun p q : ℚ => p ≤ q) 0
        ((Robot.callSequence lib Detector.initial framesB).map
          (fun r => r.detector.prev_image_timestamp_)) ∧
      List.Chain (fun t1 t2 : ℚ => t1 + 1 / 10 ≤ t2) 0
        (Robot.admittedTimestamps lib Detector.initial framesB) ∧
      (∀ t, (Robot.admittedTimestamps lib Detector.initial framesB).head? = some t →
        1 / 10 ≤ t)) ∧
    (List.Chain (fun p q : ℚ => p ≤ q) 0
        ((App.callSequence lib Detector.initial framesA).map
          (fun r => r.detector.prev_image_timestamp_)) ∧
      List.Chain (fun t1 t2 : ℚ => t1 + 1 / 1 ≤ t2) 0
        (App.admittedTimestamps lib Detector.initial framesA) ∧
      (∀ t, (App.admittedTimestamps lib Detector.initial framesA).head? = some t →
        1 / 1 ≤ t)) := by
  have hB := robot_admitted_spaced lib framesB Detector.initial
  have hA := app_admitted_spaced lib framesA Detector.initial
  refine ⟨⟨robot_callSequence_stored lib framesB Detector.initial, hB, ?_⟩,
    ⟨app_callSequence_stored lib framesA Detector.initial, hA, ?_⟩⟩
  · intro t ht
    cases hl : Robot.admittedTimestamps lib Detector.initial framesB with
    | nil => rw [hl] at ht; cases ht
    | cons a l =>
      rw [hl] at ht hB
      cases ht
      have := List.rel_of_chain_cons hB
      simp only [Detector.initial] at this
      linarith
  · intro t ht
    cases hl : App.admittedTimestamps lib Detector.initial framesA with
    | nil => rw [hl] at ht; cases ht
    | cons a l =>
      rw [hl] at ht hA
      cases ht
      have := List.rel_of_chain_cons hA
      simp only [Detector.initial] at this
      linarith

/-! ### Back-projection of the rectangle corners -/

/-- C28. Back-projected corners lie on the fitted floor plane (robot copy).  For a plane
`(a, b, c)`, focal lengths `fx, fy > 0` and a pixel corner `(px, py)` whose denominator
`1 - (px - cx) a / fx - (py - cy) b / fy` is not zero, the three floats `(X, Y, Z)` written
for the corner satisfy `Z = a X + b Y + c`. -/
theorem C28_corners_on_plane (f : Robot.Frame) (a b c : ℚ) (px py : Int)
    (hfx : 0 < f.depth_fx) (hfy : 0 < f.depth_fy)
    (hden : Robot.denominator f a b px py ≠ 0) :
    ∃ X Y Z : ℚ, Robot.cornerFloats f a b c px py = [X, Y, Z] ∧
      X = ((px : ℚ) - f.depth_cx) * Z / f.depth_fx ∧
      Y = ((py : ℚ) - f.depth_cy) * Z / f.depth_fy ∧
      Z = c / (1 - ((px : ℚ) - f.depth_cx) * a / f.depth_fx
            - ((py : ℚ) - f.depth_cy) * b / f.depth_fy) ∧
      Z = a * X + b * Y + c := by
  refine ⟨_, _, _, rfl, rfl, rfl, rfl, ?_⟩
  have hx : f.depth_fx ≠ 0 := ne_of_gt hfx
  have hy : f.depth_fy ≠ 0 := ne_of_gt hfy
  unfold Robot.denominator at hden
  have hd : c / Robot.denominator f a b px py * (1 - ((px : ℚ) - f.depth_cx) * a / f.depth_fx
      - ((py : ℚ) - f.depth_cy) * b / f.depth_fy) = c := div_mul_cancel₀ c hden
  linear_combination hd

/-- C28 at a concrete input: the 20 x 20 frame (focal lengths 1, principal point (10, 10)),
the plane (1/20, 0, 1) and the corner (15, 5), whose denominator is 3/4. -/
theorem C28_corners_on_plane_witness :
    ∃ X Y Z : ℚ, Robot.cornerFloats smallFrameB (1 / 20) 0 1 15 5 = [X, Y, Z] ∧
      X = ((15 : Int) - smallFrameB.depth_cx) * Z / smallFrameB.depth_fx ∧
      Y = ((5 : Int) - smallFrameB.depth_cy) * Z / smallFrameB.depth_fy ∧
      Z = 1 / (1 - ((15 : Int) - smallFrameB.depth_cx) * (1 / 20) / smallFrameB.depth_fx
            - ((5 : Int) - smallFrameB.depth_cy) * 0 / smallFrameB.depth_fy) ∧
      Z = 1 / 20 * X + 0 * Y + 1 :=
  C28_corners_on_plane smallFrameB (1 / 20) 0 1 15 5 (by decide!) (by decide!) (by decide!)

/-! ### The floor band of the app copy -/

/-- C29. Floor band indexing of the app copy.  The rows `r` with `H - 160 <= r < H - 80`
that the floor band loop scans are all rows of the depth image (`0 <= r < H`) exactly when
`H >= 160`; the first scanned row is `H - 160`, which is negative for a smaller image.  The
assertions of the function only ask for `H > 0`: they hold of a frame of height 1. -/
theorem C29_floor_band_rows (H : Int) :
    ((∀ r ∈ App.bandRows H, 0 ≤ r ∧ r < H) ↔ 160 ≤ H) ∧
    (∀ r, r ∈ App.bandRows H ↔ H - 160 ≤ r ∧ r < H - 80) ∧
    (H < 160 → H - 160 ∈ App.bandRows H ∧ H - 160 < 0) ∧
    (∃ f : App.Frame, App.Preconditions f ∧ f.image_height = 1 ∧
      ¬ ∀ r ∈ App.bandRows f.image_height, 0 ≤ r ∧ r < f.image_height) := by
  have hmem : ∀ r, r ∈ App.bandRows H ↔ H - 160 ≤ r ∧ r < H - 80 := by
    intro r
    rw [App.bandRows, mem_intRange]
  refine ⟨⟨fun h => ?_, fun h r hr => ?_⟩, hmem, fun h => ⟨(hmem _).2 (by omega), by omega⟩, ?_⟩
  · have := h (H - 160) ((hmem _).2 (by omega))
    omega
  · have := (hmem r).1 hr
    omega
  · refine ⟨{ smallFrameA with image_height := 1 }, by simp [App.Preconditions, smallFrameA], rfl, fun h => ?_⟩
    have h1 := h (-159) (by rw [App.bandRows, mem_intRange]; simp)
    omega

end FloorObjectDetection
